import Mathlib

/-! VeVerse pixel streaming launcher: release resolution, installation, version records and
the main flow.

A shallow embedding of the launcher's Go sources (`api/app.go`, `version/version.go`,
`utils/utils.go`, `http/download.go`, `download.go`, `helpers.go`, `models.go`, `http.go`,
`server.go`, `main.go`) together with theorems about them.

Conventions of the embedding:

* Go strings are lists of characters (`Str`).
* Functions that return `(value, error)` return `Except String value`; the error text is the
  prefix of the Go message (wrapped causes are dropped). A call that can panic returns an
  `Outcome`.
* The file system is an explicit state; what the network, the control plane, the archive
  reader, the header check of executables, the removal of a directory tree, the supervised
  process and the reader of its output answer is given by an environment.
* A goroutine that can end the process while the main flow runs (the reader of the output
  of the application) is an outcome of the environment that tells how it ends and on which
  side of the report of `closed` its exit falls.
* Effects that others observe (requests, status reports, installation steps, the launch)
  are recorded in traces.
* Paths follow the Unix flavour of `path/filepath` (separator `/`).
* The library functions the sources call (`semver`, `uuid`, `filepath`, `strings`,
  `encoding/binary`, `fmt`) are modelled next to the code that uses them; the case table of
  the package `unicode` is a parameter.
* The sources do not fix the language version, which decides whether a `range` loop has one
  variable or one per iteration; the functions that take the address of a loop variable are
  parameterised by `LoopVar`.
-/

namespace Launcher

/-- Go strings, as lists of characters. -/
abbrev Str := List Char

deriving instance DecidableEq for Except

/-! ## Identifiers (`github.com/gofrs/uuid`) -/

/-- A UUID value: its bytes (sixteen of them in a well-formed value). -/
structure UUID where
  bytes : List Nat
deriving DecidableEq, Repr

/-- One lowercase hexadecimal digit. -/
def hexDigit (n : Nat) : Char :=
  if n < 10 then Char.ofNat (48 + n) else Char.ofNat (87 + n)

/-- The `hex.Encode` of a byte sequence: two lowercase digits per byte. -/
def hexEncode : List Nat → Str
  | [] => []
  | b :: bs => hexDigit (b / 16 % 16) :: hexDigit (b % 16) :: hexEncode bs

/-- The `IsNil` method: every byte is zero. -/
def UUID.IsNil (u : UUID) : Bool := u.bytes.all (fun b => b == 0)

/-- The `String` method: canonical 8-4-4-4-12 hexadecimal form. -/
def UUID.String (u : UUID) : Str :=
  hexEncode (u.bytes.take 4) ++ '-' :: hexEncode ((u.bytes.drop 4).take 2)
    ++ '-' :: hexEncode ((u.bytes.drop 6).take 2)
    ++ '-' :: hexEncode ((u.bytes.drop 8).take 2)
    ++ '-' :: hexEncode (u.bytes.drop 10)

/-! ## Semantic versions (`github.com/Masterminds/semver`) -/

/-- The fields of a `semver.Version`. -/
structure Version where
  major : Nat
  minor : Nat
  patch : Nat
  pre : Str
  metadata : Str
deriving DecidableEq, Repr

/-- An ASCII decimal digit. -/
def isDigit (c : Char) : Bool := decide (48 ≤ c.toNat) && decide (c.toNat ≤ 57)

/-- A character of the class `[0-9A-Za-z\-]`. -/
def isIdentChar (c : Char) : Bool :=
  isDigit c || (decide (65 ≤ c.toNat) && decide (c.toNat ≤ 90))
    || (decide (97 ≤ c.toNat) && decide (c.toNat ≤ 122)) || c == '-'

/-- The value of a digit string read in base ten. -/
def decimalValue (ds : Str) : Nat := ds.foldl (fun acc c => 10 * acc + (c.toNat - 48)) 0

/-- The `strconv.ParseInt(s, 10, 64)` of a non-empty digit string: fails above `2^63 - 1`. -/
def parseInt64 (ds : Str) : Option Nat :=
  if decimalValue ds < 2 ^ 63 then some (decimalValue ds) else none

/-- The `strconv.ParseUint(s, 10, 64)`: digits only, non-empty, below `2^64`. -/
def parseUint64 (s : Str) : Option Nat :=
  if s ≠ [] ∧ s.all isDigit = true ∧ decimalValue s < 2 ^ 64 then some (decimalValue s) else none

/-- The regular-expression group `(\.[0-9]+)?`: the matched digits (empty when the group does
not take part) and the remaining input. -/
def optNumber : Str → Str × Str
  | '.' :: rest =>
    match rest.span isDigit with
    | ([], _) => ([], '.' :: rest)
    | (ds, rest') => (ds, rest')
  | s => ([], s)

/-- The tail of `[0-9A-Za-z\-]+(\.[0-9A-Za-z\-]+)*` once its first character is consumed. -/
def identTail : Str → Str × Str
  | [] => ([], [])
  | [c] => if isIdentChar c then ([c], []) else ([], [c])
  | c :: d :: ds =>
    if isIdentChar c then
      let r := identTail (d :: ds)
      (c :: r.1, r.2)
    else if c == '.' && isIdentChar d then
      let r := identTail ds
      (c :: d :: r.1, r.2)
    else ([], c :: d :: ds)

/-- The group `(<tag>([0-9A-Za-z\-]+(\.[0-9A-Za-z\-]+)*))?`: the inner match and the rest. -/
def optTagged (tag : Char) : Str → Str × Str
  | [] => ([], [])
  | [c] => ([], [c])
  | c :: d :: ds =>
    if c == tag && isIdentChar d then
      let r := identTail ds
      (d :: r.1, r.2)
    else ([], c :: d :: ds)

/-- The optional leading `v` of the version pattern. -/
def stripV : Str → Str
  | 'v' :: r => r
  | s => s

/-- The `semver.NewVersion`: the input must match
`^v?([0-9]+)(\.[0-9]+)?(\.[0-9]+)?(-pre)?(\+meta)?$` and each numeric segment must fit a
signed 64-bit integer. -/
def NewVersion (v : Str) : Option Version :=
  match (stripV v).span isDigit with
  | ([], _) => none
  | (m1, r1) =>
    let g2 := optNumber r1
    let g3 := optNumber g2.2
    let g5 := optTagged '-' g3.2
    let g8 := optTagged '+' g5.2
    if g8.2 ≠ [] then none
    else
      match parseInt64 m1, (if g2.1 = [] then some 0 else parseInt64 g2.1),
          (if g3.1 = [] then some 0 else parseInt64 g3.1) with
      | some major, some minor, some patch =>
        some { major := major, minor := minor, patch := patch, pre := g5.1, metadata := g8.1 }
      | _, _, _ => none

/-- The `compareSegment` helper. -/
def compareSegment (v o : Nat) : Int :=
  if v < o then -1 else if v > o then 1 else 0

/-- Byte-wise lexicographic `s > o` on Go strings. -/
def strGreater : Str → Str → Bool
  | [], _ => false
  | _ :: _, [] => true
  | a :: as, b :: bs => if a.toNat > b.toNat then true else if a.toNat < b.toNat then false
      else strGreater as bs

/-- The `comparePrePart` helper: numeric identifiers sort below alphanumeric ones. -/
def comparePrePart (s o : Str) : Int :=
  if s = o then 0
  else if s = [] then -1
  else if o = [] then 1
  else
    match parseUint64 o, parseUint64 s with
    | none, none => if strGreater s o then 1 else -1
    | none, some _ => -1
    | some _, none => 1
    | some oi, some si => if si > oi then 1 else -1

/-- The `strings.Split(s, sep)` for a one-character separator. -/
def splitOnChar (sep : Char) : Str → List Str
  | [] => [[]]
  | c :: cs =>
    match splitOnChar sep cs with
    | [] => [[]]
    | p :: ps => if c = sep then [] :: p :: ps else (c :: p) :: ps

/-- The loop of `comparePrerelease` over the identifier lists, missing parts read as empty. -/
def comparePreParts : List Str → List Str → Int
  | [], [] => 0
  | s :: ss, [] => if comparePrePart s [] ≠ 0 then comparePrePart s [] else comparePreParts ss []
  | [], o :: os => if comparePrePart [] o ≠ 0 then comparePrePart [] o else comparePreParts [] os
  | s :: ss, o :: os =>
    if comparePrePart s o ≠ 0 then comparePrePart s o else comparePreParts ss os

/-- The `comparePrerelease` helper. -/
def comparePrerelease (v o : Str) : Int := comparePreParts (splitOnChar '.' v) (splitOnChar '.' o)

/-- The `Compare` method: -1, 0 or 1. -/
def Version.Compare (v o : Version) : Int :=
  if compareSegment v.major o.major ≠ 0 then compareSegment v.major o.major
  else if compareSegment v.minor o.minor ≠ 0 then compareSegment v.minor o.minor
  else if compareSegment v.patch o.patch ≠ 0 then compareSegment v.patch o.patch
  else if v.pre = [] ∧ o.pre = [] then 0
  else if v.pre = [] then 1
  else if o.pre = [] then -1
  else comparePrerelease v.pre o.pre

/-- The `GreaterThan` method. -/
def Version.GreaterThan (v o : Version) : Bool := decide (v.Compare o > 0)

/-! ## Release metadata (`veverse-shared/model`) -/

/-- A downloadable file of a release (`FileType` is the Go field `Type`). -/
structure File where
  Id : UUID
  FileType : Str
  Url : Str
  Size : Option Int
  OriginalPath : Option Str
deriving DecidableEq, Repr

/-- A release; `Files` is `none` for a nil batch pointer. -/
structure ReleaseV2 where
  Id : UUID
  Version : Str
  Archive : Bool
  Files : Option (List File)
deriving DecidableEq, Repr

/-- A well-formed identifier whose last byte is `n` and whose other bytes are zero. -/
def uuidOfByte (n : Nat) : UUID := ⟨List.replicate 15 0 ++ [n]⟩

/-- A release without files that carries the given identifier byte and version string. -/
def releaseOf (n : Nat) (version : String) : ReleaseV2 :=
  { Id := uuidOfByte n, Version := version.toList, Archive := false, Files := none }

/-! ## `api.GetLatestReleaseV2` -/

/-- How a `for ... := range` loop allocates its variable: one variable for the whole loop
(language versions before 1.22) or a fresh one per iteration (1.22 and later). -/
inductive LoopVar where
  | perLoop
  | perIteration
deriving DecidableEq, Repr

/-- What happens to the release request: the request cannot be built, it cannot be sent,
the response has a status code of 400 or more (its body being readable or not), the body of
a good response cannot be read, it is no JSON of the expected shape, or it decodes to a
release collection. -/
inductive FetchOutcome where
  | requestError
  | sendError
  | badStatus (code : Nat) (bodyRead : Bool)
  | readError
  | decodeError
  | decoded (entities : List ReleaseV2)
deriving DecidableEq, Repr

/-- The selection loop of `GetLatestReleaseV2` from iteration `i` on. The state is
`latestVersion` and `latestRelease`; the latter is the address of the loop variable, kept as
the index of the iteration in which it was taken. -/
def selectLoop : List ReleaseV2 → Nat → Option Version → Option Nat →
    Except String (Option Version × Option Nat)
  | [], _, latestVersion, latestRelease => .ok (latestVersion, latestRelease)
  | release :: rest, i, none, _ =>
    match NewVersion release.Version with
    | none => .error "failed to parse version"
    | some v => selectLoop rest (i + 1) (some v) (some i)
  | release :: rest, i, some latestVersion, latestRelease =>
    match NewVersion release.Version with
    | none => .error "failed to parse semver"
    | some releaseVersion =>
      if latestVersion.GreaterThan releaseVersion then
        selectLoop rest (i + 1) (some releaseVersion) (some i)
      else selectLoop rest (i + 1) (some latestVersion) latestRelease

/-- Reading, after a loop over `items` has run to its end, through the address of the loop
variable taken in iteration `i`: that iteration's own variable, or the single variable, which
then holds the last item. -/
def derefLoopVar {α : Type} (sem : LoopVar) (items : List α) (i : Nat) : Option α :=
  match sem with
  | .perIteration => items[i]?
  | .perLoop => items.getLast?

/-- The part of `GetLatestReleaseV2` after the JSON decode: the loop, the nil check and the
return of the release the pointer leads to (the pointer, once set, always leads to an entry
of the collection, see `selectLoop_start_ok`). -/
def selectLatest (sem : LoopVar) (entities : List ReleaseV2) : Except String ReleaseV2 :=
  match selectLoop entities 0 none none with
  | .error e => .error e
  | .ok (some _, some i) =>
    match derefLoopVar sem entities i with
    | some r => .ok r
    | none => .error "failed to find latest version"
  | .ok _ => .error "failed to find latest version"

/-- The request URL of `GetLatestReleaseV2`. -/
def releaseUrl (api2Root platform : Str) (id : UUID) : Str :=
  api2Root ++ "/apps/public/".toList ++ id.String ++ "?platform=".toList ++ platform

/-- The outcome of a call: the requests sent and the returned pair. -/
structure Resolved where
  requests : List Str
  result : Except String ReleaseV2
deriving Repr

/-- The `GetLatestReleaseV2` function. `net` answers the request for a URL. -/
def GetLatestReleaseV2 (sem : LoopVar) (api2Root platform : Str) (net : Str → FetchOutcome)
    (id : UUID) : Resolved :=
  if id.IsNil then { requests := [], result := .error "app id is not set" }
  else
    let url := releaseUrl api2Root platform id
    match net url with
    | .requestError => { requests := [], result := .error "failed to create a HTTP request" }
    | .sendError => { requests := [url], result := .error "failed to send a HTTP GET request" }
    | .badStatus _ true =>
      { requests := [url], result := .error "failed to get launcher metadata" }
    | .badStatus _ false => { requests := [url], result := .error "failed to read response body" }
    | .readError => { requests := [url], result := .error "failed to read response body" }
    | .decodeError => { requests := [url], result := .error "failed to unmarshal response" }
    | .decoded entities => { requests := [url], result := selectLatest sem entities }

/-! ## Paths (`path/filepath`, Unix flavour) -/

/-- The `strings.Join(elems, "/")`. -/
def joinSlash : List Str → Str
  | [] => []
  | [e] => e
  | e :: f :: rest => e ++ '/' :: joinSlash (f :: rest)

/-- One step of `Clean` over the path elements; `stack` holds the kept elements, last first.
Empty and `.` elements are dropped; `..` removes the last kept element when there is one to
remove, is kept in a relative path, and is dropped at the root. -/
def cleanStep (rooted : Bool) (stack : List Str) (c : Str) : List Str :=
  if c = [] ∨ c = ['.'] then stack
  else if c = ['.', '.'] then
    match stack with
    | top :: below =>
      if top ≠ ['.', '.'] then below else if rooted then stack else c :: stack
    | [] => if rooted then [] else [c]
  else c :: stack

/-- The text of a cleaned path from its kept elements (last first): the root separator when
rooted, the elements joined, and `.` for an empty relative path. -/
def renderPath (rooted : Bool) (stack : List Str) : Str :=
  if rooted then '/' :: joinSlash stack.reverse
  else if stack = [] then ['.'] else joinSlash stack.reverse

/-- Whether a path starts at the root. -/
def isRooted : Str → Bool
  | c :: _ => decide (c = '/')
  | [] => false

/-- The elements `Clean` keeps for a path, last first. -/
def cleanStack (path : Str) : List Str :=
  (splitOnChar '/' path).foldl (cleanStep (isRooted path)) []

/-- The `filepath.Clean`. -/
def Clean (path : Str) : Str :=
  if path = [] then ['.'] else renderPath (isRooted path) (cleanStack path)

/-- An element that `Clean` keeps: not empty, not `.`, free of separators. -/
def KeptElem (e : Str) : Prop := e ≠ [] ∧ e ≠ ['.'] ∧ '/' ∉ e

/-- A plain name: a kept element other than `..`. -/
def PlainName (e : Str) : Prop := KeptElem e ∧ e ≠ ['.', '.']

/-- The shape of the kept elements of a cleaned path (last first): `..` occurs only in a
relative path and only before every plain name. -/
def NormalStack (rooted : Bool) : List Str → Prop
  | [] => True
  | e :: rest => KeptElem e ∧ NormalStack rooted rest ∧
      (e = ['.', '.'] → rooted = false ∧ ∀ t, rest.head? = some t → t = ['.', '.'])

/-- The `filepath.Join`: the elements from the first non-empty one on, joined and cleaned. -/
def Join : List Str → Str
  | [] => []
  | e :: rest => if e = [] then Join rest else Clean (joinSlash (e :: rest))

/-- The `filepath.Dir`: the cleaned path up to the last separator. -/
def Dir (path : Str) : Str := Clean (path.reverse.dropWhile (fun c => c ≠ '/')).reverse

/-- The `strings.HasPrefix`. -/
def HasPrefix : Str → Str → Bool
  | _, [] => true
  | [], _ :: _ => false
  | a :: s, b :: p => a = b && HasPrefix s p

/-! ## File system

A file system state is a finite table from cleaned paths to nodes. The operations fail only
for reasons visible in the table (a missing parent directory, a directory in the place of a
file, a directory that is not empty); permissions and device errors are outside the table.
Where the sources return such an error of `os.RemoveAll`, an oracle tells whether the call
succeeds. -/

/-- A node: a regular file with its bytes, or a directory. -/
inductive Node where
  | file (content : List Nat)
  | dir
deriving DecidableEq, Repr

/-- The table of nodes; the first entry for a path is the one that counts. -/
structure FS where
  nodes : List (Str × Node)
deriving DecidableEq, Repr

/-- The node at a path. -/
def FS.lookup (fs : FS) (p : Str) : Option Node :=
  match fs.nodes.find? (fun e => e.1 = p) with
  | some e => some e.2
  | none => none

/-- The table with the node at `p` replaced. -/
def FS.put (fs : FS) (p : Str) (n : Node) : FS :=
  ⟨(p, n) :: fs.nodes.filter (fun e => e.1 ≠ p)⟩

/-- The table without the node at `p`. -/
def FS.erase (fs : FS) (p : Str) : FS :=
  ⟨fs.nodes.filter (fun e => e.1 ≠ p)⟩

/-- Whether `q` lies strictly below the directory `p`. -/
def below (p q : Str) : Bool :=
  q ≠ p && (if p = ['/'] then HasPrefix q p else HasPrefix q (p ++ ['/']))

/-- Whether `p` is a directory. -/
def FS.isDir (fs : FS) (p : Str) : Bool := fs.lookup p = some Node.dir

/-- The errors of `os.Stat` that the callers tell apart. -/
inductive StatError where
  | notExist
  | other
deriving DecidableEq, Repr

/-- The `os.Stat`. -/
def FS.stat (fs : FS) (p : Str) : Except StatError Node :=
  match fs.lookup p with
  | some n => .ok n
  | none => .error .notExist

/-- The `os.Create` and the opening of a file with `O_WRONLY|O_CREATE|O_TRUNC`: the parent
must be a directory and the path must not be one; the file is left empty. -/
def FS.create (fs : FS) (p : Str) : Option FS :=
  if fs.isDir (Dir p) ∧ fs.lookup p ≠ some Node.dir then some (fs.put p (.file [])) else none

/-- The `os.WriteFile`: create or truncate, then write the bytes. -/
def FS.writeFile (fs : FS) (p : Str) (data : List Nat) : Option FS :=
  if fs.isDir (Dir p) ∧ fs.lookup p ≠ some Node.dir then some (fs.put p (.file data)) else none

/-- The `os.ReadFile`. -/
def FS.readFile (fs : FS) (p : Str) : Option (List Nat) :=
  match fs.lookup p with
  | some (.file content) => some content
  | _ => none

/-- The `os.Remove`: a file, or a directory with nothing below it. -/
def FS.remove (fs : FS) (p : Str) : Option FS :=
  match fs.lookup p with
  | some (.file _) => some (fs.erase p)
  | some .dir => if fs.nodes.any (fun e => below p e.1) then none else some (fs.erase p)
  | none => none

/-- The `os.RemoveAll`: the node and everything below it; a missing path is no error. -/
def FS.removeAll (fs : FS) (p : Str) : FS :=
  ⟨fs.nodes.filter (fun e => e.1 ≠ p && !below p e.1)⟩

/-- The path and its ancestors, outermost first (for a cleaned path). -/
def ancestors (p : Str) : List Str :=
  match p with
  | [] => []
  | c :: _ =>
    let parts := (splitOnChar '/' p).filter (fun e => e ≠ [])
    let start : Str := if c = '/' then ['/'] else []
    ((List.range parts.length).map (fun k =>
      if c = '/' then '/' :: joinSlash (parts.take (k + 1)) else joinSlash (parts.take (k + 1))))
      |> fun l => if start = [] then l else start :: l

/-- The `os.MkdirAll`: creates the missing directories along the path; fails when a regular
file is in the way. -/
def FS.mkdirAll (fs : FS) (p : Str) : Option FS :=
  (ancestors p).foldl (fun acc q =>
    match acc with
    | none => none
    | some s =>
      match s.lookup q with
      | some .dir => some s
      | some (.file _) => none
      | none => some (s.put q .dir)) (some fs)

/-- The `os.Rename`: the source must exist and the parent of the target must be a
directory; a file replaces a file, a directory moves with everything below it to a free
path. -/
def FS.rename (fs : FS) (old new : Str) : Option FS :=
  match fs.lookup old with
  | none => none
  | some (.file content) =>
    if fs.isDir (Dir new) ∧ fs.lookup new ≠ some Node.dir then
      some ((fs.erase old).put new (.file content))
    else none
  | some .dir =>
    if fs.isDir (Dir new) ∧ fs.lookup new = none ∧ below old new = false then
      some ⟨fs.nodes.map (fun e =>
        if e.1 = old then (new, e.2)
        else if below old e.1 then (new ++ e.1.drop old.length, e.2) else e)⟩
    else none

/-! ## `utils.ExtractArchive` -/

/-- A member of a zip archive as the extraction sees it: its name, whether it is a directory,
whether `Open` succeeds, the bytes the copy writes, and whether the copy ends without
error. -/
structure ZipEntry where
  Name : Str
  IsDir : Bool
  openOk : Bool
  content : List Nat
  copyOk : Bool
deriving DecidableEq, Repr

/-- The closure `extractAndWriteFile` of `ExtractArchive` for one member. -/
def extractAndWriteFile (fs : FS) (destinationPath : Str) (f : ZipEntry) :
    FS × Except String Unit :=
  if f.openOk = false then (fs, .error "failed to open file in archive")
  else
    let path := Join [destinationPath, f.Name]
    if HasPrefix path (Clean destinationPath ++ ['/']) = false then
      (fs, .error "illegal file path")
    else if f.IsDir then
      match fs.mkdirAll path with
      | none => (fs, .error "failed to create directory")
      | some fs1 => (fs1, .ok ())
    else
      match fs.mkdirAll (Dir path) with
      | none => (fs, .error "failed to create directory")
      | some fs1 =>
        match fs1.create path with
        | none => (fs1, .error "failed to open file")
        | some fs2 =>
          if f.copyOk then (fs2.put path (.file f.content), .ok ())
          else (fs2.put path (.file f.content), .error "failed to write file")

/-- The loop of `ExtractArchive` over the members: it returns at the first error. -/
def extractEntries (fs : FS) (destinationPath : Str) : List ZipEntry → FS × Except String Unit
  | [] => (fs, .ok ())
  | f :: rest =>
    match extractAndWriteFile fs destinationPath f with
    | (fs1, .error e) => (fs1, .error ("failed to extract file: " ++ e))
    | (fs1, .ok _) => extractEntries fs1 destinationPath rest

/-- The `ExtractArchive` function. `unzip` is the archive reader: the members of an archive
file, or `none` when the bytes are no archive. -/
def ExtractArchive (unzip : List Nat → Option (List ZipEntry)) (fs : FS)
    (archivePath destinationPath : Str) : FS × Except String Unit :=
  match fs.readFile archivePath with
  | none => (fs, .error "failed to open archive")
  | some bytes =>
    match unzip bytes with
    | none => (fs, .error "failed to open archive")
    | some members =>
      match fs.mkdirAll destinationPath with
      | none => (fs, .error "failed to create destination directory")
      | some fs1 => extractEntries fs1 destinationPath members

/-! ## `http.DownloadFile` and the progress tracker -/

/-- The `DownloadProgressTracker` record; `hasProgress` tells whether the callback is set. -/
structure DownloadProgressTracker where
  Current : Nat
  Total : Nat
  hasProgress : Bool
deriving DecidableEq, Repr

/-- The `NewDownloadProgressTracker` constructor (with a callback). -/
def NewDownloadProgressTracker (total : Nat) : DownloadProgressTracker :=
  { Current := 0, Total := total, hasProgress := true }

/-- The result of one `Write`: the tracker afterwards, the returned count, and the arguments
of the callback invocations. -/
structure WriteResult where
  tracker : DownloadProgressTracker
  n : Nat
  calls : List (Nat × Nat)
deriving DecidableEq, Repr

/-- The `Write` method; it never returns an error. -/
def DownloadProgressTracker.Write (c : DownloadProgressTracker) (p : List Nat) : WriteResult :=
  let current := (c.Current + p.length) % 2 ^ 64
  { tracker := { c with Current := current }
    n := p.length
    calls := if c.hasProgress then [(current, c.Total)] else [] }

/-- The writes of the chunks of a body, in order. -/
def writeChunks (c : DownloadProgressTracker) : List (List Nat) →
    DownloadProgressTracker × List (Nat × Nat)
  | [] => (c, [])
  | p :: rest =>
    let r := c.Write p
    let t := writeChunks r.tracker rest
    (t.1, r.calls ++ t.2)

/-- What `http.Get` gives for a URL: a transport error, or a response with its status code,
content length, the chunks of the body as they are read, and whether the body ends without
a read error. -/
inductive HttpAnswer where
  | transportError
  | response (statusCode : Nat) (contentLength : Int) (chunks : List (List Nat)) (readOk : Bool)
deriving DecidableEq, Repr

/-- The conversion `uint64(x)` of a signed 64-bit number. -/
def toUint64 (x : Int) : Nat := (x % 2 ^ 64).toNat

/-- The outcome of `DownloadFile`. -/
structure Downloaded where
  fs : FS
  tracker : Option DownloadProgressTracker
  calls : List (Nat × Nat)
  requested : Bool
  result : Except String Unit
deriving DecidableEq, Repr

/-- The part of `DownloadFile` from the GET request on. -/
def fetchToFile (http : Str → HttpAnswer) (fs1 : FS) (path url : Str)
    (counter : Option DownloadProgressTracker) : Downloaded :=
  match http url with
  | .transportError => ⟨fs1, counter, [], true, .error "failed to send a HTTP GET request"⟩
  | .response statusCode contentLength chunks readOk =>
    if statusCode ≠ 200 then ⟨fs1, counter, [], true, .error "failed to download file"⟩
    else
      match fs1.mkdirAll (Dir path) with
      | none => ⟨fs1, counter, [], true, .error "failed to create a directory"⟩
      | some fs2 =>
        match fs2.create path with
        | none => ⟨fs2, counter, [], true, .error "failed to create a file downloaded"⟩
        | some fs3 =>
          let fs4 := fs3.put path (.file chunks.flatten)
          let counted : Option DownloadProgressTracker × List (Nat × Nat) :=
            match counter with
            | none => (none, [])
            | some c =>
              let t := writeChunks { c with Total := toUint64 contentLength } chunks
              (some t.1, t.2)
          if readOk then ⟨fs4, counted.1, counted.2, true, .ok ()⟩
          else ⟨fs4, counted.1, counted.2, true, .error "failed to write a file downloaded"⟩

/-- The `DownloadFile` function: an existing file at the path is removed first. `requested`
tells whether the GET was sent. -/
def DownloadFile (http : Str → HttpAnswer) (fs : FS) (path url : Str)
    (counter : Option DownloadProgressTracker) : Downloaded :=
  match fs.stat path with
  | .ok _ =>
    match fs.remove path with
    | none => ⟨fs, counter, [], false, .error "failed to remove file"⟩
    | some fs1 => fetchToFile http fs1 path url counter
  | .error .notExist => fetchToFile http fs path url counter
  | .error .other => ⟨fs, counter, [], false, .error "failed to check if file exists"⟩

/-! ## `version.ReadVersion` and `version.WriteVersion` -/

/-- How a call ends: with a value, with an error, or in a run-time panic. -/
inductive Outcome (α : Type) where
  | ok (a : α)
  | err (msg : String)
  | panic (msg : String)
deriving DecidableEq, Repr

/-- The `binary.LittleEndian.PutUint32`. -/
def putUint32 (v : Nat) : List Nat :=
  [v % 256, v / 256 % 256, v / 65536 % 256, v / 16777216 % 256]

/-- The `binary.LittleEndian.Uint32` of a four-byte slice. -/
def getUint32 (b : List Nat) : Nat :=
  b.getD 0 0 + b.getD 1 0 * 256 + b.getD 2 0 * 65536 + b.getD 3 0 * 16777216

/-- The conversion `uint32(x)`. -/
def toUint32 (x : Nat) : Nat := x % 2 ^ 32

/-- The decimal digits of `n` in front of `acc`. -/
def digitsFuel : Nat → Nat → Str → Str
  | 0, _, acc => acc
  | fuel + 1, n, acc =>
    if n / 10 = 0 then Char.ofNat (48 + n % 10) :: acc
    else digitsFuel fuel (n / 10) (Char.ofNat (48 + n % 10) :: acc)

/-- The `%d` formatting of an unsigned number. -/
def formatUint (n : Nat) : Str := digitsFuel (n + 1) n []

/-- The path of the version file of a directory. -/
def versionFile (dir : Str) : Str := Join [dir, ".version".toList]

/-- The capacity of the slice that `os.ReadFile` returns for a file of `n` bytes: the buffer
is made for the size plus one and for 512 bytes at least, and the bytes between the length
and the capacity are zero. -/
def readFileCap (n : Nat) : Nat := max (n + 1) 512

/-- The slice expression `b[low:high]` on a byte slice of the given capacity whose backing
array holds zero bytes beyond the length. For a slice operand the indices are bounded by the
capacity, not by the length; `none` stands for the run-time panic. -/
def sliceBytes (b : List Nat) (cap low high : Nat) : Option (List Nat) :=
  if low ≤ high ∧ high ≤ cap then
    some (((b ++ List.replicate (cap - b.length) 0).drop low).take (high - low))
  else none

/-- The `ReadVersion` function. -/
def ReadVersion (fs : FS) (dir : Str) : Outcome Version :=
  match fs.stat (versionFile dir) with
  | .error .notExist => .ok { major := 0, minor := 0, patch := 0, pre := [], metadata := [] }
  | .error .other => .err "failed to check if version file exists"
  | .ok _ =>
    match fs.readFile (versionFile dir) with
    | none => .err "failed to read version from file"
    | some versionBytes =>
      let cap := readFileCap versionBytes.length
      match sliceBytes versionBytes cap 0 4, sliceBytes versionBytes cap 4 8,
          sliceBytes versionBytes cap 8 12 with
      | some major, some minor, some patch =>
        let versionMajor := getUint32 major
        let versionMinor := getUint32 minor
        let versionPatch := getUint32 patch
        match NewVersion (formatUint versionMajor ++ '.' :: formatUint versionMinor
            ++ '.' :: formatUint versionPatch) with
        | none => .err "failed to parse version"
        | some version => .ok version
      | _, _, _ => .panic "slice bounds out of range"

/-- The `WriteVersion` function: the file system afterwards and the returned error. -/
def WriteVersion (fs : FS) (dir : Str) (version : Version) : FS × Except String Unit :=
  let prepared : FS × Except String Unit :=
    match fs.stat (versionFile dir) with
    | .error .other => (fs, .error "failed to check if version file exists")
    | .error .notExist =>
      match fs.create (versionFile dir) with
      | none => (fs, .error "failed to create version file")
      | some fs1 => (fs1, .ok ())
    | .ok _ =>
      match fs.remove (versionFile dir) with
      | none => (fs, .error "failed to remove version file")
      | some fs1 => (fs1, .ok ())
  match prepared with
  | (fs1, .error e) => (fs1, .error e)
  | (fs1, .ok _) =>
    let versionBytes := putUint32 (toUint32 version.major) ++ putUint32 (toUint32 version.minor)
      ++ putUint32 (toUint32 version.patch)
    match fs1.writeFile (versionFile dir) versionBytes with
    | none => (fs1, .error "failed to write version to file")
    | some fs2 => (fs2, .ok ())

/-! ## Installation (`download.go`) -/

/-- The `config.TempDir` constant. -/
def TempDir : Str := ".tmp".toList

/-- The `config.DownloadDir` constant. -/
def DownloadDir : Str := "downloads".toList

/-- The `config.AppDir` constant. -/
def AppDir : Str := "apps".toList

/-- What an installation did, in order. -/
inductive InstallEvent where
  | download (path url : Str) (ok : Bool)
  | extract (archivePath destinationPath : Str) (ok : Bool)
  | move (oldPath newPath : Str) (ok : Bool)
  | writeVersion (dir : Str) (ok : Bool)
  | removeAll (path : Str)
deriving DecidableEq, Repr

/-- The outcome of an installation: the file system, the steps taken, the accumulated
progress value (multi-file mode) and how the call ended. -/
structure Installed where
  fs : FS
  log : List InstallEvent
  totalProgress : Nat
  result : Outcome Unit
deriving DecidableEq, Repr

/-- The local `tempDownloadPath` of `installAppReleaseArchive`. -/
def installAppReleaseArchive_tempDownloadPath (wd : Str) (appId : UUID) (release : ReleaseV2) :
    Str :=
  Join [wd, TempDir, DownloadDir, appId.String, release.Id.String ++ "-".toList ++ release.Version]

/-- The local `appInstallationPath` of `installAppReleaseArchive`. -/
def installAppReleaseArchive_appInstallationPath (wd : Str) (appId : UUID)
    (release : ReleaseV2) : Str :=
  Join [wd, AppDir, appId.String, release.Id.String ++ "-".toList ++ release.Version]

/-- The local `tempDownloadPath` of `installAppRelease`. -/
def installAppRelease_tempDownloadPath (wd : Str) (appId : UUID) (release : ReleaseV2) : Str :=
  Join [wd, TempDir, DownloadDir, appId.String, release.Id.String ++ "-".toList ++ release.Version]

/-- The local `appInstallationPath` of `installAppRelease`. -/
def installAppRelease_appInstallationPath (wd : Str) (appId : UUID) (release : ReleaseV2) :
    Str :=
  Join [wd, AppDir, appId.String, release.Id.String ++ "-".toList ++ release.Version]

/-- The first loop of `installAppReleaseArchive`: the first file of type `release-archive`
(the loop breaks there, so the address of the loop variable keeps that file). -/
def findArchive : List File → Option File
  | [] => none
  | file :: rest =>
    if file.FileType = "release-archive".toList then some file else findArchive rest

/-- The steps of `installAppReleaseArchive` after the download. `removeAllOk` tells whether
`os.RemoveAll` of a path succeeds (what makes it fail, permissions for one, is outside the
file system table); when it fails the table is left as it was. -/
def installArchiveAfterDownload (unzip : List Nat → Option (List ZipEntry))
    (removeAllOk : Str → Bool) (fs : FS)
    (tempDownloadPath appInstallationPath : Str) (release : ReleaseV2)
    (log : List InstallEvent) : Installed :=
  let x := ExtractArchive unzip fs tempDownloadPath appInstallationPath
  match x.2 with
  | .error _ =>
    ⟨x.1, log ++ [.extract tempDownloadPath appInstallationPath false], 0,
      .err "failed to extract archive"⟩
  | .ok _ =>
    let log1 := log ++ [.extract tempDownloadPath appInstallationPath true]
    match NewVersion release.Version with
    | none => ⟨x.1, log1, 0, .err "failed to parse release version"⟩
    | some v =>
      let w := WriteVersion x.1 appInstallationPath v
      match w.2 with
      | .error _ =>
        ⟨w.1, log1 ++ [.writeVersion appInstallationPath false], 0,
          .err "failed to write version"⟩
      | .ok _ =>
        let log2 := log1 ++ [.writeVersion appInstallationPath true, .removeAll tempDownloadPath]
        if removeAllOk tempDownloadPath then ⟨w.1.removeAll tempDownloadPath, log2, 0, .ok ()⟩
        else ⟨w.1, log2, 0, .err "failed to remove temporary download directory"⟩

/-- The `installAppReleaseArchive` function. `wd` is the answer of `os.Getwd` (`none` for an
error). -/
def installAppReleaseArchive (http : Str → HttpAnswer)
    (unzip : List Nat → Option (List ZipEntry)) (removeAllOk : Str → Bool) (fs : FS)
    (wd : Option Str) (appId : UUID) (release : ReleaseV2) : Installed :=
  match release.Files with
  | none => ⟨fs, [], 0, .panic "nil pointer dereference"⟩
  | some entities =>
    match findArchive entities with
    | none => ⟨fs, [], 0, .err "no archive file found"⟩
    | some archive =>
      match wd with
      | none => ⟨fs, [], 0, .err "failed to get working directory"⟩
      | some wd =>
        let tempDownloadPath := installAppReleaseArchive_tempDownloadPath wd appId release
        let appInstallationPath := installAppReleaseArchive_appInstallationPath wd appId release
        match archive.Size with
        | none => ⟨fs, [], 0, .panic "nil pointer dereference"⟩
        | some size =>
          let counter := NewDownloadProgressTracker (toUint64 size)
          let d := DownloadFile http fs tempDownloadPath archive.Url (some counter)
          match d.result with
          | .error _ =>
            ⟨d.fs, [.download tempDownloadPath archive.Url false], 0,
              .err "failed to download file"⟩
          | .ok _ =>
            installArchiveAfterDownload unzip removeAllOk d.fs tempDownloadPath
              appInstallationPath release [.download tempDownloadPath archive.Url true]

/-- The first loop of `installAppRelease` from iteration `i` on: the iterations whose file
has type `release`; for each of them the address of the loop variable is appended. -/
def collectReleaseFiles : List File → Nat → List Nat
  | [], _ => []
  | file :: rest, i =>
    if file.FileType = "release".toList then i :: collectReleaseFiles rest (i + 1)
    else collectReleaseFiles rest (i + 1)

/-- The slice `files` as the later loops read it: each collected address read after the
first loop has ended. -/
def releaseFiles (sem : LoopVar) (entities : List File) : List File :=
  (collectReleaseFiles entities 0).filterMap (derefLoopVar sem entities)

/-- The size loop: the sum of the sizes as a 64-bit unsigned number; `none` when a size
pointer is nil (the dereference panics). -/
def sumSizes : List File → Nat → Option Nat
  | [], totalSize => some totalSize
  | file :: rest, totalSize =>
    match file.Size with
    | none => none
    | some size => sumSizes rest ((totalSize + toUint64 size) % 2 ^ 64)

/-- The state of the download loop. -/
structure DownloadLoop where
  fs : FS
  log : List InstallEvent
  totalProgress : Nat
deriving DecidableEq, Repr

/-- The download loop of `installAppRelease`: every file goes to `tempDownloadPath`; the
callback adds each reported progress value to `totalProgress`; an error is only logged. -/
def downloadAll (http : Str → HttpAnswer) (tempDownloadPath : Str) (totalSize : Nat) :
    List File → DownloadLoop → DownloadLoop
  | [], st => st
  | file :: rest, st =>
    let counter := NewDownloadProgressTracker totalSize
    let d := DownloadFile http st.fs tempDownloadPath file.Url (some counter)
    let progress := d.calls.foldl (fun acc call => (acc + call.1) % 2 ^ 64) st.totalProgress
    let ok : Bool := match d.result with
      | .ok _ => true
      | .error _ => false
    downloadAll http tempDownloadPath totalSize rest
      { fs := d.fs, log := st.log ++ [.download tempDownloadPath file.Url ok],
        totalProgress := progress }

/-- The move loop of `installAppRelease`: a file without an original path is skipped; a
failed rename is only logged. -/
def moveAll (tempDownloadPath appInstallationPath : Str) :
    List File → FS × List InstallEvent → FS × List InstallEvent
  | [], st => st
  | file :: rest, st =>
    match file.OriginalPath with
    | none => moveAll tempDownloadPath appInstallationPath rest st
    | some originalPath =>
      let oldPath := Join [tempDownloadPath, originalPath]
      let newPath := Join [appInstallationPath, originalPath]
      match st.1.rename oldPath newPath with
      | none =>
        moveAll tempDownloadPath appInstallationPath rest
          (st.1, st.2 ++ [.move oldPath newPath false])
      | some fs1 =>
        moveAll tempDownloadPath appInstallationPath rest
          (fs1, st.2 ++ [.move oldPath newPath true])

/-- The `installAppRelease` function. -/
def installAppRelease (sem : LoopVar) (http : Str → HttpAnswer) (removeAllOk : Str → Bool)
    (fs : FS) (wd : Option Str) (appId : UUID) (release : ReleaseV2) : Installed :=
  match release.Files with
  | none => ⟨fs, [], 0, .panic "nil pointer dereference"⟩
  | some entities =>
    let files := releaseFiles sem entities
    if files.length = 0 then ⟨fs, [], 0, .err "no release files found"⟩
    else
      match wd with
      | none => ⟨fs, [], 0, .err "failed to get working directory"⟩
      | some wd =>
        let tempDownloadPath := installAppRelease_tempDownloadPath wd appId release
        let appInstallationPath := installAppRelease_appInstallationPath wd appId release
        match sumSizes files 0 with
        | none => ⟨fs, [], 0, .panic "nil pointer dereference"⟩
        | some totalSize =>
          let d := downloadAll http tempDownloadPath totalSize files ⟨fs, [], 0⟩
          let m := moveAll tempDownloadPath appInstallationPath files (d.fs, d.log)
          match NewVersion release.Version with
          | none => ⟨m.1, m.2, d.totalProgress, .err "failed to parse release version"⟩
          | some v =>
            let w := WriteVersion m.1 appInstallationPath v
            match w.2 with
            | .error _ =>
              ⟨w.1, m.2 ++ [.writeVersion appInstallationPath false], d.totalProgress,
                .err "failed to write version"⟩
            | .ok _ =>
              let log2 :=
                m.2 ++ [.writeVersion appInstallationPath true, .removeAll tempDownloadPath]
              if removeAllOk tempDownloadPath then
                ⟨w.1.removeAll tempDownloadPath, log2, d.totalProgress, .ok ()⟩
              else
                ⟨w.1, log2, d.totalProgress,
                  .err "failed to remove temporary download directory"⟩

/-! ## Entrypoint discovery (`helpers.go`, `models.go`) -/

/-- The `strings.HasSuffix`. -/
def HasSuffix (s suffix : Str) : Bool := HasPrefix s.reverse suffix.reverse

/-- The `strings.Contains`. -/
def Contains : Str → Str → Bool
  | [], sub => sub = []
  | c :: s, sub => HasPrefix (c :: s) sub || Contains s sub

/-- The `strings.ToLower`: every rune is replaced by its lower case. The mapping of the
runes is the table of the package `unicode`; it is the parameter `lower` (the table lowers
more than the ASCII letters: it sends U+0130 to `i`, for one). -/
def ToLower (lower : Char → Char) (s : Str) : Str := s.map lower

/-- The `getBinarySuffix` function; `windows` stands for `runtime.GOOS == "windows"` and
`lower` for `unicode.ToLower`. -/
def getBinarySuffix (lower : Char → Char) (windows : Bool) (pEnvironment : Str) : Str :=
  let env := ToLower lower pEnvironment
  if windows then
    if env = "debug".toList then "DebugGame.exe".toList
    else if env = "dev".toList ∨ env = "development".toList then ".exe".toList
    else if env = "test".toList then "Test.exe".toList
    else if env = "prod".toList ∨ env = "production".toList ∨ env = "shipping".toList then
      "Shipping.exe".toList
    else ".exe".toList
  else
    if env = "debug".toList then "DebugGame".toList
    else if env = "dev".toList ∨ env = "development".toList then []
    else if env = "test".toList then "Test".toList
    else if env = "prod".toList ∨ env = "production".toList ∨ env = "shipping".toList then
      "Shipping".toList
    else []

/-- The order in which a directory walk visits two paths, given as element lists: a
directory comes before what it holds, and the names in a directory are visited in byte
order. -/
def walksBefore : List Str → List Str → Bool
  | [], _ => true
  | _ :: _, [] => false
  | a :: as, b :: bs => if a = b then walksBefore as bs else strGreater b a

/-- Insertion into a list of paths kept in walk order. -/
def insertWalk (p : Str × List Nat) : List (Str × List Nat) → List (Str × List Nat)
  | [] => [p]
  | q :: rest =>
    if walksBefore (splitOnChar '/' p.1) (splitOnChar '/' q.1) then p :: q :: rest
    else q :: insertWalk p rest

/-- The regular files at or below `root`, with their bytes, in the order `filepath.WalkDir`
visits them. -/
def walkFiles (fs : FS) (root : Str) : List (Str × List Nat) :=
  (fs.nodes.filterMap (fun e =>
    match e.2 with
    | .file content => if e.1 = root ∨ below root e.1 then some (e.1, content) else none
    | .dir => none)).foldr insertWalk []

/-- The walk callback of `findEntrypoint` over the visited files: the entrypoint found so
far is replaced by every later candidate that the header check accepts; an error of the
check ends the walk. `isExecutable` is the header check on the bytes of a file (`none` for
an error). -/
def scanFiles (isExecutable : List Nat → Option Bool) (suffix : Str) :
    List (Str × List Nat) → Str → Str
  | [], entrypoint => entrypoint
  | (path, content) :: rest, entrypoint =>
    if HasSuffix path suffix && Contains path "Binaries".toList
        && !Contains path "Engine".toList && !Contains path "EpicWebHelper".toList then
      match isExecutable content with
      | none => entrypoint
      | some true => scanFiles isExecutable suffix rest path
      | some false => scanFiles isExecutable suffix rest entrypoint
    else scanFiles isExecutable suffix rest entrypoint

/-- A path as the process sees it from its working directory. -/
def resolve (wd root : Str) : Str := if isRooted root then root else Join [wd, root]

/-- The `findEntrypoint` function. The walk runs from the working directory `wd` and reports
every path under the name of `root` it was given; the result is made absolute
(`filepath.Abs`). -/
def findEntrypoint (isExecutable : List Nat → Option Bool) (suffix : Str) (fs : FS)
    (wd : Option Str) (root : Str) : Except String Str :=
  match wd with
  | none => .error "no entrypoint found"
  | some wd =>
    let visited := (walkFiles fs (resolve wd root)).map
      (fun e => (root ++ e.1.drop (resolve wd root).length, e.2))
    let found := scanFiles isExecutable suffix visited []
    if found = [] then .error "no entrypoint found"
    else if isRooted found then .ok (Clean found) else .ok (Join [wd, found])

/-- The `path.Base`. -/
def Base (p : Str) : Str :=
  if p = [] then ['.']
  else
    let stripped := (p.reverse.dropWhile (fun c => c = '/')).reverse
    let last := (stripped.reverse.takeWhile (fun c => c ≠ '/')).reverse
    if last = [] then ['/'] else last

/-- The `getProjectName` function. -/
def getProjectName (suffix entrypoint : Str) : Str :=
  let base := Base entrypoint
  if HasSuffix base suffix then base.take (base.length - suffix.length) else base

/-- The `strings.Replace(s, old, "", 1)` for a non-empty `old`. -/
def removeFirst : Str → Str → Str
  | [], _ => []
  | c :: s, old =>
    if HasPrefix (c :: s) old then (c :: s).drop old.length else c :: removeFirst s old

/-! ## The main flow (`main.go`) -/

/-- A pixel streaming session as the launcher reads it; nil pointers are `none`. -/
structure Session where
  Id : Option UUID
  AppId : Option UUID
  Status : Str
deriving DecidableEq, Repr

/-- How waiting on the application ends: exit code zero, an exit error (with or without a
wait status), or another error. -/
inductive WaitOutcome where
  | exited
  | exitError (hasWaitStatus : Bool)
  | waitError
deriving DecidableEq, Repr

/-- What the launcher does that others can observe. -/
inductive Event where
  | instanceStatus (status : Str)
  | webServer
  | poll
  | sleep
  | sessionStatus (status : Str) (ok : Bool)
  | releaseRequest (url : Str)
  | install (e : InstallEvent)
  | launch (entrypoint : Str) (args : List Str) (dir : Str)
deriving DecidableEq, Repr

/-- How a part of the flow ends: it returns, the process exits through `log.Fatalf`, the
process panics, or it blocks for ever. -/
inductive Ending where
  | returned
  | fatal (msg : String)
  | panicked
  | blocked
deriving DecidableEq, Repr

/-- A run: the file system, the events in order, and the ending. -/
structure Run where
  fs : FS
  events : List Event
  ending : Ending
deriving DecidableEq, Repr

/-- What the request of `SetSessionStatus` meets: sending fails; or, with a response at hand,
the body cannot be read, it is no JSON of the expected shape, or it decodes to an envelope
with a status. `closeOk` tells whether closing the body succeeds. -/
inductive StatusFetch where
  | sendError
  | readError (closeOk : Bool)
  | decodeError (closeOk : Bool)
  | envelope (status : Str) (closeOk : Bool)
deriving DecidableEq, Repr

/-- The deferred closure of `SetSessionStatus`: it assigns the outcome of `Body.Close` to the
named result `err`, whatever the `return` statement has put there. -/
def SetSessionStatus_deferred (closeOk : Bool) (_ : Except String Unit) : Except String Unit :=
  if closeOk then .ok () else .error "failed to close response body"

/-- The `SetSessionStatus` function (the URL built from `api2Root` is taken to be one that
`http.NewRequest` accepts). An error of `client.Do` is returned before the closure is
deferred. Once the response is at hand every `return` runs the deferred closure: a body that
cannot be read, a body that does not decode and an envelope with the status `error` each
return an error, and the closure replaces it by the outcome of the close. -/
def SetSessionStatus : StatusFetch → Except String Unit
  | .sendError => .error "failed to send the request"
  | .readError closeOk => SetSessionStatus_deferred closeOk (.error "failed to read the body")
  | .decodeError closeOk => SetSessionStatus_deferred closeOk (.error "failed to decode the body")
  | .envelope status closeOk =>
    SetSessionStatus_deferred closeOk
      (if status = "error".toList then .error "authentication error" else .ok ())

/-- How the goroutine that reads the standard output of the application ends. It reads
until `Read` returns an error: at the end of the stream it only logs; an error other than
`io.EOF` (a pipe that `cmd.Wait` or a failed `cmd.Start` has closed under the read, for one)
makes it call `log.Fatalf`, which ends the launcher. The main flow goes on meanwhile, so that
exit comes either before the main flow issues its next report or ends the process itself, or
after the report of `closed` has been issued. -/
inductive ReaderOutcome where
  | eof
  | fatalBeforeReport
  | fatalAfterReport
deriving DecidableEq, Repr

/-- Everything outside the launcher that its flow depends on: `lower` is the table of
`unicode.ToLower`, `statusFetch` tells what the request of a status report meets,
`removeAllOk` whether `os.RemoveAll` of a path succeeds, and `reader` how the goroutine that
reads the output of the application ends. -/
structure Env where
  sem : LoopVar
  api2Root : Str
  platform : Str
  windows : Bool
  lower : Char → Char
  pEnvironment : Str
  net : Str → FetchOutcome
  http : Str → HttpAnswer
  unzip : List Nat → Option (List ZipEntry)
  removeAllOk : Str → Bool
  isExecutable : List Nat → Option Bool
  statusFetch : Str → StatusFetch
  wd : Option Str
  pipeOk : Bool
  startOk : Bool
  reader : ReaderOutcome
  wait : WaitOutcome
  passthrough : List Str

/-- Whether the call of `SetSessionStatus` for a status returns no error. -/
def Env.statusOk (env : Env) (status : Str) : Bool :=
  decide (SetSessionStatus (env.statusFetch status) = .ok ())

/-- The directory in which `runApp` looks for the entrypoint. -/
def runApp_searchRoot (id : UUID) (r : ReleaseV2) : Str :=
  Join [AppDir, id.String, r.Id.String ++ "-".toList ++ r.Version]

/-- The fixed arguments of the application. -/
def streamingArgs : List Str :=
  ["-PixelStreamingIP=127.0.0.1".toList, "-PixelStreamingPort=8888".toList,
    "-RenderOffScreen".toList, "-ForceRes".toList, "-ResX=1920".toList, "-ResY=1080".toList]

/-- The entrypoint as `runApp` rewrites it relative to the project directory. -/
def normalizeEntrypoint (suffix entrypoint : Str) : Str :=
  let projectName := getProjectName suffix entrypoint
  let projectDir := Dir (Dir (Dir (Dir entrypoint))) ++ ['/']
  if (entrypoint.filter (fun c => c = '/')).length > 3 then
    if HasPrefix entrypoint projectName = false then removeFirst entrypoint projectDir
    else entrypoint
  else entrypoint

/-- The message of the `log.Fatalf` in the goroutine that reads the output of the
application. -/
def readerFatal : String := "failed to read the application process pipe"

/-- The report of the status `closed` after the application has ended. -/
def reportClosed (env : Env) (fs : FS) (events : List Event) (andThen : Ending) : Run :=
  if env.statusOk "closed".toList then
    ⟨fs, events ++ [.sessionStatus "closed".toList true], andThen⟩
  else
    ⟨fs, events ++ [.sessionStatus "closed".toList false],
      .fatal "failed to set session status to starting"⟩

/-- The `runApp` function. The goroutine that reads the output of the application runs
beside it from before `cmd.Start`: when its `log.Fatalf` comes first (`fatalBeforeReport`)
the launcher ends there, after the launch if the start has succeeded and with no report of
`closed`; when it comes after the report (`fatalAfterReport`) the launcher ends as fatal
whatever `runApp` would have done next. -/
def runApp (env : Env) (fs : FS) (id : UUID) (r : ReleaseV2) : Run :=
  let suffix := getBinarySuffix env.lower env.windows env.pEnvironment
  match findEntrypoint env.isExecutable suffix fs env.wd (runApp_searchRoot id r) with
  | .error _ => ⟨fs, [], .fatal "failed to find an entrypoint"⟩
  | .ok found =>
    let projectDir := Dir (Dir (Dir (Dir found))) ++ ['/']
    let entrypoint := normalizeEntrypoint suffix found
    let args := streamingArgs ++ env.passthrough
    if env.pipeOk = false then ⟨fs, [], .fatal "failed to attach to a application stdout pipe"⟩
    else if env.startOk = false then
      ⟨fs, [],
        if env.reader = .fatalBeforeReport then .fatal readerFatal
        else .fatal "cmd.Start() error"⟩
    else
      let started := [Event.launch entrypoint args projectDir]
      let run :=
        match env.wait with
        | .exitError true => reportClosed env fs started (.fatal "application exit code")
        | .exitError false => reportClosed env fs started .returned
        | .waitError => reportClosed env fs started (.fatal "application exit error")
        | .exited => reportClosed env fs started .returned
      match env.reader with
      | .eof => run
      | .fatalBeforeReport => ⟨fs, started, .fatal readerFatal⟩
      | .fatalAfterReport => ⟨run.fs, run.events, .fatal readerFatal⟩

/-- The installation `main` chooses by the archive flag of the release. -/
def installRelease (env : Env) (fs : FS) (appId : UUID) (latestRelease : ReleaseV2) :
    Installed :=
  if latestRelease.Archive then
    installAppReleaseArchive env.http env.unzip env.removeAllOk fs env.wd appId latestRelease
  else installAppRelease env.sem env.http env.removeAllOk fs env.wd appId latestRelease

/-- The body of the second loop of `main` for a session found by the first one: report
`starting`, resolve, install, report `running`, run the application. -/
def launchSession (env : Env) (fs : FS) (session : Session) : Run :=
  if env.statusOk "starting".toList = false then
    ⟨fs, [.sessionStatus "starting".toList false],
      .fatal "failed to set session status to starting"⟩
  else
    let started := [Event.sessionStatus "starting".toList true]
    match session.AppId with
    | none => ⟨fs, started, .panicked⟩
    | some appId =>
      let resolved := GetLatestReleaseV2 env.sem env.api2Root env.platform env.net appId
      let events1 := started ++ resolved.requests.map Event.releaseRequest
      match resolved.result with
      | .error _ => ⟨fs, events1, .fatal "failed to get the latest release"⟩
      | .ok latestRelease =>
        if latestRelease.Files = none ∨ latestRelease.Files = some [] then
          ⟨fs, events1, .fatal "no files in the release"⟩
        else
          let installed := installRelease env fs appId latestRelease
          let events2 := events1 ++ installed.log.map Event.install
          match installed.result with
          | .panic _ => ⟨installed.fs, events2, .panicked⟩
          | .err _ =>
            ⟨installed.fs, events2,
              .fatal (if latestRelease.Archive then "failed to download the archive"
                else "failed to download the files")⟩
          | .ok _ =>
            if env.statusOk "running".toList = false then
              ⟨installed.fs, events2 ++ [.sessionStatus "running".toList false],
                .fatal "failed to set session status to starting"⟩
            else
              let run := runApp env installed.fs appId latestRelease
              ⟨run.fs, events2 ++ [.sessionStatus "running".toList true] ++ run.events,
                run.ending⟩

/-- An answer of `GetPendingSession`: an error, or the session pointer it returns. -/
inductive PollAnswer where
  | failed
  | session (s : Option Session)
deriving DecidableEq, Repr

/-- The first loop of `main`: poll until a session with an id is returned, sleeping between
the polls. `polls` lists the answers; when they run out the loop has not ended. -/
def awaitSession : List PollAnswer → List Event → List Event × Option Session
  | [], events => (events, none)
  | .failed :: rest, events => awaitSession rest (events ++ [.poll, .sleep])
  | .session none :: rest, events => awaitSession rest (events ++ [.poll, .sleep])
  | .session (some s) :: rest, events =>
    if s.Id = none then awaitSession rest (events ++ [.poll, .sleep])
    else (events ++ [.poll], some s)

/-- What `main` does before its first loop: the instance is reported free and the web
server is started. -/
def startEvents : List Event := [.instanceStatus "free".toList, .webServer]

/-- The `main` function from the instance status report on: the web server is started, the
first loop waits for a session, the second loop launches it once and leaves on its next
round, and the process then waits for the cancellation. -/
def main (env : Env) (fs : FS) (polls : List PollAnswer) : Run :=
  let found := awaitSession polls startEvents
  match found.2 with
  | none => ⟨fs, found.1, .blocked⟩
  | some session =>
    let run := launchSession env fs session
    match run.ending with
    | .returned => ⟨run.fs, found.1 ++ run.events ++ [.sleep], .blocked⟩
    | ending => ⟨run.fs, found.1 ++ run.events, ending⟩

/-- The status `running` is reported (whether or not the report succeeds). -/
def runningReported (events : List Event) : Prop :=
  ∃ ok, Event.sessionStatus "running".toList ok ∈ events

/-- The application is launched. -/
def launched (events : List Event) : Prop :=
  ∃ entrypoint args dir, Event.launch entrypoint args dir ∈ events

/-- Resolution and installation both return success for the application, and the release
has files. -/
def readyToRun (env : Env) (fs : FS) (appId : UUID) : Prop :=
  ∃ r, (GetLatestReleaseV2 env.sem env.api2Root env.platform env.net appId).result = .ok r
    ∧ r.Files ≠ none ∧ r.Files ≠ some []
    ∧ (installRelease env fs appId r).result = .ok ()

/-! ## A sample run: an archive release without an archive file -/

/-- A release marked as an archive whose only file has type `release`. -/
def scenarioRelease : ReleaseV2 :=
  { Id := uuidOfByte 1, Version := "1.2.3".toList, Archive := true,
    Files := some [{ Id := uuidOfByte 5, FileType := "release".toList,
                     Url := "https://cdn/app.bin".toList, Size := some 4,
                     OriginalPath := some "bin/app".toList }] }

/-- A pending session for the application `...0a`. -/
def scenarioSession : Session :=
  { Id := some (uuidOfByte 77), AppId := some (uuidOfByte 10), Status := "free".toList }

/-- A fragment of the table of `unicode.ToLower`: the ASCII letters, and U+0130 (the
capital I with a dot above), which the table sends to `i`. -/
def lowerSample (c : Char) : Char := if c = Char.ofNat 0x130 then 'i' else c.toLower

/-- The name `SHIPPING` written with U+0130 in place of each `I`. -/
def dottedShipping : Str :=
  ['S', 'H', Char.ofNat 0x130, 'P', 'P', Char.ofNat 0x130, 'N', 'G']

/-- An environment in which every request succeeds and the control plane offers
`scenarioRelease`. -/
def scenarioEnv : Env where
  sem := .perIteration
  api2Root := "https://api".toList
  platform := "Linux".toList
  windows := false
  lower := lowerSample
  pEnvironment := "test".toList
  net := fun _ => .decoded [scenarioRelease]
  http := fun _ => .response 200 4 [[1, 2], [3, 4]] true
  unzip := fun _ => none
  removeAllOk := fun _ => true
  isExecutable := fun _ => some true
  statusFetch := fun _ => .envelope "ok".toList true
  wd := some "/srv/launcher".toList
  pipeOk := true
  startOk := true
  reader := .eof
  wait := .exited
  passthrough := []

/-- The file system of the sample run: the working directory only. -/
def scenarioFS : FS := ⟨[("/srv/launcher".toList, Node.dir)]⟩

/-! ## Progress of two trackers, sample installations -/

/-- Writes to two trackers in any interleaving: every chunk carries the tracker that
receives it (`true` for the first one). The result gives, for each tracker, its state and
the arguments of its callback invocations. -/
def writeTwo (a b : DownloadProgressTracker) : List (Bool × List Nat) →
    (DownloadProgressTracker × List (Nat × Nat)) × (DownloadProgressTracker × List (Nat × Nat))
  | [] => ((a, []), (b, []))
  | (true, p) :: rest =>
    let r := a.Write p
    let t := writeTwo r.tracker b rest
    ((t.1.1, r.calls ++ t.1.2), t.2)
  | (false, p) :: rest =>
    let r := b.Write p
    let t := writeTwo a r.tracker rest
    (t.1, (t.2.1, r.calls ++ t.2.2))

/-! ## A sample run: a release of two files -/

/-- The release 1.2.3 of two files of type `release`, each with an original path. -/
def twoFileRelease : ReleaseV2 :=
  { Id := uuidOfByte 1, Version := "1.2.3".toList, Archive := false,
    Files := some
      [{ Id := uuidOfByte 5, FileType := "release".toList, Url := "https://cdn/app".toList,
         Size := some 4, OriginalPath := some "bin/app".toList },
       { Id := uuidOfByte 6, FileType := "release".toList, Url := "https://cdn/pak".toList,
         Size := some 2, OriginalPath := some "data/pak".toList }] }

/-- A file server on which both downloads succeed: four bytes in two chunks for the first
file, two bytes in one chunk for the second. -/
def twoFileHttp (url : Str) : HttpAnswer :=
  if url = "https://cdn/app".toList then .response 200 4 [[1, 2], [3, 4]] true
  else if url = "https://cdn/pak".toList then .response 200 2 [[5, 6]] true
  else .response 404 0 [] true

/-- The working directory of the sample runs. -/
def sampleWd : Str := "/srv/launcher".toList

/-- The multi-file installation of `twoFileRelease` for the application `...0a` in a fresh
working directory, with per-iteration loop variables. -/
def twoFileInstall : Installed :=
  installAppRelease .perIteration twoFileHttp (fun _ => true) scenarioFS (some sampleWd) (uuidOfByte 10)
    twoFileRelease

/-- The same installation when the install directory exists beforehand. -/
def twoFileInstallPrepared : Installed :=
  installAppRelease .perIteration twoFileHttp (fun _ => true)
    ⟨[(installAppRelease_appInstallationPath sampleWd (uuidOfByte 10) twoFileRelease, Node.dir),
      (sampleWd, Node.dir)]⟩
    (some sampleWd) (uuidOfByte 10) twoFileRelease

/-- The download attempts of a log: target path and URL, in order. -/
def downloadAttempts : List InstallEvent → List (Str × Str)
  | [] => []
  | .download path url _ :: rest => (path, url) :: downloadAttempts rest
  | _ :: rest => downloadAttempts rest

/-- The move attempts of a log: source and target, in order. -/
def moveAttempts : List InstallEvent → List (Str × Str)
  | [] => []
  | .move oldPath newPath _ :: rest => (oldPath, newPath) :: moveAttempts rest
  | _ :: rest => moveAttempts rest

/-- A release of one file of type `release` served in two chunks of two bytes. -/
def oneFileRelease : ReleaseV2 :=
  { Id := uuidOfByte 1, Version := "1.2.3".toList, Archive := false,
    Files := some
      [{ Id := uuidOfByte 5, FileType := "release".toList, Url := "https://cdn/app".toList,
         Size := some 4, OriginalPath := some "bin/app".toList }] }

/-- An archive release: one file of type `release-archive`. -/
def archiveRelease : ReleaseV2 :=
  { Id := uuidOfByte 1, Version := "1.2.3".toList, Archive := true,
    Files := some
      [{ Id := uuidOfByte 5, FileType := "release-archive".toList,
         Url := "https://cdn/app".toList, Size := some 4, OriginalPath := none }] }

/-- An archive whose only member lies in a directory named `.version`. -/
def unzipVersionDir (_ : List Nat) : Option (List ZipEntry) :=
  some [{ Name := ".version/keep".toList, IsDir := false, openOk := true, content := [7],
          copyOk := true }]

/-- The multi-file installation of `oneFileRelease` in a fresh working directory. -/
def oneFileInstall : Installed :=
  installAppRelease .perIteration twoFileHttp (fun _ => true) scenarioFS (some sampleWd) (uuidOfByte 10)
    oneFileRelease

/-- The number of bytes in the body of an answer. -/
def bodyLength : HttpAnswer → Nat
  | .transportError => 0
  | .response _ _ chunks _ => chunks.flatten.length

/-! ## Sample runs: archive installations -/

/-- The archive installation of `archiveRelease` when the archive holds a directory named
`.version`: the extraction succeeds and the version file cannot be written. -/
def archiveInstallWriteFails : Installed :=
  installAppReleaseArchive twoFileHttp unzipVersionDir (fun _ => true) scenarioFS (some sampleWd)
    (uuidOfByte 10) archiveRelease

/-- An archive with one regular member. -/
def unzipOneMember (_ : List Nat) : Option (List ZipEntry) :=
  some [{ Name := "bin/app".toList, IsDir := false, openOk := true, content := [7],
          copyOk := true }]

/-- The archive installation of `archiveRelease` when every step succeeds. -/
def archiveInstallOk : Installed :=
  installAppReleaseArchive twoFileHttp unzipOneMember (fun _ => true) scenarioFS (some sampleWd)
    (uuidOfByte 10) archiveRelease

/-! ## The web server (`server.go`) -/

/-- The two errors of the `strconv` conversions. -/
inductive NumError where
  | syntaxError
  | rangeError
deriving DecidableEq, Repr

/-- The loop of `strconv.ParseUint(s, 10, 64)` over the characters, from the value `n`: a
character that is no digit is a syntax error; an overflow is a range error with the largest
value, found before the later characters are looked at. -/
def parseUintLoop : Str → Nat → Nat × Option NumError
  | [], n => (n, none)
  | c :: rest, n =>
    if isDigit c = false then (0, some .syntaxError)
    else if n ≥ (2 ^ 64 - 1) / 10 + 1 then (2 ^ 64 - 1, some .rangeError)
    else if n * 10 + (c.toNat - 48) > 2 ^ 64 - 1 then (2 ^ 64 - 1, some .rangeError)
    else parseUintLoop rest (n * 10 + (c.toNat - 48))

/-- The `strconv.ParseUint(s, 10, 64)`. -/
def ParseUint (s : Str) : Nat × Option NumError :=
  if s = [] then (0, some .syntaxError) else parseUintLoop s 0

/-- The `strconv.ParseInt(s, 10, 0)` where `int` has 64 bits. -/
def ParseInt (s : Str) : Int × Option NumError :=
  match s with
  | [] => (0, some .syntaxError)
  | c :: rest =>
    let neg : Bool := c = '-'
    let digits := if c = '+' ∨ c = '-' then rest else s
    match ParseUint digits with
    | (_, some .syntaxError) => (0, some .syntaxError)
    | (un, _) =>
      if neg = false ∧ un ≥ 2 ^ 63 then (2 ^ 63 - 1, some .rangeError)
      else if neg = true ∧ un > 2 ^ 63 then (-(2 ^ 63), some .rangeError)
      else (if neg then -(un : Int) else (un : Int), none)

/-- The `strconv.Atoi` where `int` has 64 bits: the value and the error. Its fast path for
short strings computes what `ParseInt` computes. -/
def Atoi (s : Str) : Int × Option NumError := ParseInt s

/-- How the work of the web server for one request, or its start, ends: it completes, it
panics, or it ends the process through `os.Exit`. -/
inductive HandlerEnding where
  | completed
  | panicked
  | exit (code : Nat)
deriving DecidableEq, Repr

/-- What a handler does: its session status reports, the status codes it passes to
`WriteHeader` in order, the JSON object it writes as the body (`none` when it writes no
body), whether it calls `cancel`, and how it ends. -/
structure Handled where
  reports : List Event
  headers : List Nat
  body : Option (List (Str × Str))
  cancelled : Bool
  ending : HandlerEnding
deriving DecidableEq, Repr

/-- What `GetSessionData` returns: the session pointer and whether the error is set. -/
structure Fetched where
  session : Option Session
  failed : Bool
deriving DecidableEq, Repr

/-- What the request of `GetSessionData` meets: sending fails; or, with a response at hand,
the body cannot be read, it is no JSON of the expected shape, or it decodes to an envelope
with a status and a data pointer. `closeOk` tells whether closing the body succeeds. -/
inductive SessionFetch where
  | sendError
  | readError (closeOk : Bool)
  | decodeError (closeOk : Bool)
  | envelope (status : Str) (data : Option Session) (closeOk : Bool)
deriving DecidableEq, Repr

/-- The `GetSessionData` function. Its results are named, and the deferred closure assigns
the outcome of `Body.Close` to the result `err`: once the response is at hand, the error a
`return` carries is replaced by the outcome of the close. -/
def GetSessionData : SessionFetch → Fetched
  | .sendError => ⟨none, true⟩
  | .readError closeOk => ⟨none, !closeOk⟩
  | .decodeError closeOk => ⟨none, !closeOk⟩
  | .envelope status data closeOk =>
    if status = "error".toList then ⟨none, !closeOk⟩
    else if status = "ok".toList then ⟨data, !closeOk⟩
    else ⟨some ⟨none, none, []⟩, !closeOk⟩

/-- The `healthCheck` handler. `statusOk` tells whether the call of `SetSessionStatus` for a
status returns no error, `session` is the global session pointer, `fetched` is what
`GetSessionData` returns and `t` is the query value `totalCheck`. -/
def healthCheck (statusOk : Str → Bool) (session : Option Session) (fetched : Fetched)
    (t : Str) : Handled :=
  match session with
  | none => ⟨[], [], none, false, .panicked⟩
  | some _ =>
    let totalCheck := Atoi t
    let headers := (if fetched.failed then [500] else [])
      ++ (if totalCheck.2 = none then [] else [500])
    match fetched.session with
    | none => ⟨[], headers, none, false, .panicked⟩
    | some sess =>
      if sess.Status = "running".toList ∧ totalCheck.1 ≥ 20 then
        if statusOk "closed".toList then
          ⟨[.sessionStatus "closed".toList true], headers, none, false, .completed⟩
        else
          ⟨[.sessionStatus "closed".toList false], headers ++ [500], none, false, .completed⟩
      else
        ⟨[], headers ++ [200], some [("sessionStatus".toList, sess.Status)], false,
          .completed⟩

/-- The `closeSession` handler (the path `/hello`). -/
def closeSession (statusOk : Str → Bool) (session : Option Session) : Handled :=
  match session with
  | none => ⟨[], [], none, false, .panicked⟩
  | some _ =>
    if statusOk "closed".toList then
      ⟨[.sessionStatus "closed".toList true], [], none, true, .completed⟩
    else ⟨[.sessionStatus "closed".toList false], [500], none, true, .completed⟩

/-- The `startWebServer` function from the point where `ListenAndServe` has returned an
error other than `ErrServerClosed`. -/
def startWebServer_failed (statusOk : Str → Bool) (session : Option Session) : Handled :=
  match session with
  | none => ⟨[], [], none, false, .panicked⟩
  | some _ =>
    ⟨[.sessionStatus "closed".toList (statusOk "closed".toList)], [], none, false, .exit 1⟩

/-! ## Sample runs: an application that is launched -/

/-- An archive with the executable of a project `Demo` built for the environment `test`. -/
def unzipGame (_ : List Nat) : Option (List ZipEntry) :=
  some [{ Name := "Demo/Binaries/Linux/DemoTest".toList, IsDir := false, openOk := true,
          content := [127, 69, 76, 70], copyOk := true }]

/-- An environment in which every request succeeds, the control plane offers
`archiveRelease`, its archive holds the executable, and the application exits with code
zero. -/
def launchEnv : Env :=
  { scenarioEnv with
    net := fun _ => .decoded [archiveRelease], http := twoFileHttp, unzip := unzipGame }

/-- The environment `launchEnv` except that no request that reports the status `closed` can
be sent. -/
def closeFailsEnv : Env :=
  { launchEnv with
    statusFetch := fun s =>
      if s = "closed".toList then .sendError else .envelope "ok".toList true }

/-- The file system after `archiveRelease` has been installed from the archive of
`unzipGame`. -/
def gameFS : FS :=
  (installAppReleaseArchive twoFileHttp unzipGame (fun _ => true) scenarioFS (some sampleWd) (uuidOfByte 10)
    archiveRelease).fs

/-! ## The step relation of the launcher -/

/-- Where the main flow stands between two of its steps: in its first loop; out of it with
a session, `starting` not yet reported; `starting` reported; the release resolved; the
release installed; `running` reported and `runApp` entered; or at its end. -/
inductive Phase where
  | polling
  | found
  | resolving
  | installing (r : ReleaseV2)
  | installed (r : ReleaseV2)
  | supervising (r : ReleaseV2)
  | done (ending : Ending)
deriving DecidableEq, Repr

/-- The state of the launcher: the phase of the main flow, the file system, the global
session pointer, whether the context has been cancelled, and the events so far. -/
structure Machine where
  phase : Phase
  fs : FS
  session : Option Session
  cancelled : Bool
  trace : List Event
deriving DecidableEq, Repr

/-- The answer to the release request: a cancelled context makes the request fail. -/
def netUnder (env : Env) (cancelled : Bool) : Str → FetchOutcome :=
  if cancelled then fun _ => .sendError else env.net

/-- One step of the main flow. `answer` is what `GetPendingSession` returns if the step is a
round of the first loop. -/
def mainStep (env : Env) (answer : PollAnswer) (m : Machine) : Machine :=
  match m.phase with
  | .polling =>
    let s : Option Session :=
      match answer with
      | .failed => none
      | .session s => s
    match s with
    | none => { m with session := none, trace := m.trace ++ [.poll, .sleep] }
    | some sess =>
      if sess.Id = none then { m with session := s, trace := m.trace ++ [.poll, .sleep] }
      else { m with phase := .found, session := s, trace := m.trace ++ [.poll] }
  | .found =>
    if env.statusOk "starting".toList = false then
      { m with phase := .done (.fatal "failed to set session status to starting"),
               trace := m.trace ++ [.sessionStatus "starting".toList false] }
    else { m with phase := .resolving, trace := m.trace ++ [.sessionStatus "starting".toList true] }
  | .resolving =>
    match m.session.bind (fun s => s.AppId) with
    | none => { m with phase := .done .panicked }
    | some appId =>
      let resolved :=
        GetLatestReleaseV2 env.sem env.api2Root env.platform (netUnder env m.cancelled) appId
      let trace1 := m.trace ++ resolved.requests.map Event.releaseRequest
      match resolved.result with
      | .error _ =>
        { m with phase := .done (.fatal "failed to get the latest release"), trace := trace1 }
      | .ok latestRelease =>
        if latestRelease.Files = none ∨ latestRelease.Files = some [] then
          { m with phase := .done (.fatal "no files in the release"), trace := trace1 }
        else { m with phase := .installing latestRelease, trace := trace1 }
  | .installing latestRelease =>
    match m.session.bind (fun s => s.AppId) with
    | none => { m with phase := .done .panicked }
    | some appId =>
      let installed := installRelease env m.fs appId latestRelease
      let trace1 := m.trace ++ installed.log.map Event.install
      match installed.result with
      | .panic _ => { m with phase := .done .panicked, fs := installed.fs, trace := trace1 }
      | .err _ =>
        { m with
          phase := .done (.fatal (if latestRelease.Archive then "failed to download the archive"
            else "failed to download the files")),
          fs := installed.fs, trace := trace1 }
      | .ok _ => { m with phase := .installed latestRelease, fs := installed.fs, trace := trace1 }
  | .installed latestRelease =>
    if env.statusOk "running".toList = false then
      { m with phase := .done (.fatal "failed to set session status to starting"),
               trace := m.trace ++ [.sessionStatus "running".toList false] }
    else
      { m with phase := .supervising latestRelease,
               trace := m.trace ++ [.sessionStatus "running".toList true] }
  | .supervising latestRelease =>
    match m.session.bind (fun s => s.AppId) with
    | none => { m with phase := .done .panicked }
    | some appId =>
      let run := runApp env m.fs appId latestRelease
      { m with phase := .done run.ending, fs := run.fs, trace := m.trace ++ run.events }
  | .done _ => m

/-- A request to the web server: `/healthcheck` with what `GetSessionData` then returns and
the query value `totalCheck`, or `/hello`. -/
inductive Request where
  | healthCheck (fetched : Fetched) (t : Str)
  | hello
deriving DecidableEq, Repr

/-- The web server serves one request: the reports of the handler are added to the trace,
and `/hello` cancels the context. -/
def serve (env : Env) (req : Request) (m : Machine) : Machine :=
  let h :=
    match req with
    | .healthCheck fetched t => healthCheck env.statusOk m.session fetched t
    | .hello => closeSession env.statusOk m.session
  { m with cancelled := m.cancelled || h.cancelled, trace := m.trace ++ h.reports }

/-- What can happen next: a step of the main flow, or a request that arrives. -/
inductive Action where
  | main (answer : PollAnswer)
  | request (req : Request)
deriving DecidableEq, Repr

/-- The process has exited: the main flow has ended as fatal or has panicked. -/
def exited : Phase → Bool
  | .done (.fatal _) => true
  | .done .panicked => true
  | _ => false

/-- The step relation as a function of the action taken; nothing happens after the process
has exited. Each stage of the main flow (a round of the first loop, a status report, the
resolution, the installation, `runApp`) is one step, and a request is served in one step,
so a request arrives between two stages. After the main flow has returned, the process
waits for the cancellation and requests are still served. -/
def step (env : Env) (m : Machine) (a : Action) : Machine :=
  if exited m.phase then m
  else
    match a with
    | .main answer => mainStep env answer m
    | .request req => serve env req m

/-- The state reached by a sequence of actions. -/
def steps (env : Env) (m : Machine) (actions : List Action) : Machine :=
  actions.foldl (step env) m

/-- The state in which the first loop of `main` is entered: `init` has set the global
session pointer to a record whose fields are all zero, and the web server is started. -/
def initial (fs : FS) : Machine :=
  ⟨.polling, fs, some ⟨none, none, []⟩, false, startEvents⟩

/-- The session statuses reported in a trace, in order. -/
def statuses (trace : List Event) : List Str :=
  trace.filterMap (fun e =>
    match e with
    | .sessionStatus status _ => some status
    | _ => none)

/-- The reported statuses other than `closed`. -/
def openStatuses (trace : List Event) : List Str :=
  (statuses trace).filter (fun s => s ≠ "closed".toList)

/-- The request `/hello` arrives while the release is being installed. -/
def closedThenRunning : List Action :=
  [.main (.session (some scenarioSession)), .main .failed, .main .failed, .request .hello,
    .main .failed, .main .failed, .main .failed]

/-- The request `/hello` arrives before `starting` is reported. -/
def closedThenStarting : List Action :=
  [.main (.session (some scenarioSession)), .request .hello, .main .failed, .main .failed]

/-- The statuses other than `closed` that have been reported when the main flow stands in a
given phase. -/
def openStatusesIn (m : Machine) : Prop :=
  match m.phase with
  | .polling => openStatuses m.trace = []
  | .found => openStatuses m.trace = []
  | .resolving => openStatuses m.trace = ["starting".toList]
  | .installing _ => openStatuses m.trace = ["starting".toList]
  | .installed _ => openStatuses m.trace = ["starting".toList]
  | .supervising _ => openStatuses m.trace = ["starting".toList, "running".toList]
  | .done _ =>
    openStatuses m.trace = [] ∨ openStatuses m.trace = ["starting".toList]
      ∨ openStatuses m.trace = ["starting".toList, "running".toList]

/-- The statuses that have been reported when the main flow stands in a given phase and no
request has been served. -/
def statusesIn (m : Machine) : Prop :=
  match m.phase with
  | .polling => statuses m.trace = []
  | .found => statuses m.trace = []
  | .resolving => statuses m.trace = ["starting".toList]
  | .installing _ => statuses m.trace = ["starting".toList]
  | .installed _ => statuses m.trace = ["starting".toList]
  | .supervising _ => statuses m.trace = ["starting".toList, "running".toList]
  | .done _ =>
    statuses m.trace <+: ["starting".toList, "running".toList, "closed".toList]

/-! ## The bytes `ReadVersion` reads -/

/-- The first twelve bytes of the buffer that holds a file content: the content, followed by
zero bytes when it is shorter. -/
def firstTwelve (content : List Nat) : List Nat :=
  content.take 12 ++ List.replicate (12 - content.length) 0

/-- A file system with an empty version file in `/opt/app`. -/
def emptyVersionFS : FS :=
  ⟨[("/opt/app/.version".toList, Node.file []), ("/opt/app".toList, Node.dir)]⟩

/-- A file system with a version file of three bytes in `/opt/app`. -/
def shortVersionFS : FS :=
  ⟨[("/opt/app/.version".toList, Node.file [1, 2, 3]), ("/opt/app".toList, Node.dir)]⟩

/-! ## Sample releases whose files carry no size -/

/-- An archive release whose archive file has no size. -/
def sizelessArchiveRelease : ReleaseV2 :=
  { Id := uuidOfByte 1, Version := "1.2.3".toList, Archive := true,
    Files := some
      [{ Id := uuidOfByte 5, FileType := "release-archive".toList,
         Url := "https://cdn/app".toList, Size := none, OriginalPath := none }] }

/-- A release of two files of type `release`; the second one has no size. -/
def sizelessRelease : ReleaseV2 :=
  { Id := uuidOfByte 1, Version := "1.2.3".toList, Archive := false,
    Files := some
      [{ Id := uuidOfByte 5, FileType := "release".toList, Url := "https://cdn/app".toList,
         Size := some 4, OriginalPath := some "bin/app".toList },
       { Id := uuidOfByte 6, FileType := "release".toList, Url := "https://cdn/pak".toList,
         Size := none, OriginalPath := some "data/pak".toList }] }

/-! ## Path segments -/

/-- The segments of a slash-separated path: its non-empty elements. -/
def segments (p : Str) : List Str := (splitOnChar '/' p).filter (fun e => e ≠ [])

/-! ## Candidates for the entrypoint -/

/-- The files that the walk of `findEntrypoint` visits, under the names the walk reports, in
walk order. -/
def visitedFiles (fs : FS) (wd root : Str) : List (Str × List Nat) :=
  (walkFiles fs (resolve wd root)).map
    (fun e => (root ++ e.1.drop (resolve wd root).length, e.2))

/-- The tests of the walk callback on the path of a visited file. -/
def pathAccepted (suffix path : Str) : Bool :=
  HasSuffix path suffix && Contains path "Binaries".toList
    && !Contains path "Engine".toList && !Contains path "EpicWebHelper".toList

/-- A file that the walk callback takes as the entrypoint: its path passes the tests and the
header check accepts it. -/
def isCandidate (isExecutable : List Nat → Option Bool) (suffix : Str)
    (e : Str × List Nat) : Bool :=
  pathAccepted suffix e.1 && decide (isExecutable e.2 = some true)

/-- A candidate in the words of the specification: the name ends with the binary suffix, a
segment of the path is `Binaries`, no segment is `Engine` or `EpicWebHelper`, and the header
check accepts the file. -/
def isSegmentCandidate (isExecutable : List Nat → Option Bool) (suffix : Str)
    (e : Str × List Nat) : Bool :=
  HasSuffix (Base e.1) suffix && decide ("Binaries".toList ∈ segments e.1)
    && !decide ("Engine".toList ∈ segments e.1)
    && !decide ("EpicWebHelper".toList ∈ segments e.1)
    && decide (isExecutable e.2 = some true)

/-- The path made absolute (`filepath.Abs`) from the working directory. -/
def absFrom (wd path : Str) : Str := if isRooted path then Clean path else Join [wd, path]

/-- An archive with the executable of a project named `GameEngine`. -/
def unzipGameEngine (_ : List Nat) : Option (List ZipEntry) :=
  some [{ Name := "GameEngine/Binaries/Linux/GameEngineTest".toList, IsDir := false,
          openOk := true, content := [127, 69, 76, 70], copyOk := true }]

/-- The file system after `archiveRelease` has been installed from the archive of
`unzipGameEngine`. -/
def gameEngineFS : FS :=
  (installAppReleaseArchive twoFileHttp unzipGameEngine (fun _ => true) scenarioFS (some sampleWd)
    (uuidOfByte 10) archiveRelease).fs

/-- An archive with an executable in a directory named `MyBinaries`. -/
def unzipMyBinaries (_ : List Nat) : Option (List ZipEntry) :=
  some [{ Name := "Demo/MyBinaries/DemoTest".toList, IsDir := false, openOk := true,
          content := [127, 69, 76, 70], copyOk := true }]

/-- The file system after `archiveRelease` has been installed from the archive of
`unzipMyBinaries`. -/
def myBinariesFS : FS :=
  (installAppReleaseArchive twoFileHttp unzipMyBinaries (fun _ => true) scenarioFS (some sampleWd)
    (uuidOfByte 10) archiveRelease).fs

/-! ## Sample runs: a file left at the temporary download path -/

/-- A working directory in which an earlier run has left a file at the temporary download
path of `archiveRelease`. -/
def staleDownloadFS : FS :=
  ⟨[(installAppReleaseArchive_tempDownloadPath sampleWd (uuidOfByte 10) archiveRelease,
      Node.file [9]),
    (sampleWd, Node.dir)]⟩

/-- The archive installation of `archiveRelease` in `staleDownloadFS` when the file server
cannot be reached. -/
def archiveInstallStale : Installed :=
  installAppReleaseArchive (fun _ => .transportError) unzipOneMember (fun _ => true)
    staleDownloadFS (some sampleWd) (uuidOfByte 10) archiveRelease

/-- The archive installation of `archiveRelease` when every step succeeds except the removal
of the temporary download path. -/
def archiveInstallRemovalFails : Installed :=
  installAppReleaseArchive twoFileHttp unzipOneMember (fun _ => false) scenarioFS
    (some sampleWd) (uuidOfByte 10) archiveRelease

/-! ## Sample runs: the multi-file installation with one variable per loop -/

/-- The multi-file installation of `twoFileRelease` for the application `...0a` in a fresh
working directory, with one loop variable per loop. -/
def twoFileInstallPerLoop : Installed :=
  installAppRelease .perLoop twoFileHttp (fun _ => true) scenarioFS (some sampleWd)
    (uuidOfByte 10) twoFileRelease

/-- A working directory in which the temporary download path of `twoFileRelease` is a
directory that holds both files at their original paths, and the install directory exists
with the directories `bin` and `data`. -/
def stagedFS : FS :=
  ⟨[(sampleWd, Node.dir),
    (installAppRelease_tempDownloadPath sampleWd (uuidOfByte 10) twoFileRelease, Node.dir),
    (Join [installAppRelease_tempDownloadPath sampleWd (uuidOfByte 10) twoFileRelease,
      "bin".toList], Node.dir),
    (Join [installAppRelease_tempDownloadPath sampleWd (uuidOfByte 10) twoFileRelease,
      "bin/app".toList], Node.file [1, 2, 3, 4]),
    (Join [installAppRelease_tempDownloadPath sampleWd (uuidOfByte 10) twoFileRelease,
      "data".toList], Node.dir),
    (Join [installAppRelease_tempDownloadPath sampleWd (uuidOfByte 10) twoFileRelease,
      "data/pak".toList], Node.file [5, 6]),
    (installAppRelease_appInstallationPath sampleWd (uuidOfByte 10) twoFileRelease, Node.dir),
    (Join [installAppRelease_appInstallationPath sampleWd (uuidOfByte 10) twoFileRelease,
      "bin".toList], Node.dir),
    (Join [installAppRelease_appInstallationPath sampleWd (uuidOfByte 10) twoFileRelease,
      "data".toList], Node.dir)]⟩

/-- The multi-file installation of `twoFileRelease` in `stagedFS` when the file server
cannot be reached. -/
def stagedInstall (sem : LoopVar) : Installed :=
  installAppRelease sem (fun _ => .transportError) (fun _ => true) stagedFS (some sampleWd)
    (uuidOfByte 10) twoFileRelease

/-- The same installation when the removal of the temporary download path fails. -/
def stagedInstallRemovalFails : Installed :=
  installAppRelease .perIteration (fun _ => .transportError) (fun _ => false) stagedFS
    (some sampleWd) (uuidOfByte 10) twoFileRelease

/-- The environment `launchEnv` except that the goroutine reading the output of the
application meets a read error other than the end of the stream, and ends the launcher
before the main flow reports `closed`. -/
def readerFailsEnv : Env :=
  { launchEnv with reader := .fatalBeforeReport }

/-- The environment `scenarioEnv` except that no request of a status report can be sent. -/
def unreachableEnv : Env :=
  { scenarioEnv with statusFetch := fun _ => .sendError }

/-- The request `/hello` arrives before the first answer of the poll. -/
def closedBeforePoll : List Action :=
  [.request .hello, .main (.session (some scenarioSession)), .main .failed, .main .failed]

/-- A release of two files of type `release`; the first one has no size. -/
def sizelessFirstRelease : ReleaseV2 :=
  { Id := uuidOfByte 1, Version := "1.2.3".toList, Archive := false,
    Files := some
      [{ Id := uuidOfByte 5, FileType := "release".toList, Url := "https://cdn/app".toList,
         Size := none, OriginalPath := some "bin/app".toList },
       { Id := uuidOfByte 6, FileType := "release".toList, Url := "https://cdn/pak".toList,
         Size := some 2, OriginalPath := some "data/pak".toList }] }

/-- A release of one file of type `release`, which has a size, followed by a file of type
`image`, which has none. -/
def sizelessImageRelease : ReleaseV2 :=
  { Id := uuidOfByte 1, Version := "1.2.3".toList, Archive := false,
    Files := some
      [{ Id := uuidOfByte 5, FileType := "release".toList, Url := "https://cdn/app".toList,
         Size := some 4, OriginalPath := some "bin/app".toList },
       { Id := uuidOfByte 7, FileType := "image".toList, Url := "https://cdn/logo".toList,
         Size := none, OriginalPath := none }] }

end Launcher

/-! # Theorems -/

namespace Launcher

/-! ## Release selection -/

theorem selectLoop_some_ok (l : List ReleaseV2) :
    ∀ (i : Nat) (v : Version) (j0 : Nat),
      (∀ r ∈ l, NewVersion r.Version ≠ none) → j0 < i →
      ∃ v1 j, selectLoop l i (some v) (some j0) = .ok (some v1, some j) ∧ j < i + l.length := by
  induction l with
  | nil => intro i v j0 _ hj; exact ⟨v, j0, rfl, by simpa using hj⟩
  | cons r rest ih =>
    intro i v j0 hall hj
    have hr : NewVersion r.Version ≠ none := hall r (List.mem_cons_self _ _)
    have hrest : ∀ x ∈ rest, NewVersion x.Version ≠ none :=
      fun x hx => hall x (List.mem_cons_of_mem _ hx)
    obtain ⟨rv, hrv⟩ := Option.ne_none_iff_exists'.mp hr
    by_cases hgt : v.GreaterThan rv = true
    · obtain ⟨v1, j, h1, h2⟩ := ih (i + 1) rv i hrest (Nat.lt_succ_self i)
      refine ⟨v1, j, ?_, ?_⟩
      · simp only [selectLoop, hrv, hgt, if_true]; exact h1
      · simp only [List.length_cons]; omega
    · obtain ⟨v1, j, h1, h2⟩ := ih (i + 1) v j0 hrest (Nat.lt_succ_of_lt hj)
      refine ⟨v1, j, ?_, ?_⟩
      · simp only [selectLoop, hrv, hgt]; exact h1
      · simp only [List.length_cons]; omega

theorem selectLoop_start_ok (r : ReleaseV2) (rest : List ReleaseV2)
    (hall : ∀ x ∈ r :: rest, NewVersion x.Version ≠ none) :
    ∃ v1 j, selectLoop (r :: rest) 0 none none = .ok (some v1, some j)
      ∧ j < (r :: rest).length := by
  have hr : NewVersion r.Version ≠ none := hall r (List.mem_cons_self _ _)
  obtain ⟨rv, hrv⟩ := Option.ne_none_iff_exists'.mp hr
  obtain ⟨v1, j, h1, h2⟩ := selectLoop_some_ok rest 1 rv 0
    (fun x hx => hall x (List.mem_cons_of_mem _ hx)) Nat.zero_lt_one
  refine ⟨v1, j, ?_, ?_⟩
  · simp only [selectLoop, hrv]; exact h1
  · simp only [List.length_cons]; omega

theorem selectLoop_unparsable (l : List ReleaseV2) :
    ∀ (i : Nat) (lv : Option Version) (lr : Option Nat),
      (∃ r ∈ l, NewVersion r.Version = none) → ∃ e, selectLoop l i lv lr = .error e := by
  induction l with
  | nil => intro i lv lr h; obtain ⟨r, hr, _⟩ := h; cases hr
  | cons r rest ih =>
    intro i lv lr h
    cases hp : NewVersion r.Version with
    | none => cases lv <;> simp [selectLoop, hp]
    | some rv =>
      have hrest : ∃ x ∈ rest, NewVersion x.Version = none := by
        obtain ⟨x, hx, hxn⟩ := h
        rcases List.mem_cons.mp hx with rfl | hx1
        · rw [hp] at hxn; cases hxn
        · exact ⟨x, hx1, hxn⟩
      cases lv with
      | none => simp only [selectLoop, hp]; exact ih _ _ _ hrest
      | some v =>
        simp only [selectLoop, hp]
        split
        · exact ih _ _ _ hrest
        · exact ih _ _ _ hrest

theorem selectLatest_error_iff (sem : LoopVar) (entities : List ReleaseV2) :
    (∃ e, selectLatest sem entities = .error e) ↔
      (entities = [] ∨ ∃ r ∈ entities, NewVersion r.Version = none) := by
  constructor
  · intro herr
    by_contra hcon
    push_neg at hcon
    obtain ⟨hne, hall⟩ := hcon
    cases entities with
    | nil => exact hne rfl
    | cons r rest =>
      obtain ⟨v1, j, h1, h2⟩ := selectLoop_start_ok r rest hall
      obtain ⟨e, he⟩ := herr
      cases sem with
      | perLoop =>
        have hl : (r :: rest).getLast? = some ((r :: rest).getLast (by simp)) :=
          List.getLast?_eq_getLast _ _
        simp [selectLatest, h1, derefLoopVar, hl] at he
      | perIteration =>
        have hl : (r :: rest)[j]? = some ((r :: rest)[j]) := List.getElem?_eq_getElem h2
        simp [selectLatest, h1, derefLoopVar, hl] at he
  · rintro (rfl | h)
    · exact ⟨_, rfl⟩
    · obtain ⟨e, he⟩ := selectLoop_unparsable entities 0 none none h
      exact ⟨e, by simp [selectLatest, he]⟩

/-- Under per-iteration loop variables the returned release is the entry at the index the
loop tracked. -/
theorem selectLatest_perIteration_tracked (entities : List ReleaseV2) (r : ReleaseV2)
    (h : selectLatest .perIteration entities = .ok r) :
    ∃ v i, selectLoop entities 0 none none = .ok (some v, some i) ∧ entities[i]? = some r := by
  unfold selectLatest at h
  split at h
  · cases h
  · rename_i v i heq
    refine ⟨v, i, heq, ?_⟩
    simp only [derefLoopVar] at h
    split at h
    · rename_i r1 hr1
      cases h
      exact hr1
    · cases h
  · cases h

/-- Under a single per-loop variable every successful call returns the last entry of the
collection, whichever entry the loop tracked. -/
theorem selectLatest_perLoop_last (entities : List ReleaseV2) (r : ReleaseV2)
    (h : selectLatest .perLoop entities = .ok r) : entities.getLast? = some r := by
  unfold selectLatest at h
  split at h
  · cases h
  · simp only [derefLoopVar] at h
    split at h
    · rename_i r1 hr1
      cases h
      exact hr1
    · cases h
  · cases h

/-- C1: for the collection `[2.0.0, 1.0.0]` the call returns the release `1.0.0`, under either
treatment of the loop variable, although `2.0.0` is the greater version. -/
theorem GetLatestReleaseV2_returns_lower_version (sem : LoopVar) :
    (GetLatestReleaseV2 sem "https://api".toList "Win64".toList
        (fun _ => .decoded [releaseOf 1 "2.0.0", releaseOf 2 "1.0.0"]) (uuidOfByte 9)).result
      = .ok (releaseOf 2 "1.0.0")
    ∧ NewVersion "2.0.0".toList = some ⟨2, 0, 0, [], []⟩
    ∧ NewVersion "1.0.0".toList = some ⟨1, 0, 0, [], []⟩
    ∧ Version.GreaterThan ⟨2, 0, 0, [], []⟩ ⟨1, 0, 0, [], []⟩ = true := by
  cases sem <;> decide

/-- C2: once the fetch and the decode have succeeded, the call returns an error exactly when
the application id is nil, the collection is empty or some version string does not parse; and
a nil id sends no request. -/
theorem GetLatestReleaseV2_error_iff (sem : LoopVar) (api2Root platform : Str)
    (net : Str → FetchOutcome) (id : UUID) (entities : List ReleaseV2)
    (hfetch : net (releaseUrl api2Root platform id) = .decoded entities) :
    ((∃ e, (GetLatestReleaseV2 sem api2Root platform net id).result = .error e) ↔
        (id.IsNil = true ∨ entities = [] ∨ ∃ r ∈ entities, NewVersion r.Version = none))
      ∧ (id.IsNil = true → (GetLatestReleaseV2 sem api2Root platform net id).requests = []) := by
  constructor
  · by_cases hid : id.IsNil = true
    · simp [GetLatestReleaseV2, hid]
    · have hsel := selectLatest_error_iff sem entities
      simp only [GetLatestReleaseV2, hid, hfetch, Bool.false_eq_true, if_false, false_or]
      exact hsel
  · intro hid
    simp [GetLatestReleaseV2, hid]

theorem GetLatestReleaseV2_error_iff_witness :
    (fun _ => FetchOutcome.decoded [releaseOf 1 "1.2.3", releaseOf 2 "x"])
        (releaseUrl "https://api".toList "Win64".toList (uuidOfByte 9))
      = .decoded [releaseOf 1 "1.2.3", releaseOf 2 "x"]
    ∧ (((∃ e, (GetLatestReleaseV2 .perIteration "https://api".toList "Win64".toList
          (fun _ => .decoded [releaseOf 1 "1.2.3", releaseOf 2 "x"]) (uuidOfByte 9)).result
            = .error e) ↔
        ((uuidOfByte 9).IsNil = true ∨ [releaseOf 1 "1.2.3", releaseOf 2 "x"] = [] ∨
          ∃ r ∈ [releaseOf 1 "1.2.3", releaseOf 2 "x"], NewVersion r.Version = none))
      ∧ ((uuidOfByte 9).IsNil = true →
          (GetLatestReleaseV2 .perIteration "https://api".toList "Win64".toList
            (fun _ => .decoded [releaseOf 1 "1.2.3", releaseOf 2 "x"]) (uuidOfByte 9)).requests
            = [])) :=
  ⟨rfl, GetLatestReleaseV2_error_iff .perIteration "https://api".toList "Win64".toList
    (fun _ => .decoded [releaseOf 1 "1.2.3", releaseOf 2 "x"]) (uuidOfByte 9)
    [releaseOf 1 "1.2.3", releaseOf 2 "x"] rfl⟩

/-- C3: with one variable for the whole loop, the collection `[1.0.0, 2.0.0]` makes the loop
choose its first entry (index 0, version 1.0.0) and the call return the fields of the second
one: the later iteration overwrote the variable the result points to. -/
theorem GetLatestReleaseV2_result_aliases_loop_variable :
    selectLoop [releaseOf 1 "1.0.0", releaseOf 2 "2.0.0"] 0 none none
      = .ok (some ⟨1, 0, 0, [], []⟩, some 0)
    ∧ (GetLatestReleaseV2 .perLoop "https://api".toList "Win64".toList
        (fun _ => .decoded [releaseOf 1 "1.0.0", releaseOf 2 "2.0.0"]) (uuidOfByte 9)).result
      = .ok (releaseOf 2 "2.0.0")
    ∧ releaseOf 2 "2.0.0" ≠ releaseOf 1 "1.0.0" := by
  decide

end Launcher

namespace Launcher

/-! ## Paths -/

theorem splitOnChar_ne_nil (sep : Char) (s : Str) : splitOnChar sep s ≠ [] := by
  cases s with
  | nil => simp [splitOnChar]
  | cons c cs =>
    unfold splitOnChar
    split
    · simp
    · split <;> simp

theorem splitOnChar_cons_eq (sep c : Char) (s p : Str) (ps : List Str)
    (h : splitOnChar sep s = p :: ps) :
    splitOnChar sep (c :: s) = if c = sep then [] :: p :: ps else (c :: p) :: ps := by
  rw [splitOnChar.eq_2, h]

theorem splitOnChar_sep_cons (sep : Char) (s : Str) :
    splitOnChar sep (sep :: s) = [] :: splitOnChar sep s := by
  cases h : splitOnChar sep s with
  | nil => exact absurd h (splitOnChar_ne_nil sep s)
  | cons p ps => rw [splitOnChar_cons_eq sep sep s p ps h, if_pos rfl]

theorem splitOnChar_append (sep : Char) (a b : Str) :
    splitOnChar sep (a ++ sep :: b) = splitOnChar sep a ++ splitOnChar sep b := by
  induction a with
  | nil => rw [List.nil_append, splitOnChar_sep_cons]; rfl
  | cons c a ih =>
    cases h : splitOnChar sep a with
    | nil => exact absurd h (splitOnChar_ne_nil sep a)
    | cons p ps =>
      rw [h] at ih
      rw [List.cons_append, splitOnChar_cons_eq sep c _ p (ps ++ splitOnChar sep b) ih,
        splitOnChar_cons_eq sep c a p ps h]
      split <;> rfl

theorem splitOnChar_no_sep (sep : Char) (s : Str) (h : sep ∉ s) : splitOnChar sep s = [s] := by
  induction s with
  | nil => rfl
  | cons c cs ih =>
    have hc : c ≠ sep := fun hc => h (hc ▸ List.mem_cons_self _ _)
    have := ih (fun hm => h (List.mem_cons_of_mem _ hm))
    simp [splitOnChar, this, hc]

theorem splitOnChar_mem_no_sep (sep : Char) (s : Str) :
    ∀ e ∈ splitOnChar sep s, sep ∉ e := by
  induction s with
  | nil => intro e he; simp [splitOnChar] at he; simp [he]
  | cons c cs ih =>
    cases h : splitOnChar sep cs with
    | nil => exact absurd h (splitOnChar_ne_nil sep cs)
    | cons p ps =>
      rw [h] at ih
      intro e he
      simp only [splitOnChar, h] at he
      by_cases hc : c = sep
      · simp only [hc, if_true, List.mem_cons] at he
        rcases he with rfl | rfl | he
        · simp
        · exact ih _ (List.mem_cons_self _ _)
        · exact ih _ (List.mem_cons_of_mem _ he)
      · simp only [hc, if_false, List.mem_cons] at he
        rcases he with rfl | he
        · intro hm
          rcases List.mem_cons.mp hm with h1 | h1
          · exact hc h1.symm
          · exact ih _ (List.mem_cons_self _ _) h1
        · exact ih _ (List.mem_cons_of_mem _ he)

theorem joinSlash_append (xs ys : List Str) (hx : xs ≠ []) (hy : ys ≠ []) :
    joinSlash (xs ++ ys) = joinSlash xs ++ '/' :: joinSlash ys := by
  induction xs with
  | nil => exact absurd rfl hx
  | cons x xs ih =>
    cases xs with
    | nil =>
      cases ys with
      | nil => exact absurd rfl hy
      | cons y ys => simp [joinSlash]
    | cons x2 xs =>
      have := ih (by simp)
      rw [List.cons_append] at this
      show x ++ '/' :: joinSlash (x2 :: (xs ++ ys)) = _
      rw [this]
      simp [joinSlash]

theorem splitOnChar_joinSlash (xs : List Str) (hne : xs ≠ []) (h : ∀ e ∈ xs, '/' ∉ e) :
    splitOnChar '/' (joinSlash xs) = xs := by
  induction xs with
  | nil => exact absurd rfl hne
  | cons x xs ih =>
    cases xs with
    | nil => simp [joinSlash, splitOnChar_no_sep _ _ (h x (List.mem_cons_self _ _))]
    | cons x2 xs =>
      have := ih (by simp) (fun e he => h e (List.mem_cons_of_mem _ he))
      simp only [joinSlash] at this ⊢
      rw [splitOnChar_append, this, splitOnChar_no_sep _ _ (h x (List.mem_cons_self _ _))]
      rfl

end Launcher

namespace Launcher

theorem cleanStep_plain (rooted : Bool) (stack : List Str) (c : Str) (h : PlainName c) :
    cleanStep rooted stack c = c :: stack := by
  obtain ⟨⟨h1, h2, _⟩, h3⟩ := h
  simp [cleanStep, h1, h2, h3]

theorem cleanStep_empty (rooted : Bool) (stack : List Str) :
    cleanStep rooted stack [] = stack := by
  simp [cleanStep]

theorem cleanStep_normal (rooted : Bool) (stack : List Str) (c : Str)
    (hs : NormalStack rooted stack) (hc : '/' ∉ c) : NormalStack rooted (cleanStep rooted stack c) := by
  unfold cleanStep
  split
  · exact hs
  · rename_i h1
    push_neg at h1
    split
    · rename_i h2
      cases stack with
      | nil =>
        cases rooted with
        | true => simp [NormalStack]
        | false =>
          simp only [Bool.false_eq_true, if_false]
          refine ⟨⟨h1.1, h1.2, hc⟩, trivial, fun _ => ⟨rfl, ?_⟩⟩
          intro t ht; simp at ht
      | cons top rest =>
        simp only
        split
        · exact hs.2.1
        · rename_i h3
          push_neg at h3
          split
          · exact hs
          · rename_i h4
            refine ⟨⟨h1.1, h1.2, hc⟩, hs, fun _ => ⟨by simpa using h4, ?_⟩⟩
            intro t ht
            simp only [List.head?_cons, Option.some.injEq] at ht
            rw [← ht]; exact h3
    · rename_i h2
      exact ⟨⟨h1.1, h1.2, hc⟩, hs, fun h => absurd h h2⟩

theorem foldl_cleanStep_normal (rooted : Bool) (cs : List Str) :
    ∀ stack, NormalStack rooted stack → (∀ c ∈ cs, '/' ∉ c) →
      NormalStack rooted (cs.foldl (cleanStep rooted) stack) := by
  induction cs with
  | nil => intro stack hs _; exact hs
  | cons c cs ih =>
    intro stack hs hc
    exact ih _ (cleanStep_normal rooted stack c hs (hc c (List.mem_cons_self _ _)))
      (fun x hx => hc x (List.mem_cons_of_mem _ hx))

theorem cleanStack_normal (path : Str) : NormalStack (isRooted path) (cleanStack path) :=
  foldl_cleanStep_normal _ _ [] trivial (splitOnChar_mem_no_sep '/' path)

theorem foldl_cleanStep_replay (rooted : Bool) (stack : List Str)
    (hs : NormalStack rooted stack) : stack.reverse.foldl (cleanStep rooted) [] = stack := by
  induction stack with
  | nil => rfl
  | cons e rest ih =>
    rw [List.reverse_cons, List.foldl_append, ih hs.2.1]
    simp only [List.foldl_cons, List.foldl_nil]
    by_cases hd : e = ['.', '.']
    · obtain ⟨hr, hhead⟩ := hs.2.2 hd
      subst hd
      cases rest with
      | nil => simp [cleanStep, hr]
      | cons t rest =>
        have := hhead t rfl
        simp [cleanStep, hr, this]
    · exact cleanStep_plain rooted rest e ⟨hs.1, hd⟩

theorem normalStack_no_sep (rooted : Bool) (stack : List Str) (hs : NormalStack rooted stack) :
    ∀ e ∈ stack, '/' ∉ e := by
  induction stack with
  | nil => intro e he; cases he
  | cons x rest ih =>
    intro e he
    rcases List.mem_cons.mp he with rfl | he
    · exact hs.1.2.2
    · exact ih hs.2.1 e he

end Launcher

namespace Launcher

theorem isRooted_append (p q : Str) (hp : p ≠ []) : isRooted (p ++ q) = isRooted p := by
  cases p with
  | nil => exact absurd rfl hp
  | cons c p => rfl

theorem joinSlash_head (x : Str) (xs : List Str) (hx : x ≠ []) (hs : '/' ∉ x) :
    joinSlash (x :: xs) ≠ [] ∧ isRooted (joinSlash (x :: xs)) = false := by
  cases x with
  | nil => exact absurd rfl hx
  | cons c x =>
    have hc : c ≠ '/' := fun h => hs (h ▸ List.mem_cons_self _ _)
    cases xs with
    | nil => simp [joinSlash, isRooted, hc]
    | cons y ys => simp [joinSlash, isRooted, hc]

theorem renderPath_facts (rooted : Bool) (stack : List Str) (hs : NormalStack rooted stack) :
    renderPath rooted stack ≠ [] ∧ isRooted (renderPath rooted stack) = rooted
      ∧ cleanStack (renderPath rooted stack) = stack := by
  cases rooted with
  | true =>
    refine ⟨by simp [renderPath], by simp [renderPath, isRooted], ?_⟩
    show (splitOnChar '/' ('/' :: joinSlash stack.reverse)).foldl (cleanStep true) [] = stack
    rw [splitOnChar_sep_cons]
    by_cases hnil : stack = []
    · subst hnil; simp [joinSlash, splitOnChar, cleanStep]
    · rw [splitOnChar_joinSlash _ (by simpa using hnil)
        (fun e he => normalStack_no_sep _ _ hs e (List.mem_reverse.mp he))]
      rw [List.foldl_cons, cleanStep_empty]
      exact foldl_cleanStep_replay true stack hs
  | false =>
    by_cases hnil : stack = []
    · subst hnil
      refine ⟨by simp [renderPath], by simp [renderPath, isRooted], ?_⟩
      simp [renderPath, cleanStack, isRooted, splitOnChar, cleanStep]
    · have hrev : stack.reverse ≠ [] := by simpa using hnil
      obtain ⟨x, xs, hx⟩ := List.exists_cons_of_ne_nil hrev
      have hxmem : x ∈ stack := List.mem_reverse.mp (hx ▸ List.mem_cons_self _ _)
      have hkept : x ≠ [] ∧ '/' ∉ x := by
        have hall : ∀ (s : List Str), NormalStack false s → ∀ e ∈ s, e ≠ [] := by
          intro s
          induction s with
          | nil => intro _ e he; cases he
          | cons y ys ih =>
            intro hn e he
            rcases List.mem_cons.mp he with rfl | he
            · exact hn.1.1
            · exact ih hn.2.1 e he
        exact ⟨hall stack hs x hxmem, normalStack_no_sep _ _ hs x hxmem⟩
      have hj := joinSlash_head x xs hkept.1 hkept.2
      have hr : renderPath false stack = joinSlash (x :: xs) := by
        simp [renderPath, hnil, hx]
      rw [hr]
      refine ⟨hj.1, hj.2, ?_⟩
      show (splitOnChar '/' (joinSlash (x :: xs))).foldl
        (cleanStep (isRooted (joinSlash (x :: xs)))) [] = stack
      rw [hj.2, ← hx, splitOnChar_joinSlash _ hrev
        (fun e he => normalStack_no_sep _ _ hs e (List.mem_reverse.mp he))]
      exact foldl_cleanStep_replay false stack hs

theorem Clean_renderPath (rooted : Bool) (stack : List Str) (hs : NormalStack rooted stack) :
    Clean (renderPath rooted stack) = renderPath rooted stack := by
  obtain ⟨h1, h2, h3⟩ := renderPath_facts rooted stack hs
  unfold Clean
  rw [if_neg h1, h2, h3]

/-- Cleaning is idempotent. -/
theorem Clean_idempotent (path : Str) : Clean (Clean path) = Clean path := by
  by_cases hp : path = []
  · subst hp; decide
  · have : Clean path = renderPath (isRooted path) (cleanStack path) := by
      unfold Clean; rw [if_neg hp]
    rw [this]
    exact Clean_renderPath _ _ (cleanStack_normal path)

theorem foldl_cleanStep_plain (rooted : Bool) (ns : List Str) (hn : ∀ n ∈ ns, PlainName n) :
    ∀ stack, ns.foldl (cleanStep rooted) stack = ns.reverse ++ stack := by
  induction ns with
  | nil => intro stack; rfl
  | cons n ns ih =>
    intro stack
    rw [List.foldl_cons, cleanStep_plain rooted stack n (hn n (List.mem_cons_self _ _)),
      ih (fun x hx => hn x (List.mem_cons_of_mem _ hx))]
    simp

theorem cleanStack_append (p q : Str) (hp : p ≠ []) :
    cleanStack (p ++ '/' :: q)
      = (splitOnChar '/' q).foldl (cleanStep (isRooted p)) (cleanStack p) := by
  unfold cleanStack
  rw [isRooted_append p _ hp, splitOnChar_append, List.foldl_append]

theorem renderPath_push (rooted : Bool) (stack ns : List Str) (hne : ns ≠ [])
    (hs : stack ≠ []) :
    renderPath rooted (ns.reverse ++ stack) = renderPath rooted stack ++ '/' :: joinSlash ns := by
  have hrev : stack.reverse ≠ [] := by simpa using hs
  have h1 : ns.reverse ++ stack ≠ [] := by simp [hs]
  cases rooted with
  | true =>
    simp only [renderPath, if_true, List.reverse_append, List.reverse_reverse]
    rw [joinSlash_append _ _ hrev hne]
    rfl
  | false =>
    simp only [renderPath, Bool.false_eq_true, if_false, h1, hs, List.reverse_append,
      List.reverse_reverse]
    rw [joinSlash_append _ _ hrev hne]

/-- Cleaning a non-empty path extended by plain names: the names are appended to what is
kept of the path. -/
theorem Clean_append_plain (p : Str) (ns : List Str) (hp : p ≠ []) (hne : ns ≠ [])
    (hn : ∀ n ∈ ns, PlainName n) :
    Clean (p ++ '/' :: joinSlash ns)
      = renderPath (isRooted p) (ns.reverse ++ cleanStack p) := by
  have hnosep : ∀ e ∈ ns, '/' ∉ e := fun e he => (hn e he).1.2.2
  unfold Clean
  rw [if_neg (by simp), isRooted_append p _ hp, cleanStack_append p _ hp,
    splitOnChar_joinSlash ns hne hnosep, foldl_cleanStep_plain _ ns hn]

end Launcher

namespace Launcher

/-! ## File system table -/

theorem FS.lookup_put_same (fs : FS) (p : Str) (n : Node) : (fs.put p n).lookup p = some n := by
  simp [FS.lookup, FS.put]

theorem find_filter_ne (l : List (Str × Node)) (p q : Str) (h : q ≠ p) :
    (l.filter (fun e => e.1 ≠ p)).find? (fun e => e.1 = q) = l.find? (fun e => e.1 = q) := by
  induction l with
  | nil => rfl
  | cons e rest ih =>
    by_cases he : e.1 = p
    · have hq : ¬ e.1 = q := fun hc => h (hc ▸ he)
      rw [List.filter_cons_of_neg (by simpa using he), List.find?_cons_of_neg _ (by simpa using hq)]
      exact ih
    · rw [List.filter_cons_of_pos (by simpa using he)]
      by_cases hq : e.1 = q
      · rw [List.find?_cons_of_pos _ (by simpa using hq), List.find?_cons_of_pos _ (by simpa using hq)]
      · rw [List.find?_cons_of_neg _ (by simpa using hq), List.find?_cons_of_neg _ (by simpa using hq)]
        exact ih

theorem FS.lookup_put_ne (fs : FS) (p q : Str) (n : Node) (h : q ≠ p) :
    (fs.put p n).lookup q = fs.lookup q := by
  have hpq : ¬ p = q := fun hc => h hc.symm
  simp only [FS.lookup, FS.put]
  rw [List.find?_cons_of_neg _ (by simpa using hpq), find_filter_ne _ _ _ h]

theorem FS.lookup_erase_same (fs : FS) (p : Str) : (fs.erase p).lookup p = none := by
  have : (fs.nodes.filter (fun e => e.1 ≠ p)).find? (fun e => e.1 = p) = none := by
    rw [List.find?_eq_none]
    intro x hx
    have := (List.mem_filter.mp hx).2
    simpa using this
  simp only [FS.lookup, FS.erase, this]

theorem FS.lookup_erase_ne (fs : FS) (p q : Str) (h : q ≠ p) :
    (fs.erase p).lookup q = fs.lookup q := by
  simp only [FS.lookup, FS.erase]
  rw [find_filter_ne _ _ _ h]

/-! ## Decimal formatting and little-endian words -/

theorem getUint32_putUint32 (v : Nat) (h : v < 2 ^ 32) : getUint32 (putUint32 v) = v := by
  simp only [getUint32, putUint32, List.getD_cons_zero, List.getD_cons_succ]
  omega

theorem decimalValue_append_single (ds : Str) (c : Char) :
    decimalValue (ds ++ [c]) = 10 * decimalValue ds + (c.toNat - 48) := by
  simp [decimalValue, List.foldl_append]

theorem digitChar_isDigit (d : Nat) (h : d < 10) : isDigit (Char.ofNat (48 + d)) = true := by
  interval_cases d <;> decide

theorem digitChar_value (d : Nat) (h : d < 10) : (Char.ofNat (48 + d)).toNat - 48 = d := by
  interval_cases d <;> decide

theorem digitsFuel_spec (fuel : Nat) :
    ∀ (n : Nat) (acc : Str), n < fuel →
      ∃ ds, digitsFuel fuel n acc = ds ++ acc ∧ ds ≠ [] ∧ (∀ c ∈ ds, isDigit c = true)
        ∧ decimalValue ds = n := by
  induction fuel with
  | zero => intro n acc h; omega
  | succ fuel ih =>
    intro n acc h
    have hd : n % 10 < 10 := Nat.mod_lt _ (by decide)
    by_cases hz : n / 10 = 0
    · refine ⟨[Char.ofNat (48 + n % 10)], ?_, by simp, ?_, ?_⟩
      · simp [digitsFuel, hz]
      · intro c hc
        rw [List.mem_singleton] at hc
        rw [hc]; exact digitChar_isDigit _ hd
      · have := digitChar_value _ hd
        simp only [decimalValue, List.foldl_cons, List.foldl_nil, this]
        omega
    · have hlt : n / 10 < fuel := by omega
      obtain ⟨ds, h1, h2, h3, h4⟩ := ih (n / 10) (Char.ofNat (48 + n % 10) :: acc) hlt
      refine ⟨ds ++ [Char.ofNat (48 + n % 10)], ?_, by simp, ?_, ?_⟩
      · simp [digitsFuel, hz, h1]
      · intro c hc
        rcases List.mem_append.mp hc with hc | hc
        · exact h3 c hc
        · rw [List.mem_singleton] at hc
          rw [hc]; exact digitChar_isDigit _ hd
      · rw [decimalValue_append_single, h4, digitChar_value _ hd]
        omega

theorem formatUint_spec (n : Nat) :
    formatUint n ≠ [] ∧ (∀ c ∈ formatUint n, isDigit c = true)
      ∧ decimalValue (formatUint n) = n := by
  obtain ⟨ds, h1, h2, h3, h4⟩ := digitsFuel_spec (n + 1) n [] (Nat.lt_succ_self n)
  have : formatUint n = ds := by simp [formatUint, h1]
  rw [this]
  exact ⟨h2, h3, h4⟩

end Launcher
namespace Launcher

theorem span_digits (ds rest : Str) (hds : ∀ c ∈ ds, isDigit c = true)
    (hrest : ∀ c r, rest = c :: r → isDigit c = false) :
    (ds ++ rest).span isDigit = (ds, rest) := by
  rw [List.span_eq_take_drop]
  induction ds with
  | nil =>
    cases rest with
    | nil => rfl
    | cons c r => simp [List.takeWhile_cons, List.dropWhile_cons, hrest c r rfl]
  | cons d ds ih =>
    have hd : isDigit d = true := hds d (List.mem_cons_self _ _)
    have := ih (fun c hc => hds c (List.mem_cons_of_mem _ hc))
    simp only [List.cons_append, List.takeWhile_cons, List.dropWhile_cons, hd, if_true]
    rw [Prod.mk.injEq] at this ⊢
    exact ⟨by rw [this.1], this.2⟩

theorem optNumber_dot_digits (ds rest : Str) (hne : ds ≠ []) (hds : ∀ c ∈ ds, isDigit c = true)
    (hrest : ∀ c r, rest = c :: r → isDigit c = false) :
    optNumber ('.' :: (ds ++ rest)) = (ds, rest) := by
  cases ds with
  | nil => exact absurd rfl hne
  | cons d ds' =>
    have := span_digits (d :: ds') rest hds hrest
    simp only [optNumber, this]

theorem NewVersion_dotted (A B C : Str) (hA : A ≠ []) (hB : B ≠ []) (hC : C ≠ [])
    (dA : ∀ c ∈ A, isDigit c = true) (dB : ∀ c ∈ B, isDigit c = true)
    (dC : ∀ c ∈ C, isDigit c = true)
    (vA : decimalValue A < 2 ^ 63) (vB : decimalValue B < 2 ^ 63) (vC : decimalValue C < 2 ^ 63) :
    NewVersion (A ++ '.' :: (B ++ '.' :: C))
      = some ⟨decimalValue A, decimalValue B, decimalValue C, [], []⟩ := by
  have hdot : ∀ (x : Str) (c : Char) (r : Str), '.' :: x = c :: r → isDigit c = false := by
    intro x c r h
    cases h
    decide
  have hnil : ∀ (c : Char) (r : Str), ([] : Str) = c :: r → isDigit c = false := by
    intro c r h; cases h
  have s1 := span_digits A ('.' :: (B ++ '.' :: C)) dA (hdot _)
  have s2 := optNumber_dot_digits B ('.' :: C) hB dB (hdot _)
  have s3 := optNumber_dot_digits C [] hC dC hnil
  rw [List.append_nil] at s3
  cases A with
  | nil => exact absurd rfl hA
  | cons a A' =>
    have ha : isDigit a = true := dA a (List.mem_cons_self _ _)
    have hav : a ≠ 'v' := by
      intro h; rw [h] at ha; revert ha; decide
    have hsv : stripV (a :: A' ++ '.' :: (B ++ '.' :: C)) = a :: A' ++ '.' :: (B ++ '.' :: C) := by
      unfold stripV
      split
      · rename_i r heq
        exact absurd (List.cons.inj heq).1 hav
      · rfl
    have p1 : parseInt64 (a :: A') = some (decimalValue (a :: A')) := by
      unfold parseInt64; rw [if_pos vA]
    have p2 : parseInt64 B = some (decimalValue B) := by
      unfold parseInt64; rw [if_pos vB]
    have p3 : parseInt64 C = some (decimalValue C) := by
      unfold parseInt64; rw [if_pos vC]
    simp only [NewVersion, hsv, s1, s2, s3, optTagged, hB, hC, p1, p2, p3, if_false, ne_eq,
      not_true_eq_false]

end Launcher

namespace Launcher

/-! ## Version records -/

/-- The twelve bytes `WriteVersion` stores for a version. -/
theorem versionBytes_length (a b c : Nat) :
    (putUint32 a ++ putUint32 b ++ putUint32 c).length = 12 := rfl

theorem WriteVersion_ok_lookup (fs : FS) (dir : Str) (v : Version)
    (h : (WriteVersion fs dir v).2 = .ok ()) :
    (WriteVersion fs dir v).1.lookup (versionFile dir)
      = some (.file (putUint32 (toUint32 v.major) ++ putUint32 (toUint32 v.minor)
          ++ putUint32 (toUint32 v.patch))) := by
  unfold WriteVersion at h ⊢
  generalize hprep : (match fs.stat (versionFile dir) with
    | .error .other => (fs, Except.error "failed to check if version file exists")
    | .error .notExist =>
      match fs.create (versionFile dir) with
      | none => (fs, Except.error "failed to create version file")
      | some fs1 => (fs1, Except.ok ())
    | .ok _ =>
      match fs.remove (versionFile dir) with
      | none => (fs, Except.error "failed to remove version file")
      | some fs1 => (fs1, Except.ok ())) = prepared at h ⊢
  obtain ⟨fs1, r⟩ := prepared
  cases r with
  | error e => simp at h
  | ok u =>
    simp only [List.append_assoc] at h ⊢
    cases hw : fs1.writeFile (versionFile dir) (putUint32 (toUint32 v.major)
        ++ (putUint32 (toUint32 v.minor) ++ putUint32 (toUint32 v.patch))) with
    | none => rw [hw] at h; cases h
    | some fs2 =>
      simp only [hw]
      unfold FS.writeFile at hw
      split at hw
      · cases hw
        exact FS.lookup_put_same _ _ _
      · cases hw

theorem WriteVersion_succeeds (fs : FS) (dir : Str) (v : Version)
    (hdir : fs.isDir (Dir (versionFile dir)) = true)
    (hnd : fs.lookup (versionFile dir) ≠ some Node.dir) :
    (WriteVersion fs dir v).2 = .ok () := by
  have hne : Dir (versionFile dir) ≠ versionFile dir := by
    intro hc
    rw [hc] at hdir
    simp only [FS.isDir, decide_eq_true_eq] at hdir
    exact hnd hdir
  have hdir1 : fs.lookup (Dir (versionFile dir)) = some Node.dir := by
    simpa [FS.isDir] using hdir
  unfold WriteVersion
  cases hl : fs.lookup (versionFile dir) with
  | none =>
    have hc : fs.create (versionFile dir) = some (fs.put (versionFile dir) (.file [])) := by
      simp [FS.create, hdir, hl]
    have hw : (fs.put (versionFile dir) (.file [])).writeFile (versionFile dir)
        (putUint32 (toUint32 v.major) ++ putUint32 (toUint32 v.minor)
          ++ putUint32 (toUint32 v.patch)) = some ((fs.put (versionFile dir) (.file [])).put
            (versionFile dir) (.file (putUint32 (toUint32 v.major)
              ++ putUint32 (toUint32 v.minor) ++ putUint32 (toUint32 v.patch)))) := by
      simp [FS.writeFile, FS.isDir, FS.lookup_put_same, FS.lookup_put_ne _ _ _ _ hne, hdir1]
    simp only [FS.stat, hl, hc, hw]
  | some n =>
    cases n with
    | dir => exact absurd hl hnd
    | file content =>
      have hr : fs.remove (versionFile dir) = some (fs.erase (versionFile dir)) := by
        simp [FS.remove, hl]
      have hw : (fs.erase (versionFile dir)).writeFile (versionFile dir)
          (putUint32 (toUint32 v.major) ++ putUint32 (toUint32 v.minor)
            ++ putUint32 (toUint32 v.patch)) = some ((fs.erase (versionFile dir)).put
              (versionFile dir) (.file (putUint32 (toUint32 v.major)
                ++ putUint32 (toUint32 v.minor) ++ putUint32 (toUint32 v.patch)))) := by
        simp [FS.writeFile, FS.isDir, FS.lookup_erase_same, FS.lookup_erase_ne _ _ _ hne, hdir1]
      simp only [FS.stat, hl, hr, hw]

theorem ReadVersion_of_bytes (fs : FS) (dir : Str) (a b c : Nat)
    (ha : a < 2 ^ 32) (hb : b < 2 ^ 32) (hc : c < 2 ^ 32)
    (h : fs.lookup (versionFile dir) = some (.file (putUint32 a ++ putUint32 b ++ putUint32 c))) :
    ReadVersion fs dir = .ok ⟨a, b, c, [], []⟩ := by
  have t1 : sliceBytes (putUint32 a ++ (putUint32 b ++ putUint32 c))
      (readFileCap (putUint32 a ++ (putUint32 b ++ putUint32 c)).length) 0 4
      = some (putUint32 a) := rfl
  have t2 : sliceBytes (putUint32 a ++ (putUint32 b ++ putUint32 c))
      (readFileCap (putUint32 a ++ (putUint32 b ++ putUint32 c)).length) 4 8
      = some (putUint32 b) := rfl
  have t3 : sliceBytes (putUint32 a ++ (putUint32 b ++ putUint32 c))
      (readFileCap (putUint32 a ++ (putUint32 b ++ putUint32 c)).length) 8 12
      = some (putUint32 c) := rfl
  obtain ⟨fa1, fa2, fa3⟩ := formatUint_spec a
  obtain ⟨fb1, fb2, fb3⟩ := formatUint_spec b
  obtain ⟨fc1, fc2, fc3⟩ := formatUint_spec c
  have hp := NewVersion_dotted (formatUint a) (formatUint b) (formatUint c) fa1 fb1 fc1
    fa2 fb2 fc2 (by rw [fa3]; omega) (by rw [fb3]; omega) (by rw [fc3]; omega)
  rw [fa3, fb3, fc3] at hp
  simp only [ReadVersion, FS.stat, FS.readFile, h, t1, t2, t3,
    getUint32_putUint32 _ ha, getUint32_putUint32 _ hb, getUint32_putUint32 _ hc,
    List.append_assoc, List.cons_append, hp]

end Launcher

namespace Launcher

theorem dropWhile_all (p : Char → Bool) (a b : Str) (h : ∀ c ∈ a, p c = true) :
    (a ++ b).dropWhile p = b.dropWhile p := by
  induction a with
  | nil => rfl
  | cons c a ih =>
    rw [List.cons_append, List.dropWhile_cons, if_pos (h c (List.mem_cons_self _ _))]
    exact ih (fun x hx => h x (List.mem_cons_of_mem _ hx))

theorem Dir_of_name (n : Str) (hn : '/' ∉ n) : Dir n = ['.'] := by
  have h : ∀ c ∈ n.reverse, (fun c => decide (c ≠ '/')) c = true := by
    intro c hc
    have : c ≠ '/' := fun h => hn (h ▸ List.mem_reverse.mp hc)
    simpa using this
  have := dropWhile_all (fun c => decide (c ≠ '/')) n.reverse [] h
  rw [List.append_nil] at this
  unfold Dir
  rw [this]
  rfl

theorem Dir_append_name (x n : Str) (hn : '/' ∉ n) : Dir (x ++ '/' :: n) = Clean (x ++ ['/']) := by
  have h : ∀ c ∈ n.reverse, (fun c => decide (c ≠ '/')) c = true := by
    intro c hc
    have : c ≠ '/' := fun h => hn (h ▸ List.mem_reverse.mp hc)
    simpa using this
  have := dropWhile_all (fun c => decide (c ≠ '/')) n.reverse ('/' :: x.reverse) h
  unfold Dir
  rw [List.reverse_append, List.reverse_cons, List.append_assoc, List.singleton_append, this]
  simp [List.dropWhile_cons]

theorem Clean_trailing_sep (x : Str) (hx : x ≠ []) : Clean (x ++ ['/']) = Clean x := by
  unfold Clean
  rw [if_neg (by simp), if_neg hx, isRooted_append x _ hx, cleanStack_append x [] hx]
  simp [splitOnChar, cleanStep_empty]

theorem Clean_plain (n : Str) (hn : PlainName n) : Clean n = n := by
  have h1 := splitOnChar_no_sep '/' n hn.1.2.2
  have h2 := (joinSlash_head n [] hn.1.1 hn.1.2.2).2
  simp only [joinSlash] at h2
  unfold Clean cleanStack
  rw [if_neg hn.1.1, h1, h2]
  simp [cleanStep_plain _ _ _ hn, renderPath, joinSlash]

/-- The directory of a plain name joined to a path is the cleaned path. -/
theorem Dir_Join_plain (dir n : Str) (hn : PlainName n) : Dir (Join [dir, n]) = Clean dir := by
  have hsep : '/' ∉ n := hn.1.2.2
  by_cases hd : dir = []
  · subst hd
    have : Join [[], n] = Clean n := by simp [Join, hn.1.1, joinSlash]
    rw [this, Clean_plain n hn, Dir_of_name n hsep]
    rfl
  · have hj : Join [dir, n] = Clean (dir ++ '/' :: joinSlash [n]) := by
      simp [Join, hd, joinSlash]
    have hc := Clean_append_plain dir [n] hd (by simp)
      (fun x hx => by rw [List.mem_singleton] at hx; rw [hx]; exact hn)
    have hclean : Clean dir = renderPath (isRooted dir) (cleanStack dir) := by
      unfold Clean; rw [if_neg hd]
    rw [hj, hc, hclean]
    by_cases hs : cleanStack dir = []
    · rw [hs]
      cases hr : isRooted dir with
      | true =>
        have : renderPath true ([n].reverse ++ []) = [] ++ '/' :: n := by
          simp [renderPath, joinSlash]
        rw [this, Dir_append_name [] n hsep]
        decide
      | false =>
        have : renderPath false ([n].reverse ++ []) = n := by
          simp [renderPath, joinSlash]
        rw [this, Dir_of_name n hsep]
        rfl
    · rw [renderPath_push _ _ [n] (by simp) hs]
      simp only [joinSlash]
      have hfacts := renderPath_facts _ _ (cleanStack_normal dir)
      rw [Dir_append_name _ n hsep, Clean_trailing_sep _ hfacts.1]
      exact Clean_renderPath _ _ (cleanStack_normal dir)

theorem versionName_plain : PlainName ".version".toList := by
  simp [PlainName, KeptElem]

theorem Dir_versionFile (dir : Str) : Dir (versionFile dir) = Clean dir :=
  Dir_Join_plain dir _ versionName_plain

/-- C5: with the directory present and no directory in the place of the version file,
writing a version whose numbers fit 32 bits succeeds, and reading it back succeeds and gives
exactly those numbers. -/
theorem WriteVersion_ReadVersion_roundtrip (fs : FS) (dir : Str) (v : Version)
    (hdir : fs.isDir (Clean dir) = true)
    (hfile : fs.lookup (versionFile dir) ≠ some Node.dir)
    (hmajor : v.major < 2 ^ 32) (hminor : v.minor < 2 ^ 32) (hpatch : v.patch < 2 ^ 32) :
    (WriteVersion fs dir v).2 = .ok ()
      ∧ ReadVersion (WriteVersion fs dir v).1 dir
          = .ok { major := v.major, minor := v.minor, patch := v.patch, pre := [],
                  metadata := [] } := by
  have hok := WriteVersion_succeeds fs dir v (by rw [Dir_versionFile]; exact hdir) hfile
  refine ⟨hok, ?_⟩
  have hl := WriteVersion_ok_lookup fs dir v hok
  have e1 : toUint32 v.major = v.major := Nat.mod_eq_of_lt hmajor
  have e2 : toUint32 v.minor = v.minor := Nat.mod_eq_of_lt hminor
  have e3 : toUint32 v.patch = v.patch := Nat.mod_eq_of_lt hpatch
  rw [e1, e2, e3] at hl
  exact ReadVersion_of_bytes _ dir _ _ _ hmajor hminor hpatch hl

theorem WriteVersion_ReadVersion_roundtrip_witness :
    (FS.mk [("/opt/app".toList, Node.dir)]).isDir (Clean "/opt/app".toList) = true
      ∧ (FS.mk [("/opt/app".toList, Node.dir)]).lookup (versionFile "/opt/app".toList)
          ≠ some Node.dir
      ∧ (1 : Nat) < 2 ^ 32 ∧ (2 : Nat) < 2 ^ 32 ∧ (3 : Nat) < 2 ^ 32
      ∧ (WriteVersion (FS.mk [("/opt/app".toList, Node.dir)]) "/opt/app".toList
          ⟨1, 2, 3, [], []⟩).2 = .ok ()
      ∧ ReadVersion (WriteVersion (FS.mk [("/opt/app".toList, Node.dir)]) "/opt/app".toList
          ⟨1, 2, 3, [], []⟩).1 "/opt/app".toList = .ok ⟨1, 2, 3, [], []⟩ :=
  ⟨by decide, by decide, by decide, by decide, by decide,
    WriteVersion_ReadVersion_roundtrip (FS.mk [("/opt/app".toList, Node.dir)])
      "/opt/app".toList ⟨1, 2, 3, [], []⟩ (by decide) (by decide) (by decide) (by decide)
      (by decide)⟩

/-- C6: after a successful `WriteVersion` the version file holds exactly twelve bytes: the
little-endian 32-bit words of major, minor and patch (each taken as a 32-bit unsigned
number), in that order, whatever was at the path before. -/
theorem WriteVersion_file_content (fs : FS) (dir : Str) (v : Version)
    (h : (WriteVersion fs dir v).2 = .ok ()) :
    ∃ content, (WriteVersion fs dir v).1.readFile (versionFile dir) = some content
      ∧ content.length = 12
      ∧ content = putUint32 (toUint32 v.major) ++ putUint32 (toUint32 v.minor)
          ++ putUint32 (toUint32 v.patch)
      ∧ getUint32 (content.take 4) = v.major % 2 ^ 32
      ∧ getUint32 ((content.drop 4).take 4) = v.minor % 2 ^ 32
      ∧ getUint32 ((content.drop 8).take 4) = v.patch % 2 ^ 32
      ∧ ∀ b ∈ content, b < 256 := by
  have hl := WriteVersion_ok_lookup fs dir v h
  refine ⟨putUint32 (toUint32 v.major) ++ putUint32 (toUint32 v.minor)
    ++ putUint32 (toUint32 v.patch), by simp only [FS.readFile, hl], rfl, rfl, ?_, ?_, ?_, ?_⟩
  · exact getUint32_putUint32 _ (Nat.mod_lt _ (by decide))
  · exact getUint32_putUint32 _ (Nat.mod_lt _ (by decide))
  · exact getUint32_putUint32 _ (Nat.mod_lt _ (by decide))
  · intro b hb
    simp only [putUint32, List.mem_append, List.mem_cons, List.mem_singleton,
      List.not_mem_nil, or_false] at hb
    rcases hb with ((hb | hb | hb | hb) | (hb | hb | hb | hb)) | (hb | hb | hb | hb) <;>
      (rw [hb]; exact Nat.mod_lt _ (by decide))

theorem WriteVersion_file_content_witness :
    (WriteVersion (FS.mk [("/opt/app/.version".toList, Node.file [9]),
        ("/opt/app".toList, Node.dir)]) "/opt/app".toList ⟨1, 2, 3, [], []⟩).2 = .ok ()
      ∧ ∃ content, (WriteVersion (FS.mk [("/opt/app/.version".toList, Node.file [9]),
            ("/opt/app".toList, Node.dir)]) "/opt/app".toList
            ⟨1, 2, 3, [], []⟩).1.readFile (versionFile "/opt/app".toList) = some content
        ∧ content.length = 12
        ∧ content = putUint32 (toUint32 1) ++ putUint32 (toUint32 2) ++ putUint32 (toUint32 3)
        ∧ getUint32 (content.take 4) = 1 % 2 ^ 32
        ∧ getUint32 ((content.drop 4).take 4) = 2 % 2 ^ 32
        ∧ getUint32 ((content.drop 8).take 4) = 3 % 2 ^ 32
        ∧ ∀ b ∈ content, b < 256 :=
  ⟨by decide, WriteVersion_file_content (FS.mk [("/opt/app/.version".toList, Node.file [9]),
    ("/opt/app".toList, Node.dir)]) "/opt/app".toList ⟨1, 2, 3, [], []⟩ (by decide)⟩

/-- C7: for a directory with nothing at its `.version` path, `ReadVersion` returns the
version 0.0.0 and no error. -/
theorem ReadVersion_missing_file (fs : FS) (dir : Str)
    (_hdir : fs.isDir (Clean dir) = true)
    (h : fs.lookup (versionFile dir) = none) :
    ReadVersion fs dir = .ok { major := 0, minor := 0, patch := 0, pre := [], metadata := [] } := by
  simp only [ReadVersion, FS.stat, h]

theorem ReadVersion_missing_file_witness :
    (FS.mk [("/opt/app".toList, Node.dir)]).isDir (Clean "/opt/app".toList) = true
      ∧ (FS.mk [("/opt/app".toList, Node.dir)]).lookup (versionFile "/opt/app".toList) = none
      ∧ ReadVersion (FS.mk [("/opt/app".toList, Node.dir)]) "/opt/app".toList
          = .ok ⟨0, 0, 0, [], []⟩ :=
  ⟨by decide, by decide,
    ReadVersion_missing_file (FS.mk [("/opt/app".toList, Node.dir)]) "/opt/app".toList
      (by decide) (by decide)⟩

end Launcher

namespace Launcher

/-! ## Archive extraction -/

theorem extractEntries_append_error (dest : Str) (pre : List ZipEntry) :
    ∀ (fs : FS) (rest : List ZipEntry) (e : String),
      (extractEntries fs dest pre).2 = .error e →
      extractEntries fs dest (pre ++ rest) = extractEntries fs dest pre := by
  induction pre with
  | nil => intro fs rest e h; cases h
  | cons f pre ih =>
    intro fs rest e h
    simp only [List.cons_append, extractEntries] at h ⊢
    rcases hf : extractAndWriteFile fs dest f with ⟨fs1, r⟩
    rw [hf] at h
    cases r with
    | error e1 => rfl
    | ok u => exact ih fs1 rest e h

theorem extractEntries_append_ok (dest : Str) (pre : List ZipEntry) :
    ∀ (fs : FS) (rest : List ZipEntry),
      (extractEntries fs dest pre).2 = .ok () →
      extractEntries fs dest (pre ++ rest)
        = extractEntries (extractEntries fs dest pre).1 dest rest := by
  induction pre with
  | nil => intro fs rest _; rfl
  | cons f pre ih =>
    intro fs rest h
    simp only [List.cons_append, extractEntries] at h ⊢
    rcases hf : extractAndWriteFile fs dest f with ⟨fs1, r⟩
    rw [hf] at h
    cases r with
    | error e1 => cases h
    | ok u => exact ih fs1 rest h

theorem extractAndWriteFile_illegal (fs : FS) (dest : Str) (f : ZipEntry)
    (hout : HasPrefix (Join [dest, f.Name]) (Clean dest ++ ['/']) = false) :
    (extractAndWriteFile fs dest f).1 = fs
      ∧ (extractAndWriteFile fs dest f).2
          = .error (if f.openOk = false then "failed to open file in archive"
              else "illegal file path") := by
  unfold extractAndWriteFile
  by_cases ho : f.openOk = false
  · simp [ho]
  · simp [ho, hout]

theorem extractEntries_illegal (dest : Str) (pre post : List ZipEntry) (f : ZipEntry) (fs : FS)
    (hout : HasPrefix (Join [dest, f.Name]) (Clean dest ++ ['/']) = false) :
    (∃ msg, (extractEntries fs dest (pre ++ f :: post)).2 = .error msg)
      ∧ (extractEntries fs dest (pre ++ f :: post)).1 = (extractEntries fs dest pre).1
      ∧ ((extractEntries fs dest pre).2 = .ok () → f.openOk = true →
          (extractEntries fs dest (pre ++ f :: post)).2
            = .error "failed to extract file: illegal file path") := by
  cases hpre : (extractEntries fs dest pre).2 with
  | error e =>
    rw [extractEntries_append_error dest pre fs (f :: post) e hpre]
    exact ⟨⟨e, hpre⟩, rfl, fun h => by cases h⟩
  | ok u =>
    cases u
    rw [extractEntries_append_ok dest pre fs (f :: post) hpre]
    obtain ⟨h1, h2⟩ := extractAndWriteFile_illegal (extractEntries fs dest pre).1 dest f hout
    rcases hf : extractAndWriteFile (extractEntries fs dest pre).1 dest f with ⟨fs1, r⟩
    rw [hf] at h1 h2
    simp only at h1 h2
    subst h1 h2
    simp only [extractEntries, hf]
    refine ⟨⟨_, rfl⟩, trivial, fun _ ho => ?_⟩
    simp [ho]

/-- C4: when the cleaned join of the destination and a member name does not start with the
cleaned destination followed by the separator, `ExtractArchive` returns an error, and the
file system it leaves is the one left by the members before that one: nothing is written for
the member and no later member is processed. If the earlier members were extracted and the
member opens, the error is the illegal-path error. -/
theorem ExtractArchive_rejects_escaping_entry (unzip : List Nat → Option (List ZipEntry))
    (fs : FS) (archivePath dest : Str) (bytes : List Nat) (pre post : List ZipEntry)
    (f : ZipEntry)
    (hread : fs.readFile archivePath = some bytes)
    (hzip : unzip bytes = some (pre ++ f :: post))
    (hout : HasPrefix (Join [dest, f.Name]) (Clean dest ++ ['/']) = false) :
    (∃ msg, (ExtractArchive unzip fs archivePath dest).2 = .error msg)
      ∧ (ExtractArchive unzip fs archivePath dest).1
          = (ExtractArchive (fun _ => some pre) fs archivePath dest).1
      ∧ ((ExtractArchive (fun _ => some pre) fs archivePath dest).2 = .ok () →
          f.openOk = true →
          (ExtractArchive unzip fs archivePath dest).2
            = .error "failed to extract file: illegal file path") := by
  unfold ExtractArchive
  simp only [hread, hzip]
  cases fs.mkdirAll dest with
  | none => exact ⟨⟨_, rfl⟩, rfl, fun h => by cases h⟩
  | some fs1 => exact extractEntries_illegal dest pre post f fs1 hout

end Launcher

namespace Launcher

theorem ExtractArchive_rejects_escaping_entry_witness :
    (FS.mk [("/tmp/a.zip".toList, Node.file [80, 75])]).readFile "/tmp/a.zip".toList
        = some [80, 75]
      ∧ (fun _ => some ([⟨"ok.txt".toList, false, true, [1], true⟩]
            ++ ⟨"../evil.txt".toList, false, true, [2], true⟩
              :: [⟨"later.txt".toList, false, true, [3], true⟩])) [80, 75]
          = some ([⟨"ok.txt".toList, false, true, [1], true⟩]
            ++ (⟨"../evil.txt".toList, false, true, [2], true⟩ : ZipEntry)
              :: [⟨"later.txt".toList, false, true, [3], true⟩])
      ∧ HasPrefix (Join ["/opt/app".toList, "../evil.txt".toList])
          (Clean "/opt/app".toList ++ ['/']) = false
      ∧ (∃ msg, (ExtractArchive (fun _ => some ([⟨"ok.txt".toList, false, true, [1], true⟩]
            ++ ⟨"../evil.txt".toList, false, true, [2], true⟩
              :: [⟨"later.txt".toList, false, true, [3], true⟩]))
            (FS.mk [("/tmp/a.zip".toList, Node.file [80, 75])]) "/tmp/a.zip".toList
            "/opt/app".toList).2 = .error msg)
      ∧ (ExtractArchive (fun _ => some ([⟨"ok.txt".toList, false, true, [1], true⟩]
            ++ ⟨"../evil.txt".toList, false, true, [2], true⟩
              :: [⟨"later.txt".toList, false, true, [3], true⟩]))
            (FS.mk [("/tmp/a.zip".toList, Node.file [80, 75])]) "/tmp/a.zip".toList
            "/opt/app".toList).1
          = (ExtractArchive (fun _ => some [⟨"ok.txt".toList, false, true, [1], true⟩])
              (FS.mk [("/tmp/a.zip".toList, Node.file [80, 75])]) "/tmp/a.zip".toList
              "/opt/app".toList).1
      ∧ ((ExtractArchive (fun _ => some [⟨"ok.txt".toList, false, true, [1], true⟩])
              (FS.mk [("/tmp/a.zip".toList, Node.file [80, 75])]) "/tmp/a.zip".toList
              "/opt/app".toList).2 = .ok () →
          (⟨"../evil.txt".toList, false, true, [2], true⟩ : ZipEntry).openOk = true →
          (ExtractArchive (fun _ => some ([⟨"ok.txt".toList, false, true, [1], true⟩]
            ++ ⟨"../evil.txt".toList, false, true, [2], true⟩
              :: [⟨"later.txt".toList, false, true, [3], true⟩]))
            (FS.mk [("/tmp/a.zip".toList, Node.file [80, 75])]) "/tmp/a.zip".toList
            "/opt/app".toList).2 = .error "failed to extract file: illegal file path") :=
  ⟨by decide, rfl, by decide,
    ExtractArchive_rejects_escaping_entry
      (fun _ => some ([⟨"ok.txt".toList, false, true, [1], true⟩]
        ++ ⟨"../evil.txt".toList, false, true, [2], true⟩
          :: [⟨"later.txt".toList, false, true, [3], true⟩]))
      (FS.mk [("/tmp/a.zip".toList, Node.file [80, 75])]) "/tmp/a.zip".toList
      "/opt/app".toList [80, 75] [⟨"ok.txt".toList, false, true, [1], true⟩]
      [⟨"later.txt".toList, false, true, [3], true⟩]
      ⟨"../evil.txt".toList, false, true, [2], true⟩ (by decide) rfl (by decide)⟩

end Launcher

namespace Launcher

/-! ## Installation -/

theorem findArchive_none (entities : List File)
    (h : ∀ f ∈ entities, f.FileType ≠ "release-archive".toList) : findArchive entities = none := by
  induction entities with
  | nil => rfl
  | cons f rest ih =>
    have hf := h f (List.mem_cons_self _ _)
    simp only [findArchive, hf, if_false]
    exact ih (fun x hx => h x (List.mem_cons_of_mem _ hx))

theorem collectReleaseFiles_nil (entities : List File)
    (h : ∀ f ∈ entities, f.FileType ≠ "release".toList) :
    ∀ i, collectReleaseFiles entities i = [] := by
  induction entities with
  | nil => intro i; rfl
  | cons f rest ih =>
    intro i
    have hf := h f (List.mem_cons_self _ _)
    simp only [collectReleaseFiles, hf, if_false]
    exact ih (fun x hx => h x (List.mem_cons_of_mem _ hx)) (i + 1)

/-- C9: for a release whose files hold none of the required type, the installation returns
the error with the file system unchanged and no step taken (no download, no extraction, no
move, no version file): `installAppReleaseArchive` when no file has type `release-archive`,
`installAppRelease` when no file has type `release`. -/
theorem install_missing_file_type (sem : LoopVar) (http : Str → HttpAnswer)
    (unzip : List Nat → Option (List ZipEntry)) (removeAllOk : Str → Bool) (fs : FS)
    (wd : Option Str) (appId : UUID)
    (release : ReleaseV2) (entities : List File) (hfiles : release.Files = some entities) :
    ((∀ f ∈ entities, f.FileType ≠ "release-archive".toList) →
        installAppReleaseArchive http unzip removeAllOk fs wd appId release
          = { fs := fs, log := [], totalProgress := 0, result := .err "no archive file found" })
      ∧ ((∀ f ∈ entities, f.FileType ≠ "release".toList) →
        installAppRelease sem http removeAllOk fs wd appId release
          = { fs := fs, log := [], totalProgress := 0,
              result := .err "no release files found" }) := by
  constructor
  · intro h
    simp only [installAppReleaseArchive, hfiles, findArchive_none entities h]
  · intro h
    simp [installAppRelease, hfiles, releaseFiles, collectReleaseFiles_nil entities h 0]

theorem install_missing_file_type_witness :
    (⟨uuidOfByte 1, "1.2.3".toList, true,
        some [⟨uuidOfByte 5, "image".toList, "http://cdn/x".toList, some 4, none⟩]⟩
        : ReleaseV2).Files
        = some [⟨uuidOfByte 5, "image".toList, "http://cdn/x".toList, some 4, none⟩]
      ∧ (((∀ f ∈ [(⟨uuidOfByte 5, "image".toList, "http://cdn/x".toList, some 4, none⟩ : File)],
            f.FileType ≠ "release-archive".toList) →
          installAppReleaseArchive (fun _ => .transportError) (fun _ => none) (fun _ => true)
            (FS.mk [("/srv".toList, Node.dir)]) (some "/srv".toList) (uuidOfByte 10)
            ⟨uuidOfByte 1, "1.2.3".toList, true,
              some [⟨uuidOfByte 5, "image".toList, "http://cdn/x".toList, some 4, none⟩]⟩
            = { fs := FS.mk [("/srv".toList, Node.dir)], log := [], totalProgress := 0,
                result := .err "no archive file found" })
        ∧ ((∀ f ∈ [(⟨uuidOfByte 5, "image".toList, "http://cdn/x".toList, some 4, none⟩ : File)],
            f.FileType ≠ "release".toList) →
          installAppRelease .perIteration (fun _ => .transportError) (fun _ => true)
            (FS.mk [("/srv".toList, Node.dir)]) (some "/srv".toList) (uuidOfByte 10)
            ⟨uuidOfByte 1, "1.2.3".toList, true,
              some [⟨uuidOfByte 5, "image".toList, "http://cdn/x".toList, some 4, none⟩]⟩
            = { fs := FS.mk [("/srv".toList, Node.dir)], log := [], totalProgress := 0,
                result := .err "no release files found" })) :=
  ⟨rfl, install_missing_file_type .perIteration (fun _ => .transportError) (fun _ => none)
    (fun _ => true) (FS.mk [("/srv".toList, Node.dir)]) (some "/srv".toList) (uuidOfByte 10)
    ⟨uuidOfByte 1, "1.2.3".toList, true,
      some [⟨uuidOfByte 5, "image".toList, "http://cdn/x".toList, some 4, none⟩]⟩
    [⟨uuidOfByte 5, "image".toList, "http://cdn/x".toList, some 4, none⟩] rfl⟩

end Launcher

namespace Launcher

/-! ## Main flow -/

theorem reportClosed_events (env : Env) (fs : FS) (events : List Event) (andThen : Ending) :
    ∃ ok, (reportClosed env fs events andThen).events
      = events ++ [Event.sessionStatus "closed".toList ok] := by
  unfold reportClosed
  split
  · exact ⟨true, rfl⟩
  · exact ⟨false, rfl⟩

theorem runApp_events_cases (env : Env) (fs : FS) (id : UUID) (r : ReleaseV2) :
    (runApp env fs id r).events = []
      ∨ (∃ e a d, (runApp env fs id r).events = [Event.launch e a d])
      ∨ ∃ e a d ok, (runApp env fs id r).events
          = [Event.launch e a d, Event.sessionStatus "closed".toList ok] := by
  cases hfe : findEntrypoint env.isExecutable
      (getBinarySuffix env.lower env.windows env.pEnvironment)
      fs env.wd (runApp_searchRoot id r) with
  | error e => left; simp only [runApp, hfe]
  | ok found =>
    simp only [runApp, hfe]
    by_cases hp : env.pipeOk = false
    · left; simp [hp]
    · by_cases hst : env.startOk = false
      · left; simp [hp, hst]
      · simp only [hp, hst, if_false]
        right
        have hrun : ∀ andThen, ∃ ok, (reportClosed env fs
            [Event.launch (normalizeEntrypoint
              (getBinarySuffix env.lower env.windows env.pEnvironment) found)
              (streamingArgs ++ env.passthrough) (Dir (Dir (Dir (Dir found))) ++ ['/'])]
            andThen).events
            = [Event.launch (normalizeEntrypoint
              (getBinarySuffix env.lower env.windows env.pEnvironment) found)
              (streamingArgs ++ env.passthrough) (Dir (Dir (Dir (Dir found))) ++ ['/']),
              Event.sessionStatus "closed".toList ok] := fun andThen =>
          reportClosed_events env fs _ andThen
        cases hr : env.reader with
        | fatalBeforeReport => left; exact ⟨_, _, _, rfl⟩
        | eof =>
          right
          cases env.wait with
          | exited => obtain ⟨ok, h⟩ := hrun .returned; exact ⟨_, _, _, ok, h⟩
          | waitError =>
            obtain ⟨ok, h⟩ := hrun (.fatal "application exit error"); exact ⟨_, _, _, ok, h⟩
          | exitError b =>
            cases b with
            | true =>
              obtain ⟨ok, h⟩ := hrun (.fatal "application exit code"); exact ⟨_, _, _, ok, h⟩
            | false => obtain ⟨ok, h⟩ := hrun .returned; exact ⟨_, _, _, ok, h⟩
        | fatalAfterReport =>
          right
          cases env.wait with
          | exited => obtain ⟨ok, h⟩ := hrun .returned; exact ⟨_, _, _, ok, h⟩
          | waitError =>
            obtain ⟨ok, h⟩ := hrun (.fatal "application exit error"); exact ⟨_, _, _, ok, h⟩
          | exitError b =>
            cases b with
            | true =>
              obtain ⟨ok, h⟩ := hrun (.fatal "application exit code"); exact ⟨_, _, _, ok, h⟩
            | false => obtain ⟨ok, h⟩ := hrun .returned; exact ⟨_, _, _, ok, h⟩

theorem runApp_events (env : Env) (fs : FS) (id : UUID) (r : ReleaseV2) :
    ¬ runningReported (runApp env fs id r).events := by
  rintro ⟨ok, h⟩
  rcases runApp_events_cases env fs id r with h0 | ⟨e, a, d, h1⟩ | ⟨e, a, d, b, h1⟩
  · rw [h0] at h; cases h
  · rw [h1] at h
    simp at h
  · rw [h1] at h
    simp at h

theorem not_running_install (l : List InstallEvent) (ok : Bool) :
    Event.sessionStatus "running".toList ok ∉ l.map Event.install := by
  simp

theorem not_running_request (l : List Str) (ok : Bool) :
    Event.sessionStatus "running".toList ok ∉ l.map Event.releaseRequest := by
  simp

theorem not_launch_install (l : List InstallEvent) (e : Str) (a : List Str) (d : Str) :
    Event.launch e a d ∉ l.map Event.install := by
  simp

theorem not_launch_request (l : List Str) (e : Str) (a : List Str) (d : Str) :
    Event.launch e a d ∉ l.map Event.releaseRequest := by
  simp

/-- The shape of every run of `launchSession` that reports `running` or launches the
application. -/
theorem launchSession_shape (env : Env) (fs : FS) (session : Session)
    (h : runningReported (launchSession env fs session).events
      ∨ launched (launchSession env fs session).events) :
    ∃ appId r ok tail, session.AppId = some appId
      ∧ (GetLatestReleaseV2 env.sem env.api2Root env.platform env.net appId).result = .ok r
      ∧ r.Files ≠ none ∧ r.Files ≠ some []
      ∧ (installRelease env fs appId r).result = .ok ()
      ∧ (launchSession env fs session).events
          = [Event.sessionStatus "starting".toList true]
            ++ (GetLatestReleaseV2 env.sem env.api2Root env.platform env.net appId).requests.map
                Event.releaseRequest
            ++ (installRelease env fs appId r).log.map Event.install
            ++ [Event.sessionStatus "running".toList ok] ++ tail
      ∧ ¬ runningReported tail
      ∧ (launched (launchSession env fs session).events → ok = true ∧ launched tail) := by
  unfold launchSession at h ⊢
  by_cases hs : env.statusOk "starting".toList = false
  · exfalso
    simp only [hs, if_true] at h
    rcases h with ⟨ok, h⟩ | ⟨e, a, d, h⟩
    · simp at h
    · simp at h
  · simp only [hs, Bool.true_eq_false, if_false] at h ⊢
    cases hid : session.AppId with
    | none =>
      exfalso
      simp only [hid] at h
      rcases h with ⟨ok, h⟩ | ⟨e, a, d, h⟩
      · simp at h
      · simp at h
    | some appId =>
      simp only [hid] at h ⊢
      cases hres : (GetLatestReleaseV2 env.sem env.api2Root env.platform env.net appId).result with
      | error e =>
        exfalso
        simp only [hres] at h
        rcases h with ⟨ok, h⟩ | ⟨e, a, d, h⟩
        · simp at h
        · simp at h
      | ok r =>
        simp only [hres] at h ⊢
        by_cases hf : r.Files = none ∨ r.Files = some []
        · exfalso
          simp only [hf, if_true] at h
          rcases h with ⟨ok, h⟩ | ⟨e, a, d, h⟩
          · simp at h
          · simp at h
        · simp only [hf, if_false] at h ⊢
          push_neg at hf
          cases hinst : (installRelease env fs appId r).result with
          | panic m =>
            exfalso
            simp only [hinst] at h
            rcases h with ⟨ok, h⟩ | ⟨e, a, d, h⟩
            · simp at h
            · simp at h
          | err m =>
            exfalso
            simp only [hinst] at h
            rcases h with ⟨ok, h⟩ | ⟨e, a, d, h⟩
            · simp at h
            · simp at h
          | ok u =>
            simp only [hinst] at h ⊢
            by_cases hr : env.statusOk "running".toList = false
            · simp only [hr, if_true] at h ⊢
              refine ⟨appId, r, false, [], rfl, hres, hf.1, hf.2, hinst, by simp, ?_, ?_⟩
              · rintro ⟨ok, hl⟩
                cases hl
              · rintro ⟨e, a, d, hl⟩
                simp at hl
            · simp only [hr, Bool.true_eq_false, if_false] at h ⊢
              refine ⟨appId, r, true,
                (runApp env (installRelease env fs appId r).fs appId r).events,
                rfl, hres, hf.1, hf.2, hinst, rfl, runApp_events _ _ _ _, ?_⟩
              rintro ⟨e, a, d, hl⟩
              refine ⟨rfl, e, a, d, ?_⟩
              simpa using hl

end Launcher

namespace Launcher

theorem awaitSession_quiet (polls : List PollAnswer) :
    ∀ events, ¬ runningReported events → ¬ launched events →
      ¬ runningReported (awaitSession polls events).1 ∧ ¬ launched (awaitSession polls events).1 := by
  induction polls with
  | nil => intro events h1 h2; exact ⟨h1, h2⟩
  | cons a rest ih =>
    intro events h1 h2
    have hstep : ¬ runningReported (events ++ [.poll, .sleep])
        ∧ ¬ launched (events ++ [.poll, .sleep]) := by
      constructor
      · rintro ⟨ok, h⟩
        simp at h
        exact h1 ⟨ok, h⟩
      · rintro ⟨e, a, d, h⟩
        simp at h
        exact h2 ⟨e, a, d, h⟩
    cases a with
    | failed => exact ih _ hstep.1 hstep.2
    | session s =>
      cases s with
      | none => exact ih _ hstep.1 hstep.2
      | some s =>
        by_cases hid : s.Id = none
        · simp only [awaitSession, hid, if_true]
          exact ih _ hstep.1 hstep.2
        · simp only [awaitSession, hid, if_false]
          constructor
          · rintro ⟨ok, h⟩
            simp at h
            exact h1 ⟨ok, h⟩
          · rintro ⟨e, a, d, h⟩
            simp at h
            exact h2 ⟨e, a, d, h⟩

theorem launchSession_not_ready (env : Env) (fs : FS) (session : Session) (appId : UUID)
    (hid : session.AppId = some appId) (hnot : ¬ readyToRun env fs appId) :
    (∃ msg, (launchSession env fs session).ending = .fatal msg)
      ∨ (launchSession env fs session).ending = .panicked := by
  unfold launchSession
  by_cases hs : env.statusOk "starting".toList = false
  · simp only [hs, if_true]; exact Or.inl ⟨_, rfl⟩
  · simp only [hs, Bool.true_eq_false, if_false, hid]
    cases hres : (GetLatestReleaseV2 env.sem env.api2Root env.platform env.net appId).result with
    | error e => exact Or.inl ⟨_, rfl⟩
    | ok r =>
      simp only
      by_cases hf : r.Files = none ∨ r.Files = some []
      · simp only [hf, if_true]; exact Or.inl ⟨_, rfl⟩
      · simp only [hf, if_false]
        push_neg at hf
        cases hinst : (installRelease env fs appId r).result with
        | panic m => exact Or.inr rfl
        | err m => exact Or.inl ⟨_, rfl⟩
        | ok u => exact absurd ⟨r, hres, hf.1, hf.2, hinst⟩ hnot

theorem main_events (env : Env) (fs : FS) (polls : List PollAnswer) :
    ((awaitSession polls startEvents).2 = none
        ∧ (main env fs polls).events
            = (awaitSession polls startEvents).1)
      ∨ ∃ session, (awaitSession polls startEvents).2
            = some session
          ∧ ((main env fs polls).events
              = (awaitSession polls startEvents).1
                  ++ (launchSession env fs session).events
            ∨ (main env fs polls).events
              = (awaitSession polls startEvents).1
                  ++ (launchSession env fs session).events ++ [.sleep])
          ∧ ((launchSession env fs session).ending ≠ .returned →
              (main env fs polls).ending = (launchSession env fs session).ending) := by
  cases hfound : (awaitSession polls startEvents).2 with
  | none => left; exact ⟨rfl, by simp only [main, hfound]⟩
  | some session =>
    right
    refine ⟨session, rfl, ?_, ?_⟩
    · cases hend : (launchSession env fs session).ending with
      | returned => right; simp only [main, hfound, hend]
      | fatal m => left; simp only [main, hfound, hend]
      | panicked => left; simp only [main, hfound, hend]
      | blocked => left; simp only [main, hfound, hend]
    · intro hne
      cases hend : (launchSession env fs session).ending with
      | returned => exact absurd hend hne
      | fatal m => simp only [main, hfound, hend]
      | panicked => simp only [main, hfound, hend]
      | blocked => simp only [main, hfound, hend]

end Launcher

namespace Launcher

/-- C10: in the main flow a report of `running` (and any launch of the application) occurs
only in a run in which the resolution returned a release with files and the installation
returned success, and it comes after the report of `starting`, the release request and the
installation steps; the launch comes after a successful report of `running`. When the
resolution fails, the release has no files or the installation ends in an error, `running`
is not reported, the application is not launched, and the process ends. -/
theorem main_running_only_after_install (env : Env) (fs : FS) (polls : List PollAnswer) :
    ((runningReported (main env fs polls).events ∨ launched (main env fs polls).events) →
      ∃ session appId r ok tail,
        (awaitSession polls startEvents).2 = some session
        ∧ session.AppId = some appId
        ∧ (GetLatestReleaseV2 env.sem env.api2Root env.platform env.net appId).result = .ok r
        ∧ r.Files ≠ none ∧ r.Files ≠ some []
        ∧ (installRelease env fs appId r).result = .ok ()
        ∧ (main env fs polls).events
            = (awaitSession polls startEvents).1
              ++ [Event.sessionStatus "starting".toList true]
              ++ (GetLatestReleaseV2 env.sem env.api2Root env.platform env.net
                    appId).requests.map Event.releaseRequest
              ++ (installRelease env fs appId r).log.map Event.install
              ++ [Event.sessionStatus "running".toList ok] ++ tail
        ∧ ¬ runningReported tail
        ∧ (launched (main env fs polls).events → ok = true ∧ launched tail))
    ∧ (∀ session appId, (awaitSession polls startEvents).2 = some session →
        session.AppId = some appId → ¬ readyToRun env fs appId →
        ¬ runningReported (main env fs polls).events
          ∧ ¬ launched (main env fs polls).events
          ∧ ((∃ msg, (main env fs polls).ending = .fatal msg)
              ∨ (main env fs polls).ending = .panicked)) := by
  have hstart : ¬ runningReported startEvents ∧ ¬ launched startEvents := by
    constructor
    · rintro ⟨ok, h⟩; simp [startEvents] at h
    · rintro ⟨e, a, d, h⟩; simp [startEvents] at h
  have hquiet := awaitSession_quiet polls startEvents hstart.1 hstart.2
  have key : ∀ session, (awaitSession polls startEvents).2 = some session →
      (runningReported (main env fs polls).events ∨ launched (main env fs polls).events) →
      ∃ suffix, (suffix = [] ∨ suffix = [Event.sleep])
        ∧ (main env fs polls).events
            = (awaitSession polls startEvents).1 ++ (launchSession env fs session).events
                ++ suffix
        ∧ (runningReported (launchSession env fs session).events
            ∨ launched (launchSession env fs session).events)
        ∧ (launched (main env fs polls).events →
            launched (launchSession env fs session).events) := by
    intro session hfound h
    rcases main_events env fs polls with ⟨hnone, _⟩ | ⟨s2, hs2, hev, _⟩
    · rw [hnone] at hfound; cases hfound
    · rw [hfound] at hs2
      cases hs2
      have hl : launched (main env fs polls).events →
          launched (launchSession env fs session).events := by
        rintro ⟨e, a, d, hm⟩
        rcases hev with hev | hev
        · rw [hev] at hm
          rcases List.mem_append.mp hm with hm | hm
          · exact absurd ⟨e, a, d, hm⟩ hquiet.2
          · exact ⟨e, a, d, hm⟩
        · rw [hev] at hm
          rcases List.mem_append.mp hm with hm | hm
          · rcases List.mem_append.mp hm with hm | hm
            · exact absurd ⟨e, a, d, hm⟩ hquiet.2
            · exact ⟨e, a, d, hm⟩
          · simp at hm
      have hr : runningReported (main env fs polls).events →
          runningReported (launchSession env fs session).events := by
        rintro ⟨ok, hm⟩
        rcases hev with hev | hev
        · rw [hev] at hm
          rcases List.mem_append.mp hm with hm | hm
          · exact absurd ⟨ok, hm⟩ hquiet.1
          · exact ⟨ok, hm⟩
        · rw [hev] at hm
          rcases List.mem_append.mp hm with hm | hm
          · rcases List.mem_append.mp hm with hm | hm
            · exact absurd ⟨ok, hm⟩ hquiet.1
            · exact ⟨ok, hm⟩
          · simp at hm
      have hor : runningReported (launchSession env fs session).events
          ∨ launched (launchSession env fs session).events := h.imp hr hl
      rcases hev with hev | hev
      · exact ⟨[], Or.inl rfl, by rw [hev, List.append_nil], hor, hl⟩
      · exact ⟨[Event.sleep], Or.inr rfl, hev, hor, hl⟩
  constructor
  · intro h
    rcases main_events env fs polls with ⟨hnone, hev⟩ | ⟨session, hfound, _, _⟩
    · exfalso
      rw [hev] at h
      rcases h with h | h
      · exact hquiet.1 h
      · exact hquiet.2 h
    · obtain ⟨suffix, hsuf, hev, hor, hl⟩ := key session hfound h
      obtain ⟨appId, r, ok, tail, hid, hres, hf1, hf2, hinst, hshape, hnr, hlt⟩ :=
        launchSession_shape env fs session hor
      refine ⟨session, appId, r, ok, tail ++ suffix, hfound, hid, hres, hf1, hf2, hinst, ?_, ?_, ?_⟩
      · rw [hev, hshape]
        simp only [List.append_assoc]
      · rintro ⟨b, hb⟩
        rcases List.mem_append.mp hb with hb | hb
        · exact hnr ⟨b, hb⟩
        · rcases hsuf with rfl | rfl <;> simp at hb
      · intro hlm
        obtain ⟨hok, e, a, d, hmem⟩ := hlt (hl hlm)
        exact ⟨hok, e, a, d, List.mem_append_left _ hmem⟩
  · intro session appId hfound hid hnot
    have hno : ¬ (runningReported (main env fs polls).events
        ∨ launched (main env fs polls).events) := by
      intro h
      obtain ⟨suffix, _, _, hor, _⟩ := key session hfound h
      obtain ⟨appId2, r, ok, tail, hid2, hres, hf1, hf2, hinst, _⟩ :=
        launchSession_shape env fs session hor
      rw [hid] at hid2
      cases hid2
      exact hnot ⟨r, hres, hf1, hf2, hinst⟩
    refine ⟨fun h => hno (Or.inl h), fun h => hno (Or.inr h), ?_⟩
    have hend := launchSession_not_ready env fs session appId hid hnot
    rcases main_events env fs polls with ⟨hnone, _⟩ | ⟨s2, hs2, _, hkeep⟩
    · rw [hnone] at hfound; cases hfound
    · rw [hfound] at hs2
      cases hs2
      rcases hend with ⟨msg, hm⟩ | hp
      · left
        exact ⟨msg, by rw [hkeep (by rw [hm]; simp), hm]⟩
      · right
        rw [hkeep (by rw [hp]; simp), hp]

end Launcher

namespace Launcher

/-! ## Install directory -/

theorem hexDigit_ne_slash (n : Nat) (h : n < 16) : hexDigit n ≠ '/' := by
  interval_cases n <;> decide

theorem hexEncode_no_slash (bs : List Nat) : '/' ∉ hexEncode bs := by
  induction bs with
  | nil => simp [hexEncode]
  | cons b bs ih =>
    intro hm
    simp only [hexEncode, List.mem_cons] at hm
    rcases hm with h | h | h
    · exact hexDigit_ne_slash _ (Nat.mod_lt _ (by decide)) h.symm
    · exact hexDigit_ne_slash _ (Nat.mod_lt _ (by decide)) h.symm
    · exact ih h

theorem UUID_String_no_slash (u : UUID) : '/' ∉ u.String := by
  have h := hexEncode_no_slash
  simp only [UUID.String, List.mem_append, List.mem_cons, not_or]
  refine ⟨⟨⟨⟨h _, ?_, h _⟩, ?_, h _⟩, ?_, h _⟩, ?_, h _⟩ <;> decide

theorem UUID_String_length (u : UUID) : 4 ≤ u.String.length := by
  simp only [UUID.String, List.length_append, List.length_cons]
  omega

theorem plainName_of_long (n : Str) (hlen : 3 ≤ n.length) (hs : '/' ∉ n) : PlainName n := by
  refine ⟨⟨?_, ?_, hs⟩, ?_⟩ <;> (intro h; rw [h] at hlen; simp at hlen)

theorem UUID_String_plain (u : UUID) : PlainName u.String :=
  plainName_of_long _ (by have := UUID_String_length u; omega) (UUID_String_no_slash u)

theorem releaseDirName_plain (r : ReleaseV2) (hver : '/' ∉ r.Version) :
    PlainName (r.Id.String ++ "-".toList ++ r.Version) := by
  apply plainName_of_long
  · have := UUID_String_length r.Id
    simp only [List.length_append]
    omega
  · have := UUID_String_no_slash r.Id
    simp only [List.mem_append, not_or]
    exact ⟨⟨this, by decide⟩, hver⟩

theorem AppDir_plain : PlainName AppDir := by
  simp [PlainName, KeptElem, AppDir]

/-- The join of a clean absolute directory with plain names is the directory followed by
the names (the root itself brings no second separator). -/
theorem Join_clean_absolute (wd : Str) (ns : List Str) (hroot : isRooted wd = true)
    (hclean : Clean wd = wd) (hne : ns ≠ []) (hn : ∀ n ∈ ns, PlainName n) :
    Join (wd :: ns) = (if wd = ['/'] then [] else wd) ++ '/' :: joinSlash ns := by
  have hwd : wd ≠ [] := by
    intro h; rw [h] at hroot; simp [isRooted] at hroot
  obtain ⟨n0, ns', rfl⟩ := List.exists_cons_of_ne_nil hne
  have hj : Join (wd :: n0 :: ns') = Clean (wd ++ '/' :: joinSlash (n0 :: ns')) := by
    simp [Join, hwd, joinSlash]
  have hr : wd = renderPath true (cleanStack wd) := by
    have : Clean wd = renderPath (isRooted wd) (cleanStack wd) := by
      unfold Clean; rw [if_neg hwd]
    rw [hroot] at this
    rw [← this, hclean]
  rw [hj, Clean_append_plain wd _ hwd hne hn, hroot]
  by_cases hs : cleanStack wd = []
  · have hw : wd = ['/'] := by rw [hr, hs]; rfl
    rw [hs, if_pos hw]
    simp [renderPath]
  · have hw : wd ≠ ['/'] := by
      intro h
      apply hs
      rw [h]
      decide
    rw [renderPath_push true _ _ hne hs, ← hr, if_neg hw]

theorem Join_relative_plain (n0 : Str) (ns : List Str) (h0 : PlainName n0)
    (hn : ∀ n ∈ ns, PlainName n) : Join (n0 :: ns) = joinSlash (n0 :: ns) := by
  have hall : ∀ n ∈ n0 :: ns, PlainName n := by
    intro n hm
    rcases List.mem_cons.mp hm with rfl | hm
    · exact h0
    · exact hn n hm
  have hnosep : ∀ e ∈ n0 :: ns, '/' ∉ e := fun e he => (hall e he).1.2.2
  have hhead := joinSlash_head n0 ns h0.1.1 h0.1.2.2
  have : Join (n0 :: ns) = Clean (joinSlash (n0 :: ns)) := by
    simp [Join, h0.1.1]
  rw [this]
  unfold Clean cleanStack
  rw [if_neg hhead.1, hhead.2, splitOnChar_joinSlash _ (by simp) hnosep,
    foldl_cleanStep_plain false _ hall]
  simp [renderPath]

end Launcher

namespace Launcher

/-! ## Parsed version strings hold no separator -/

theorem isDigit_ne_slash (c : Char) (h : isDigit c = true) : c ≠ '/' := by
  intro hc; rw [hc] at h; revert h; decide

theorem isIdentChar_ne_slash (c : Char) (h : isIdentChar c = true) : c ≠ '/' := by
  intro hc; rw [hc] at h; revert h; decide

theorem span_digits_split (s : Str) :
    s = (s.span isDigit).1 ++ (s.span isDigit).2 ∧ '/' ∉ (s.span isDigit).1 := by
  rw [List.span_eq_take_drop]
  refine ⟨(List.takeWhile_append_dropWhile _ _).symm, ?_⟩
  intro hm
  exact isDigit_ne_slash _ (List.mem_takeWhile_imp hm) rfl

theorem optNumber_split (s : Str) :
    ∃ c, s = c ++ (optNumber s).2 ∧ '/' ∉ c := by
  unfold optNumber
  split
  · rename_i rest
    obtain ⟨h1, h2⟩ := span_digits_split rest
    split
    · exact ⟨[], rfl, by simp⟩
    · rename_i ds rest' hne heq
      rw [heq] at h1 h2
      refine ⟨'.' :: ds, by simp only [List.cons_append]; rw [← h1], ?_⟩
      intro hm
      rcases List.mem_cons.mp hm with h | h
      · exact absurd h (by decide)
      · exact h2 h
  · exact ⟨[], rfl, by simp⟩

theorem identTail_split (n : Nat) :
    ∀ s : Str, s.length ≤ n → s = (identTail s).1 ++ (identTail s).2 ∧ '/' ∉ (identTail s).1 := by
  induction n with
  | zero =>
    intro s hs
    have : s = [] := List.length_eq_zero.mp (Nat.le_zero.mp hs)
    subst this
    simp [identTail]
  | succ n ih =>
    intro s hs
    match s, hs with
    | [], _ => simp [identTail]
    | [c], _ =>
      by_cases hc : isIdentChar c = true
      · simp only [identTail, hc, if_true]
        exact ⟨rfl, by simpa using (isIdentChar_ne_slash c hc).symm⟩
      · simp [identTail, hc]
    | c :: d :: ds, hs =>
      by_cases hc : isIdentChar c = true
      · obtain ⟨h1, h2⟩ := ih (d :: ds) (by simp only [List.length_cons] at hs ⊢; omega)
        simp only [identTail, hc, if_true]
        refine ⟨by simp only [List.cons_append]; rw [← h1], ?_⟩
        intro hm
        rcases List.mem_cons.mp hm with h | h
        · exact isIdentChar_ne_slash c hc h.symm
        · exact h2 h
      · by_cases hd : (c == '.' && isIdentChar d) = true
        · obtain ⟨h1, h2⟩ := ih ds (by simp only [List.length_cons] at hs ⊢; omega)
          simp only [identTail, hc, hd, if_true, Bool.false_eq_true, if_false]
          have hcd : c = '.' ∧ isIdentChar d = true := by simpa using hd
          refine ⟨by simp only [List.cons_append]; rw [← h1], ?_⟩
          intro hm
          rcases List.mem_cons.mp hm with h | h
          · rw [hcd.1] at h; exact absurd h (by decide)
          · rcases List.mem_cons.mp h with h | h
            · exact isIdentChar_ne_slash d hcd.2 h.symm
            · exact h2 h
        · simp [identTail, hc, hd]

theorem optTagged_split (tag : Char) (htag : tag ≠ '/') (s : Str) :
    ∃ c, s = c ++ (optTagged tag s).2 ∧ '/' ∉ c := by
  match s with
  | [] => exact ⟨[], rfl, by simp⟩
  | [c] => exact ⟨[], rfl, by simp⟩
  | c :: d :: ds =>
    by_cases h : (c == tag && isIdentChar d) = true
    · obtain ⟨h1, h2⟩ := identTail_split ds.length ds (Nat.le_refl _)
      have hcd : c = tag ∧ isIdentChar d = true := by simpa using h
      simp only [optTagged, h, if_true]
      refine ⟨c :: d :: (identTail ds).1, by simp only [List.cons_append]; rw [← h1], ?_⟩
      intro hm
      rcases List.mem_cons.mp hm with h | h
      · rw [hcd.1] at h; exact htag h.symm
      · rcases List.mem_cons.mp h with h | h
        · exact isIdentChar_ne_slash d hcd.2 h.symm
        · exact h2 h
    · exact ⟨[], by simp [optTagged, h], by simp⟩

theorem stripV_split (v : Str) : ∃ c, v = c ++ stripV v ∧ '/' ∉ c := by
  unfold stripV
  split
  · exact ⟨['v'], rfl, by decide⟩
  · exact ⟨[], rfl, by simp⟩

/-- A version string that `NewVersion` accepts holds no path separator. -/
theorem NewVersion_no_slash (v : Str) (ver : Version) (h : NewVersion v = some ver) :
    '/' ∉ v := by
  obtain ⟨c0, e0, n0⟩ := stripV_split v
  obtain ⟨e1, n1⟩ := span_digits_split (stripV v)
  obtain ⟨c2, e2, n2⟩ := optNumber_split ((stripV v).span isDigit).2
  obtain ⟨c3, e3, n3⟩ := optNumber_split (optNumber ((stripV v).span isDigit).2).2
  obtain ⟨c5, e5, n5⟩ := optTagged_split '-' (by decide)
    (optNumber (optNumber ((stripV v).span isDigit).2).2).2
  obtain ⟨c8, e8, n8⟩ := optTagged_split '+' (by decide)
    (optTagged '-' (optNumber (optNumber ((stripV v).span isDigit).2).2).2).2
  have hend : (optTagged '+'
      (optTagged '-' (optNumber (optNumber ((stripV v).span isDigit).2).2).2).2).2 = [] := by
    unfold NewVersion at h
    split at h
    · cases h
    · rename_i m1 r1 hne heq
      simp only [heq]
      by_contra hcon
      simp only [ne_eq, hcon, not_false_eq_true, if_true] at h
      cases h
  rw [hend, List.append_nil] at e8
  rw [e0, e1, e2, e3, e5, e8]
  simp only [List.mem_append, not_or]
  exact ⟨n0, n1, n2, n3, n5, n8⟩

end Launcher

namespace Launcher

/-- C8: for a clean absolute working directory and a version string without separator, the
install directory is `<wd>/apps/<appId>/<releaseId>-<version>`; both install functions
compute it, it depends on the release only through its id and version string, and the
directory `runApp` searches is `apps/<appId>/<releaseId>-<version>`, which seen from the
working directory is the install directory. -/
theorem install_directory_path (wd : Str) (appId : UUID) (release : ReleaseV2)
    (hroot : isRooted wd = true) (hclean : Clean wd = wd) (hver : '/' ∉ release.Version) :
    installAppReleaseArchive_appInstallationPath wd appId release
        = (if wd = ['/'] then [] else wd) ++ "/apps/".toList ++ appId.String
            ++ "/".toList ++ release.Id.String ++ "-".toList ++ release.Version
      ∧ installAppRelease_appInstallationPath wd appId release
          = installAppReleaseArchive_appInstallationPath wd appId release
      ∧ (∀ other : ReleaseV2, other.Id = release.Id → other.Version = release.Version →
          installAppReleaseArchive_appInstallationPath wd appId other
              = installAppReleaseArchive_appInstallationPath wd appId release
            ∧ installAppRelease_appInstallationPath wd appId other
              = installAppRelease_appInstallationPath wd appId release)
      ∧ runApp_searchRoot appId release
          = "apps/".toList ++ appId.String ++ "/".toList ++ release.Id.String ++ "-".toList
              ++ release.Version
      ∧ resolve wd (runApp_searchRoot appId release)
          = installAppReleaseArchive_appInstallationPath wd appId release := by
  have hname := releaseDirName_plain release hver
  have hid := UUID_String_plain appId
  have hall : ∀ n ∈ [AppDir, appId.String, release.Id.String ++ "-".toList ++ release.Version],
      PlainName n := by
    intro n hm
    simp only [List.mem_cons, List.mem_singleton, List.not_mem_nil, or_false] at hm
    rcases hm with rfl | rfl | rfl
    · exact AppDir_plain
    · exact hid
    · exact hname
  have hpath := Join_clean_absolute wd _ hroot hclean (by simp) hall
  have hrel := Join_relative_plain AppDir
    [appId.String, release.Id.String ++ "-".toList ++ release.Version] AppDir_plain
    (fun n hm => hall n (List.mem_cons_of_mem _ hm))
  have hwd : wd ≠ [] := by
    intro h; rw [h] at hroot; simp [isRooted] at hroot
  refine ⟨?_, rfl, ?_, ?_, ?_⟩
  · unfold installAppReleaseArchive_appInstallationPath
    rw [hpath]
    simp [joinSlash, AppDir]
  · intro other h1 h2
    unfold installAppReleaseArchive_appInstallationPath installAppRelease_appInstallationPath
    rw [h1, h2]
    exact ⟨rfl, rfl⟩
  · unfold runApp_searchRoot
    rw [hrel]
    simp [joinSlash, AppDir]
  · have hnr : isRooted (runApp_searchRoot appId release) = false := by
      unfold runApp_searchRoot
      rw [hrel]
      rfl
    unfold resolve
    rw [hnr]
    simp only [Bool.false_eq_true, if_false]
    unfold runApp_searchRoot installAppReleaseArchive_appInstallationPath
    rw [hrel]
    simp [Join, hwd, joinSlash]

theorem install_directory_path_witness :
    isRooted "/srv/launcher".toList = true
      ∧ Clean "/srv/launcher".toList = "/srv/launcher".toList
      ∧ '/' ∉ (releaseOf 1 "1.2.3").Version
      ∧ installAppReleaseArchive_appInstallationPath "/srv/launcher".toList (uuidOfByte 10)
            (releaseOf 1 "1.2.3")
          = (if "/srv/launcher".toList = ['/'] then [] else "/srv/launcher".toList)
              ++ "/apps/".toList ++ (uuidOfByte 10).String ++ "/".toList
              ++ (releaseOf 1 "1.2.3").Id.String ++ "-".toList ++ (releaseOf 1 "1.2.3").Version
      ∧ installAppRelease_appInstallationPath "/srv/launcher".toList (uuidOfByte 10)
            (releaseOf 1 "1.2.3")
          = installAppReleaseArchive_appInstallationPath "/srv/launcher".toList (uuidOfByte 10)
              (releaseOf 1 "1.2.3")
      ∧ (∀ other : ReleaseV2, other.Id = (releaseOf 1 "1.2.3").Id →
          other.Version = (releaseOf 1 "1.2.3").Version →
          installAppReleaseArchive_appInstallationPath "/srv/launcher".toList (uuidOfByte 10)
                other
              = installAppReleaseArchive_appInstallationPath "/srv/launcher".toList
                  (uuidOfByte 10) (releaseOf 1 "1.2.3")
            ∧ installAppRelease_appInstallationPath "/srv/launcher".toList (uuidOfByte 10) other
              = installAppRelease_appInstallationPath "/srv/launcher".toList (uuidOfByte 10)
                  (releaseOf 1 "1.2.3"))
      ∧ runApp_searchRoot (uuidOfByte 10) (releaseOf 1 "1.2.3")
          = "apps/".toList ++ (uuidOfByte 10).String ++ "/".toList
              ++ (releaseOf 1 "1.2.3").Id.String ++ "-".toList ++ (releaseOf 1 "1.2.3").Version
      ∧ resolve "/srv/launcher".toList (runApp_searchRoot (uuidOfByte 10) (releaseOf 1 "1.2.3"))
          = installAppReleaseArchive_appInstallationPath "/srv/launcher".toList (uuidOfByte 10)
              (releaseOf 1 "1.2.3") :=
  ⟨by decide, by decide, by decide,
    install_directory_path "/srv/launcher".toList (uuidOfByte 10) (releaseOf 1 "1.2.3")
      (by decide) (by decide) (by decide)⟩

end Launcher

namespace Launcher

theorem main_running_only_after_install_witness :
    (awaitSession [.failed, .session (some scenarioSession)] startEvents).2
        = some scenarioSession
      ∧ scenarioSession.AppId = some (uuidOfByte 10)
      ∧ ¬ readyToRun scenarioEnv scenarioFS (uuidOfByte 10)
      ∧ (main scenarioEnv scenarioFS [.failed, .session (some scenarioSession)]).ending
          = .fatal "failed to download the archive"
      ∧ (¬ runningReported
            (main scenarioEnv scenarioFS [.failed, .session (some scenarioSession)]).events
          ∧ ¬ launched
            (main scenarioEnv scenarioFS [.failed, .session (some scenarioSession)]).events
          ∧ ((∃ msg, (main scenarioEnv scenarioFS
                [.failed, .session (some scenarioSession)]).ending = .fatal msg)
              ∨ (main scenarioEnv scenarioFS
                [.failed, .session (some scenarioSession)]).ending = .panicked)) :=
  have hnot : ¬ readyToRun scenarioEnv scenarioFS (uuidOfByte 10) := by
    rintro ⟨r, hres, _, _, hinst⟩
    have h : (GetLatestReleaseV2 scenarioEnv.sem scenarioEnv.api2Root scenarioEnv.platform
        scenarioEnv.net (uuidOfByte 10)).result = .ok scenarioRelease := by decide
    rw [h] at hres
    cases hres
    revert hinst
    decide
  ⟨by decide, rfl, hnot, by decide,
    (main_running_only_after_install scenarioEnv scenarioFS
      [.failed, .session (some scenarioSession)]).2 scenarioSession (uuidOfByte 10)
      (by decide) rfl hnot⟩

end Launcher

namespace Launcher

/-! ## Binary suffix -/

theorem toLower_toUpper (c : Char) : c.toUpper.toLower = c.toLower := by
  by_cases h : 97 ≤ c.toNat ∧ c.toNat ≤ 122
  · have hc : c = Char.ofNat c.toNat := (Char.ofNat_toNat c).symm
    generalize c.toNat = n at h hc
    subst hc
    obtain ⟨h1, h2⟩ := h
    interval_cases n <;> decide
  · have : c.toUpper = c := by
      simp only [Char.toUpper]
      rw [if_neg]
      simpa using h
    rw [this]

theorem toUpper_ascii (c : Char) (h : c.toUpper ≠ c) :
    c.toNat < 128 ∧ c.toUpper.toNat < 128 := by
  by_cases h1 : 97 ≤ c.toNat ∧ c.toNat ≤ 122
  · have hc : c = Char.ofNat c.toNat := (Char.ofNat_toNat c).symm
    generalize c.toNat = n at h1 hc
    subst hc
    obtain ⟨h2, h3⟩ := h1
    interval_cases n <;> decide
  · exfalso
    apply h
    simp only [Char.toUpper]
    rw [if_neg]
    simpa using h1

/-- A table that lowers the ASCII letters as `Char.toLower` does undoes the ASCII upper
case. -/
theorem lower_toUpper (lower : Char → Char)
    (hascii : ∀ c : Char, c.toNat < 128 → lower c = c.toLower) (c : Char) :
    lower c.toUpper = lower c := by
  by_cases h : c.toUpper = c
  · rw [h]
  · obtain ⟨h1, h2⟩ := toUpper_ascii c h
    rw [hascii _ h1, hascii _ h2, toLower_toUpper]

theorem ToLower_map_toUpper (lower : Char → Char)
    (hascii : ∀ c : Char, c.toNat < 128 → lower c = c.toLower) (s : Str) :
    ToLower lower (s.map Char.toUpper) = ToLower lower s := by
  simp [ToLower, List.map_map, Function.comp, lower_toUpper lower hascii]

theorem lowerSample_ascii (c : Char) (h : c.toNat < 128) : lowerSample c = c.toLower := by
  simp only [lowerSample]
  rw [if_neg]
  intro hc
  subst hc
  revert h
  decide

/-- C20: `getBinarySuffix` reads the environment name through `strings.ToLower` only, so
names with the same lower-case form give the same suffix, and a name gives the suffix of its
ASCII upper case. A name whose lower-case form is `debug` gives `DebugGame`, `dev` or
`development` the empty suffix, `test` gives `Test`, `prod`, `production` or `shipping` give
`Shipping`, and every name with another lower-case form gives the empty (development) suffix;
on Windows the result is the other result followed by `.exe`. The table `lower` is any table
that lowers the ASCII letters as `unicode.ToLower` does. -/
theorem getBinarySuffix_table (lower : Char → Char) (windows : Bool) (env : Str)
    (hascii : ∀ c : Char, c.toNat < 128 → lower c = c.toLower) :
    (ToLower lower env = "debug".toList →
        getBinarySuffix lower false env = "DebugGame".toList)
      ∧ (ToLower lower env = "dev".toList ∨ ToLower lower env = "development".toList →
          getBinarySuffix lower false env = [])
      ∧ (ToLower lower env = "test".toList → getBinarySuffix lower false env = "Test".toList)
      ∧ (ToLower lower env = "prod".toList ∨ ToLower lower env = "production".toList
            ∨ ToLower lower env = "shipping".toList →
          getBinarySuffix lower false env = "Shipping".toList)
      ∧ (ToLower lower env ∉ ["debug".toList, "dev".toList, "development".toList,
            "test".toList, "prod".toList, "production".toList, "shipping".toList] →
          getBinarySuffix lower false env = [])
      ∧ getBinarySuffix lower true env = getBinarySuffix lower false env ++ ".exe".toList
      ∧ (∀ other, ToLower lower other = ToLower lower env →
          getBinarySuffix lower windows other = getBinarySuffix lower windows env)
      ∧ getBinarySuffix lower windows (env.map Char.toUpper)
          = getBinarySuffix lower windows env
      ∧ (∀ name ∈ ["debug".toList, "dev".toList, "development".toList, "test".toList,
            "prod".toList, "production".toList, "shipping".toList],
          ToLower lower name = name ∧ ToLower lower (name.map Char.toUpper) = name) := by
  have hsame : ∀ a b : Str, ToLower lower a = ToLower lower b →
      getBinarySuffix lower windows a = getBinarySuffix lower windows b := by
    intro a b h
    simp only [getBinarySuffix, h]
  have hname : ∀ name : Str, (∀ c ∈ name, c.toNat < 128 ∧ c.toLower = c) →
      ToLower lower name = name := by
    intro name hn
    simp only [ToLower]
    conv_rhs => rw [← List.map_id name]
    apply List.map_congr_left
    intro c hc
    rw [hascii c (hn c hc).1, (hn c hc).2, id]
  refine ⟨?_, ?_, ?_, ?_, ?_, ?_, fun other h => hsame other env h,
    hsame _ _ (ToLower_map_toUpper lower hascii env), ?_⟩
  · intro h
    simp only [getBinarySuffix, h]
    decide
  · rintro (h | h) <;> (simp only [getBinarySuffix, h]; decide)
  · intro h
    simp only [getBinarySuffix, h]
    decide
  · rintro (h | h | h) <;> (simp only [getBinarySuffix, h]; decide)
  · intro h
    simp only [List.mem_cons, List.mem_singleton, List.not_mem_nil, not_or, or_false] at h
    obtain ⟨h1, h2, h3, h4, h5, h6, h7⟩ := h
    simp only [getBinarySuffix, h1, h2, h3, h4, h5, h6, h7, Bool.false_eq_true, if_false,
      or_self]
  · simp only [getBinarySuffix, Bool.false_eq_true, if_false, if_true]
    split_ifs <;> rfl
  · intro name hmem
    have hn : ∀ c ∈ name, c.toNat < 128 ∧ c.toLower = c := by
      simp only [List.mem_cons, List.mem_singleton, List.not_mem_nil, or_false] at hmem
      rcases hmem with h | h | h | h | h | h | h <;> (subst h; decide)
    exact ⟨hname name hn, (ToLower_map_toUpper lower hascii name).trans (hname name hn)⟩

/-- Witness for `getBinarySuffix_table`: with a table that sends U+0130 to `i` as
`unicode.ToLower` does, the name `SH(U+0130)PP(U+0130)NG` has the lower-case form `shipping`
and gives `Shipping`, the name `TeSt` gives `Test`, and the name `staging` gives the empty
suffix. -/
theorem getBinarySuffix_table_witness :
    (∀ c : Char, c.toNat < 128 → lowerSample c = c.toLower)
      ∧ getBinarySuffix lowerSample false dottedShipping = "Shipping".toList
      ∧ getBinarySuffix lowerSample true dottedShipping = "Shipping.exe".toList
      ∧ getBinarySuffix lowerSample false "TeSt".toList = "Test".toList
      ∧ getBinarySuffix lowerSample false "staging".toList = [] :=
  ⟨lowerSample_ascii,
    (getBinarySuffix_table lowerSample false dottedShipping lowerSample_ascii).2.2.2.1
      (Or.inr (Or.inr (by decide))),
    by decide,
    (getBinarySuffix_table lowerSample false "TeSt".toList lowerSample_ascii).2.2.1
      (by decide),
    (getBinarySuffix_table lowerSample false "staging".toList lowerSample_ascii).2.2.2.2.1
      (by decide)⟩

end Launcher

namespace Launcher

/-! ## Progress tracker -/

theorem writeChunks_state (chunks : List (List Nat)) :
    ∀ c : DownloadProgressTracker,
      (writeChunks c chunks).1
        = { c with Current := chunks.foldl (fun cur p => (cur + p.length) % 2 ^ 64) c.Current } := by
  induction chunks with
  | nil => intro c; rfl
  | cons p rest ih =>
    intro c
    simp only [writeChunks, List.foldl_cons]
    rw [ih]
    rfl

theorem foldl_current (chunks : List (List Nat)) :
    ∀ cur : Nat, chunks.foldl (fun cur p => (cur + p.length) % 2 ^ 64) (cur % 2 ^ 64)
      = (cur + chunks.flatten.length) % 2 ^ 64 := by
  induction chunks with
  | nil => intro cur; simp
  | cons p rest ih =>
    intro cur
    simp only [List.foldl_cons, List.flatten_cons, List.length_append]
    rw [ih]
    omega

theorem writeChunks_calls (chunks : List (List Nat)) :
    ∀ (c : DownloadProgressTracker) (written : Nat), c.hasProgress = true →
      c.Current = written % 2 ^ 64 →
      (writeChunks c chunks).2
        = (List.range chunks.length).map
            (fun k => ((written + (chunks.take (k + 1)).flatten.length) % 2 ^ 64, c.Total)) := by
  induction chunks with
  | nil => intro c written _ _; rfl
  | cons p rest ih =>
    intro c written hp hc
    have hcur : (c.Write p).tracker.Current = (written + p.length) % 2 ^ 64 := by
      simp only [DownloadProgressTracker.Write, hc]
      omega
    have := ih (c.Write p).tracker (written + p.length) hp hcur
    simp only [writeChunks, this, List.length_cons, List.range_succ_eq_map, List.map_cons,
      List.map_map]
    simp only [DownloadProgressTracker.Write, hp, if_true, hc, List.singleton_append,
      List.take_succ_cons, List.take_zero, List.flatten_cons, List.flatten_nil,
      List.append_nil, List.length_append, List.cons.injEq, Prod.mk.injEq, and_true]
    refine ⟨by omega, ?_⟩
    apply List.map_congr_left
    intro k _
    simp only [Function.comp, Prod.mk.injEq, and_true, Nat.succ_eq_add_one]
    omega

theorem writeTwo_first (ws : List (Bool × List Nat)) :
    ∀ a b : DownloadProgressTracker,
      (writeTwo a b ws).1 = writeChunks a ((ws.filter (fun w => w.1)).map (fun w => w.2))
        ∧ (writeTwo a b ws).2
            = writeChunks b ((ws.filter (fun w => !w.1)).map (fun w => w.2)) := by
  induction ws with
  | nil => intro a b; exact ⟨rfl, rfl⟩
  | cons w rest ih =>
    intro a b
    obtain ⟨t, p⟩ := w
    cases t with
    | true =>
      obtain ⟨h1, h2⟩ := ih (a.Write p).tracker b
      simp [writeTwo, writeChunks, h1, h2]
    | false =>
      obtain ⟨h1, h2⟩ := ih a (b.Write p).tracker
      simp [writeTwo, writeChunks, h1, h2]

/-- C15: a new tracker starts at zero; every `Write` returns the length of its chunk, keeps
`Total` and (the callback being set) calls the callback once, with the new `Current` and
`Total`; after any sequence of chunks the callback has been called once per chunk with the
number of bytes written so far modulo `2^64`; and writes to another tracker, however they
are interleaved, change nothing of this. -/
theorem tracker_counts_bytes (total : Nat) (chunks : List (List Nat)) :
    (NewDownloadProgressTracker total).Current = 0
      ∧ (NewDownloadProgressTracker total).Total = total
      ∧ (∀ (c : DownloadProgressTracker) (p : List Nat),
          (c.Write p).n = p.length
            ∧ (c.Write p).tracker.Total = c.Total
            ∧ (c.Write p).tracker.Current = (c.Current + p.length) % 2 ^ 64
            ∧ (c.hasProgress = true →
                (c.Write p).calls = [((c.Write p).tracker.Current, c.Total)]))
      ∧ (writeChunks (NewDownloadProgressTracker total) chunks).2
          = (List.range chunks.length).map
              (fun k => ((chunks.take (k + 1)).flatten.length % 2 ^ 64, total))
      ∧ (writeChunks (NewDownloadProgressTracker total) chunks).1
          = { Current := chunks.flatten.length % 2 ^ 64, Total := total, hasProgress := true }
      ∧ (∀ (other : DownloadProgressTracker) (ws : List (Bool × List Nat)),
          (ws.filter (fun w => w.1)).map (fun w => w.2) = chunks →
          (writeTwo (NewDownloadProgressTracker total) other ws).1
              = writeChunks (NewDownloadProgressTracker total) chunks
            ∧ (writeTwo (NewDownloadProgressTracker total) other ws).2
              = writeChunks other ((ws.filter (fun w => !w.1)).map (fun w => w.2))) := by
  refine ⟨rfl, rfl, ?_, ?_, ?_, ?_⟩
  · intro c p
    refine ⟨rfl, rfl, rfl, fun h => ?_⟩
    simp [DownloadProgressTracker.Write, h]
  · have := writeChunks_calls chunks (NewDownloadProgressTracker total) 0 rfl rfl
    simpa [NewDownloadProgressTracker] using this
  · rw [writeChunks_state]
    have := foldl_current chunks 0
    simp only [Nat.zero_mod, Nat.zero_add] at this
    simp only [NewDownloadProgressTracker, this]
  · intro other ws h
    have := writeTwo_first ws (NewDownloadProgressTracker total) other
    rw [h] at this
    exact this

end Launcher

namespace Launcher

/-! ## Multi-file installation -/

/-- C11: for the application `...0a` and the release 1.2.3 with two files of type `release`,
both with an original path and both served with status 200, `installAppRelease` sends both
downloads to the one path `tempDownloadPath`, both moves fail for want of a source, neither
file is at its place in the install directory, the version file is not written, the
temporary path stays (holding the second file) and the call returns an error. When the
install directory exists beforehand the call returns no error, but the two files are still
not at their places. -/
theorem installAppRelease_two_files_not_installed :
    twoFileInstall.result = .err "failed to write version"
      ∧ downloadAttempts twoFileInstall.log
          = [(installAppRelease_tempDownloadPath sampleWd (uuidOfByte 10) twoFileRelease,
                "https://cdn/app".toList),
             (installAppRelease_tempDownloadPath sampleWd (uuidOfByte 10) twoFileRelease,
                "https://cdn/pak".toList)]
      ∧ (∀ e ∈ twoFileInstall.log, ∀ a b, e ≠ InstallEvent.move a b true)
      ∧ twoFileInstall.fs.lookup
          (Join [installAppRelease_appInstallationPath sampleWd (uuidOfByte 10) twoFileRelease,
            "bin/app".toList]) = none
      ∧ twoFileInstall.fs.lookup
          (Join [installAppRelease_appInstallationPath sampleWd (uuidOfByte 10) twoFileRelease,
            "data/pak".toList]) = none
      ∧ twoFileInstall.fs.lookup
          (versionFile
            (installAppRelease_appInstallationPath sampleWd (uuidOfByte 10) twoFileRelease))
          = none
      ∧ twoFileInstall.fs.lookup
          (installAppRelease_tempDownloadPath sampleWd (uuidOfByte 10) twoFileRelease)
          = some (.file [5, 6])
      ∧ twoFileInstallPrepared.result = .ok ()
      ∧ twoFileInstallPrepared.fs.lookup
          (Join [installAppRelease_appInstallationPath sampleWd (uuidOfByte 10) twoFileRelease,
            "bin/app".toList]) = none
      ∧ twoFileInstallPrepared.fs.lookup
          (Join [installAppRelease_appInstallationPath sampleWd (uuidOfByte 10) twoFileRelease,
            "data/pak".toList]) = none := by
  refine ⟨by decide, by decide, ?_, by decide, by decide, by decide, by decide, by decide,
    by decide, by decide⟩
  have hlog : ∀ e ∈ twoFileInstall.log,
      (match e with
        | .move _ _ true => false
        | _ => true) = true := by decide
  intro e he a b hab
  have := hlog e he
  rw [hab] at this
  cases this

end Launcher

namespace Launcher

/-- C14: for one file served in two chunks of two bytes the callback reports 2 and then 4,
and `totalProgress` ends at 6 although four bytes were written; for the two files of the
sample release (chunks of 2 and 2 bytes, then one chunk of 2 bytes) it ends at 8 although
six bytes were written. -/
theorem installAppRelease_progress_overcounts :
    oneFileInstall.totalProgress = 6
      ∧ bodyLength (twoFileHttp "https://cdn/app".toList) = 4
      ∧ oneFileInstall.fs.lookup
          (installAppRelease_tempDownloadPath sampleWd (uuidOfByte 10) oneFileRelease)
          = some (.file [1, 2, 3, 4])
      ∧ twoFileInstall.totalProgress = 8
      ∧ bodyLength (twoFileHttp "https://cdn/app".toList)
          + bodyLength (twoFileHttp "https://cdn/pak".toList) = 6 := by
  decide

theorem downloadAttempts_append (a b : List InstallEvent) :
    downloadAttempts (a ++ b) = downloadAttempts a ++ downloadAttempts b := by
  induction a with
  | nil => rfl
  | cons e rest ih => cases e <;> simp [downloadAttempts, ih]

theorem moveAttempts_append (a b : List InstallEvent) :
    moveAttempts (a ++ b) = moveAttempts a ++ moveAttempts b := by
  induction a with
  | nil => rfl
  | cons e rest ih => cases e <;> simp [moveAttempts, ih]

theorem downloadAll_cons (http : Str → HttpAnswer) (temp : Str) (total : Nat) (f : File)
    (rest : List File) (st : DownloadLoop) :
    ∃ st1 ok, downloadAll http temp total (f :: rest) st = downloadAll http temp total rest st1
      ∧ st1.log = st.log ++ [.download temp f.Url ok] :=
  ⟨_, _, rfl, rfl⟩

theorem downloadAll_attempts (http : Str → HttpAnswer) (temp : Str) (total : Nat)
    (files : List File) :
    ∀ st : DownloadLoop,
      downloadAttempts (downloadAll http temp total files st).log
          = downloadAttempts st.log ++ files.map (fun f => (temp, f.Url))
        ∧ moveAttempts (downloadAll http temp total files st).log = moveAttempts st.log := by
  induction files with
  | nil => intro st; simp [downloadAll]
  | cons f rest ih =>
    intro st
    obtain ⟨st1, ok, hstep, hlog⟩ := downloadAll_cons http temp total f rest st
    obtain ⟨h1, h2⟩ := ih st1
    rw [hstep, h1, h2, hlog]
    simp [downloadAttempts_append, moveAttempts_append, downloadAttempts, moveAttempts]

theorem moveAll_attempts (temp inst : Str) (files : List File) :
    ∀ st : FS × List InstallEvent,
      moveAttempts (moveAll temp inst files st).2
          = moveAttempts st.2
            ++ (files.filterMap (fun f => f.OriginalPath)).map
                (fun op => (Join [temp, op], Join [inst, op]))
        ∧ downloadAttempts (moveAll temp inst files st).2 = downloadAttempts st.2 := by
  induction files with
  | nil => intro st; simp [moveAll]
  | cons f rest ih =>
    intro st
    cases hop : f.OriginalPath with
    | none =>
      simp only [moveAll, hop, List.filterMap_cons]
      exact ih st
    | some op =>
      simp only [moveAll, hop, List.filterMap_cons]
      cases st.1.rename (Join [temp, op]) (Join [inst, op]) with
      | none =>
        obtain ⟨h1, h2⟩ := ih (st.1, st.2 ++ [.move (Join [temp, op]) (Join [inst, op]) false])
        simp only [h1, h2]
        simp [downloadAttempts_append, moveAttempts_append, downloadAttempts, moveAttempts]
      | some fs1 =>
        obtain ⟨h1, h2⟩ := ih (fs1, st.2 ++ [.move (Join [temp, op]) (Join [inst, op]) true])
        simp only [h1, h2]
        simp [downloadAttempts_append, moveAttempts_append, downloadAttempts, moveAttempts]

theorem collectReleaseFiles_deref (suffix : List File) :
    ∀ pre : List File,
      (collectReleaseFiles suffix pre.length).filterMap
          (derefLoopVar .perIteration (pre ++ suffix))
        = suffix.filter (fun f => f.FileType = "release".toList) := by
  induction suffix with
  | nil => intro pre; rfl
  | cons f rest ih =>
    intro pre
    have hstep := ih (pre ++ [f])
    simp only [List.length_append, List.length_singleton, List.append_assoc,
      List.singleton_append] at hstep
    have hget : derefLoopVar .perIteration (pre ++ f :: rest) pre.length = some f := by
      show (pre ++ f :: rest)[pre.length]? = some f
      rw [List.getElem?_append_right (Nat.le_refl _)]
      simp
    by_cases ht : f.FileType = "release".toList
    · simp only [collectReleaseFiles, ht, if_true, List.filterMap_cons, hget, hstep,
        List.filter_cons, decide_True]
    · simp only [collectReleaseFiles, ht, if_false, hstep, List.filter_cons, decide_False]
      simp

/-- With per-iteration loop variables the slice `files` holds the files of type `release`,
in the order of the release. -/
theorem releaseFiles_perIteration (entities : List File) :
    releaseFiles .perIteration entities
      = entities.filter (fun f => f.FileType = "release".toList) := by
  have := collectReleaseFiles_deref entities []
  simpa [releaseFiles] using this

end Launcher

namespace Launcher

end Launcher

namespace Launcher

/-! ## Archive installation and the temporary download path -/

theorem FS.lookup_removeAll_same (fs : FS) (p : Str) : (fs.removeAll p).lookup p = none := by
  have h : List.find? (fun e => decide (e.1 = p))
      (fs.nodes.filter (fun e => e.1 ≠ p && !below p e.1)) = none := by
    rw [List.find?_eq_none]
    intro x hx
    simp only [List.mem_filter, Bool.and_eq_true, decide_eq_true_eq] at hx
    simpa using hx.2.1
  simp only [FS.removeAll, FS.lookup, h]

end Launcher

namespace Launcher

/-! ## The health-check handler -/

theorem foldl_digits_ge (ds : Str) (n : Nat) :
    n ≤ ds.foldl (fun acc c => 10 * acc + (c.toNat - 48)) n := by
  induction ds generalizing n with
  | nil => exact Nat.le_refl _
  | cons c rest ih =>
    simp only [List.foldl_cons]
    exact Nat.le_trans (by omega) (ih _)

theorem parseUintLoop_digits (ds : Str) (n : Nat) (hd : ∀ c ∈ ds, isDigit c = true)
    (hv : ds.foldl (fun acc c => 10 * acc + (c.toNat - 48)) n < 2 ^ 64) :
    parseUintLoop ds n = (ds.foldl (fun acc c => 10 * acc + (c.toNat - 48)) n, none) := by
  induction ds generalizing n with
  | nil => rfl
  | cons c rest ih =>
    have hc : isDigit c = true := hd c (List.mem_cons_self _ _)
    simp only [List.foldl_cons] at hv ⊢
    have hge := foldl_digits_ge rest (10 * n + (c.toNat - 48))
    have h1 : ¬ n ≥ (2 ^ 64 - 1) / 10 + 1 := by
      have : (2 : Nat) ^ 64 = 18446744073709551616 := by norm_num
      omega
    have h2 : ¬ n * 10 + (c.toNat - 48) > 2 ^ 64 - 1 := by
      have : (2 : Nat) ^ 64 = 18446744073709551616 := by norm_num
      omega
    have h3 : n * 10 + (c.toNat - 48) = 10 * n + (c.toNat - 48) := by omega
    simp only [parseUintLoop, hc, Bool.true_eq_false, if_false, h1, h2]
    rw [h3]
    exact ih _ (fun d hd2 => hd d (List.mem_cons_of_mem _ hd2)) hv

theorem isDigit_not_sign (c : Char) (h : isDigit c = true) : c ≠ '+' ∧ c ≠ '-' := by
  constructor
  · intro hc; subst hc; revert h; decide
  · intro hc; subst hc; revert h; decide

theorem Atoi_formatUint (n : Nat) (hn : n < 2 ^ 63) : Atoi (formatUint n) = ((n : Int), none) := by
  obtain ⟨h1, h2, h3⟩ := formatUint_spec n
  cases hf : formatUint n with
  | nil => exact absurd hf h1
  | cons c rest =>
    rw [hf] at h2 h3
    obtain ⟨hp, hm⟩ := isDigit_not_sign c (h2 c (List.mem_cons_self _ _))
    have hv : (c :: rest).foldl (fun acc c => 10 * acc + (c.toNat - 48)) 0 < 2 ^ 64 := by
      have : decimalValue (c :: rest) = n := h3
      simp only [decimalValue] at this
      rw [this]
      have : (2 : Nat) ^ 63 < 2 ^ 64 := by norm_num
      omega
    have hu : ParseUint (c :: rest) = (n, none) := by
      have := parseUintLoop_digits (c :: rest) 0 h2 hv
      simp only [ParseUint, List.cons_ne_nil, if_false]
      rw [this]
      have h4 : decimalValue (c :: rest) = n := h3
      simp only [decimalValue] at h4
      rw [h4]
    have hn2 : ¬ n ≥ 2 ^ 63 := by omega
    simp only [Atoi, ParseInt, hp, hm, or_self, if_false, hu, decide_False, hn2, and_false,
      Bool.false_eq_true, false_and]

theorem parseUintLoop_all_digits (ds : Str) :
    ∀ n, n < 2 ^ 64 → (∀ c ∈ ds, isDigit c = true) →
      parseUintLoop ds n
        = (if ds.foldl (fun acc c => 10 * acc + (c.toNat - 48)) n < 2 ^ 64 then
            (ds.foldl (fun acc c => 10 * acc + (c.toNat - 48)) n, none)
          else (2 ^ 64 - 1, some .rangeError)) := by
  induction ds with
  | nil => intro n hn _; simp only [parseUintLoop, List.foldl_nil, hn, if_true]
  | cons c rest ih =>
    intro n hn hd
    have hc : isDigit c = true := hd c (List.mem_cons_self _ _)
    have hge := foldl_digits_ge rest (10 * n + (c.toNat - 48))
    have h64 : (2 : Nat) ^ 64 = 18446744073709551616 := by norm_num
    simp only [List.foldl_cons]
    by_cases h1 : n ≥ (2 ^ 64 - 1) / 10 + 1
    · have hbig : ¬ rest.foldl (fun acc c => 10 * acc + (c.toNat - 48))
          (10 * n + (c.toNat - 48)) < 2 ^ 64 := by omega
      simp only [parseUintLoop, hc, Bool.true_eq_false, if_false, h1, if_true, hbig]
    · by_cases h2 : n * 10 + (c.toNat - 48) > 2 ^ 64 - 1
      · have hbig : ¬ rest.foldl (fun acc c => 10 * acc + (c.toNat - 48))
            (10 * n + (c.toNat - 48)) < 2 ^ 64 := by omega
        simp only [parseUintLoop, hc, Bool.true_eq_false, if_false, h1, h2, if_true, hbig]
      · have h3 : n * 10 + (c.toNat - 48) = 10 * n + (c.toNat - 48) := by omega
        simp only [parseUintLoop, hc, Bool.true_eq_false, if_false, h1, h2]
        rw [h3]
        exact ih _ (by omega) (fun d hd2 => hd d (List.mem_cons_of_mem _ hd2))

theorem ParseUint_formatUint (n : Nat) :
    ParseUint (formatUint n)
      = (if n < 2 ^ 64 then (n, none) else (2 ^ 64 - 1, some .rangeError)) := by
  obtain ⟨h1, h2, h3⟩ := formatUint_spec n
  have h := parseUintLoop_all_digits (formatUint n) 0 (by norm_num) h2
  simp only [decimalValue] at h3
  rw [h3] at h
  simp only [ParseUint, h1, if_false]
  exact h

theorem Atoi_formatUint_large (n : Nat) (hn : 2 ^ 63 ≤ n) :
    Atoi (formatUint n) = (2 ^ 63 - 1, some .rangeError) := by
  obtain ⟨h1, h2, _⟩ := formatUint_spec n
  have hu := ParseUint_formatUint n
  cases hf : formatUint n with
  | nil => exact absurd hf h1
  | cons c rest =>
    rw [hf] at h2 hu
    obtain ⟨hp, hm⟩ := isDigit_not_sign c (h2 c (List.mem_cons_self _ _))
    have h63 : (2 : Nat) ^ 63 = 9223372036854775808 := by norm_num
    have h64 : (2 : Nat) ^ 64 = 18446744073709551616 := by norm_num
    by_cases hlt : n < 2 ^ 64
    · rw [if_pos hlt] at hu
      simp only [Atoi, ParseInt, hp, hm, or_self, if_false, hu, decide_False, hn, and_self,
        if_true, ge_iff_le]
    · rw [if_neg hlt] at hu
      have hbig : (2 : Nat) ^ 64 - 1 ≥ 2 ^ 63 := by omega
      simp only [Atoi, ParseInt, hp, hm, or_self, if_false, hu, decide_False, hbig, and_self,
        if_true]

theorem Atoi_neg_nonpos (ds : Str) : (Atoi ('-' :: ds)).1 ≤ 0 := by
  simp only [Atoi, ParseInt]
  split
  · exact Int.le_refl 0
  · split_ifs <;> simp_all

/-- C16: with a session at hand and a live session record of status `s` (whether or not
`GetSessionData` also returns an error), the health-check handler completes, and it forces the closure (one report of `closed`, no body) exactly when
`s` is `running` and the converted `totalCheck` is at least 20; otherwise it reports nothing
and its body is the object with the one member `sessionStatus` of value `s`. A decimal
numeral below `2^63` converts to its value, so for the counts 0 to 19 and the status
`running` the handler answers 200 with the status, and from 20 on it reports `closed`; a
numeral from `2^63` on converts to the largest value, and a string that starts with a minus
sign converts to a value that is not positive. -/
theorem healthCheck_closes_iff_running_and_20 (statusOk : Str → Bool) (g s : Session)
    (failed : Bool) (t : Str) :
    (healthCheck statusOk (some g) ⟨some s, failed⟩ t).ending = .completed
      ∧ (((∃ ok, (healthCheck statusOk (some g) ⟨some s, failed⟩ t).reports
              = [.sessionStatus "closed".toList ok])
            ∧ (healthCheck statusOk (some g) ⟨some s, failed⟩ t).body = none)
          ↔ (s.Status = "running".toList ∧ (Atoi t).1 ≥ 20))
      ∧ (¬ (s.Status = "running".toList ∧ (Atoi t).1 ≥ 20) →
          (healthCheck statusOk (some g) ⟨some s, failed⟩ t).reports = []
            ∧ (healthCheck statusOk (some g) ⟨some s, failed⟩ t).body
              = some [("sessionStatus".toList, s.Status)])
      ∧ (∀ n : Nat, n < 2 ^ 63 → Atoi (formatUint n) = ((n : Int), none))
      ∧ (∀ n : Nat, n < 20 → s.Status = "running".toList →
          healthCheck statusOk (some g) ⟨some s, failed⟩ (formatUint n)
            = ⟨[], (if failed = true then [500] else []) ++ [200],
                some [("sessionStatus".toList, "running".toList)], false, .completed⟩)
      ∧ (∀ n : Nat, 20 ≤ n → n < 2 ^ 63 → s.Status = "running".toList →
          (healthCheck statusOk (some g) ⟨some s, failed⟩ (formatUint n)).reports
              = [.sessionStatus "closed".toList (statusOk "closed".toList)]
            ∧ (healthCheck statusOk (some g) ⟨some s, failed⟩ (formatUint n)).body
              = none)
      ∧ (∀ n : Nat, 2 ^ 63 ≤ n → Atoi (formatUint n) = (2 ^ 63 - 1, some .rangeError))
      ∧ (∀ ds : Str, (Atoi ('-' :: ds)).1 ≤ 0) := by
  refine ⟨?_, ?_, ?_, Atoi_formatUint, ?_, ?_, Atoi_formatUint_large, Atoi_neg_nonpos⟩
  · by_cases hc : s.Status = "running".toList ∧ (Atoi t).1 ≥ 20
    · by_cases hs : statusOk "closed".toList = true
      · simp only [healthCheck, hc, hs, and_self, if_true]
      · simp only [healthCheck, hc, hs, and_self, if_true, Bool.false_eq_true, if_false]
    · simp only [healthCheck, hc, if_false]
  · by_cases hc : s.Status = "running".toList ∧ (Atoi t).1 ≥ 20
    · by_cases hs : statusOk "closed".toList = true
      · simp only [healthCheck, hc, hs, and_self, if_true, iff_true, and_true]
        exact ⟨true, rfl⟩
      · simp only [healthCheck, hc, hs, and_self, if_true, Bool.false_eq_true, if_false,
          iff_true, and_true]
        exact ⟨false, rfl⟩
    · simp only [healthCheck, hc, if_false, iff_false]
      intro h
      cases h.2
  · intro hc
    simp only [healthCheck, hc, if_false, and_self]
  · intro n hn hs
    have hn2 : n < 2 ^ 63 := Nat.lt_of_lt_of_le hn (by norm_num)
    have hlt : ¬ ((n : Int) ≥ 20) := by omega
    simp only [healthCheck, Atoi_formatUint n hn2, hs, hlt, and_false, if_false, if_true,
      List.append_nil]
  · intro n hn hn2 hs
    have hge : (n : Int) ≥ 20 := by omega
    by_cases hok : statusOk "closed".toList = true
    · simp only [healthCheck, Atoi_formatUint n hn2, hs, hge, and_self, if_true, hok]
    · have hf : statusOk "closed".toList = false := by simpa using hok
      simp only [healthCheck, Atoi_formatUint n hn2, hs, hge, and_self, if_true, hf,
        Bool.false_eq_true, if_false]

/-- Witness for `healthCheck_closes_iff_running_and_20`: the count 19 and the count 20 for a
running session. -/
theorem healthCheck_closes_iff_running_and_20_witness :
    healthCheck (fun _ => true) (some scenarioSession)
        ⟨some { scenarioSession with Status := "running".toList }, false⟩ (formatUint 19)
        = ⟨[], [200], some [("sessionStatus".toList, "running".toList)], false, .completed⟩
      ∧ (healthCheck (fun _ => true) (some scenarioSession)
          ⟨some { scenarioSession with Status := "running".toList }, false⟩
          (formatUint 20)).reports = [.sessionStatus "closed".toList true] :=
  ⟨(healthCheck_closes_iff_running_and_20 (fun _ => true) scenarioSession
      { scenarioSession with Status := "running".toList } false []).2.2.2.2.1 19 (by decide) rfl,
    ((healthCheck_closes_iff_running_and_20 (fun _ => true) scenarioSession
      { scenarioSession with Status := "running".toList } false []).2.2.2.2.2.1 20 (by decide)
      (by norm_num) rfl).1⟩

end Launcher

namespace Launcher

/-! ## The end of the supervised process -/

theorem reportClosed_run (env : Env) (fs : FS) (events : List Event) (andThen : Ending) :
    (reportClosed env fs events andThen).events
        = events ++ [Event.sessionStatus "closed".toList (env.statusOk "closed".toList)]
      ∧ (env.statusOk "closed".toList = true →
          (reportClosed env fs events andThen).ending = andThen)
      ∧ (env.statusOk "closed".toList = false →
          (reportClosed env fs events andThen).ending
            = .fatal "failed to set session status to starting")
      ∧ (reportClosed env fs events andThen).fs = fs := by
  by_cases h : env.statusOk "closed".toList = true
  · simp only [reportClosed, h, if_true, true_implies, Bool.true_eq_false, false_implies,
      and_self]
  · have hf : env.statusOk "closed".toList = false := by simpa using h
    simp only [reportClosed, hf, Bool.false_eq_true, if_false, false_implies, true_implies,
      and_self]

/-- When the call of `SetSessionStatus` returns an error: the request cannot be sent, or the
body of the response cannot be closed. What the control plane answers plays no part. -/
theorem SetSessionStatus_error_iff (fetch : StatusFetch) :
    SetSessionStatus fetch ≠ .ok ()
      ↔ fetch = .sendError ∨ fetch = .readError false ∨ fetch = .decodeError false
          ∨ ∃ status, fetch = .envelope status false := by
  cases fetch with
  | sendError => simp [SetSessionStatus]
  | readError closeOk => cases closeOk <;> simp [SetSessionStatus, SetSessionStatus_deferred]
  | decodeError closeOk => cases closeOk <;> simp [SetSessionStatus, SetSessionStatus_deferred]
  | envelope status closeOk =>
    cases closeOk <;> simp [SetSessionStatus, SetSessionStatus_deferred]

theorem statusOk_false_iff (env : Env) (status : Str) :
    env.statusOk status = false ↔ SetSessionStatus (env.statusFetch status) ≠ .ok () := by
  simp only [Env.statusOk, decide_eq_false_iff_not]

theorem statusOk_true_iff (env : Env) (status : Str) :
    env.statusOk status = true ↔ SetSessionStatus (env.statusFetch status) = .ok () := by
  simp only [Env.statusOk, decide_eq_true_eq]

/-- Once the application has been started, `runApp` is the launch, then, unless the reader of
the output has ended the launcher, the report of `closed`, followed by an ending that the
outcome of the wait decides, unless the reader ends the launcher there. -/
theorem runApp_started (env : Env) (fs : FS) (id : UUID) (r : ReleaseV2) (found : Str)
    (hfound : findEntrypoint env.isExecutable
      (getBinarySuffix env.lower env.windows env.pEnvironment)
      fs env.wd (runApp_searchRoot id r) = .ok found)
    (hpipe : env.pipeOk = true) (hstart : env.startOk = true) :
    ∃ andThen,
      (env.reader = .eof → runApp env fs id r
        = reportClosed env fs
            [Event.launch
              (normalizeEntrypoint (getBinarySuffix env.lower env.windows env.pEnvironment)
                found)
              (streamingArgs ++ env.passthrough) (Dir (Dir (Dir (Dir found))) ++ ['/'])]
            andThen)
      ∧ (env.reader = .fatalBeforeReport → runApp env fs id r
        = ⟨fs,
            [Event.launch
              (normalizeEntrypoint (getBinarySuffix env.lower env.windows env.pEnvironment)
                found)
              (streamingArgs ++ env.passthrough) (Dir (Dir (Dir (Dir found))) ++ ['/'])],
            .fatal readerFatal⟩)
      ∧ (env.reader = .fatalAfterReport → runApp env fs id r
        = ⟨fs,
            [Event.launch
              (normalizeEntrypoint (getBinarySuffix env.lower env.windows env.pEnvironment)
                found)
              (streamingArgs ++ env.passthrough) (Dir (Dir (Dir (Dir found))) ++ ['/']),
              Event.sessionStatus "closed".toList (env.statusOk "closed".toList)],
            .fatal readerFatal⟩)
      ∧ (andThen = .returned ↔ (env.wait = .exited ∨ env.wait = .exitError false))
      ∧ ((∃ msg, andThen = .fatal msg) ↔ (env.wait = .exitError true ∨ env.wait = .waitError))
      ∧ (andThen = .returned ∨ ∃ msg, andThen = .fatal msg) := by
  have hafter : ∀ andThen : Ending,
      (⟨(reportClosed env fs
          [Event.launch
            (normalizeEntrypoint (getBinarySuffix env.lower env.windows env.pEnvironment)
              found)
            (streamingArgs ++ env.passthrough) (Dir (Dir (Dir (Dir found))) ++ ['/'])]
          andThen).fs,
        (reportClosed env fs
          [Event.launch
            (normalizeEntrypoint (getBinarySuffix env.lower env.windows env.pEnvironment)
              found)
            (streamingArgs ++ env.passthrough) (Dir (Dir (Dir (Dir found))) ++ ['/'])]
          andThen).events, .fatal readerFatal⟩ : Run)
        = ⟨fs,
            [Event.launch
              (normalizeEntrypoint (getBinarySuffix env.lower env.windows env.pEnvironment)
                found)
              (streamingArgs ++ env.passthrough) (Dir (Dir (Dir (Dir found))) ++ ['/']),
              Event.sessionStatus "closed".toList (env.statusOk "closed".toList)],
            .fatal readerFatal⟩ := by
    intro andThen
    obtain ⟨e1, _, _, e4⟩ := reportClosed_run env fs
      [Event.launch
        (normalizeEntrypoint (getBinarySuffix env.lower env.windows env.pEnvironment) found)
        (streamingArgs ++ env.passthrough) (Dir (Dir (Dir (Dir found))) ++ ['/'])] andThen
    rw [e1, e4]
    rfl
  cases hw : env.wait with
  | exited =>
    refine ⟨.returned, ?_, ?_, ?_, by simp, by simp, Or.inl rfl⟩
    · intro hr
      simp only [runApp, hfound, hpipe, hstart, Bool.true_eq_false, if_false, hw, hr]
    · intro hr
      simp only [runApp, hfound, hpipe, hstart, Bool.true_eq_false, if_false, hw, hr]
    · intro hr
      simp only [runApp, hfound, hpipe, hstart, Bool.true_eq_false, if_false, hw, hr]
      exact hafter _
  | waitError =>
    refine ⟨.fatal "application exit error", ?_, ?_, ?_, by simp, by simp, Or.inr ⟨_, rfl⟩⟩
    · intro hr
      simp only [runApp, hfound, hpipe, hstart, Bool.true_eq_false, if_false, hw, hr]
    · intro hr
      simp only [runApp, hfound, hpipe, hstart, Bool.true_eq_false, if_false, hw, hr]
    · intro hr
      simp only [runApp, hfound, hpipe, hstart, Bool.true_eq_false, if_false, hw, hr]
      exact hafter _
  | exitError b =>
    cases b with
    | true =>
      refine ⟨.fatal "application exit code", ?_, ?_, ?_, by simp, by simp, Or.inr ⟨_, rfl⟩⟩
      · intro hr
        simp only [runApp, hfound, hpipe, hstart, Bool.true_eq_false, if_false, hw, hr]
      · intro hr
        simp only [runApp, hfound, hpipe, hstart, Bool.true_eq_false, if_false, hw, hr]
      · intro hr
        simp only [runApp, hfound, hpipe, hstart, Bool.true_eq_false, if_false, hw, hr]
        exact hafter _
    | false =>
      refine ⟨.returned, ?_, ?_, ?_, by simp, by simp, Or.inl rfl⟩
      · intro hr
        simp only [runApp, hfound, hpipe, hstart, Bool.true_eq_false, if_false, hw, hr]
      · intro hr
        simp only [runApp, hfound, hpipe, hstart, Bool.true_eq_false, if_false, hw, hr]
      · intro hr
        simp only [runApp, hfound, hpipe, hstart, Bool.true_eq_false, if_false, hw, hr]
        exact hafter _

/-- When the application could not be started `runApp` reports nothing and ends the launcher
as fatal. -/
theorem runApp_not_started (env : Env) (fs : FS) (id : UUID) (r : ReleaseV2)
    (h : (∀ found, findEntrypoint env.isExecutable
          (getBinarySuffix env.lower env.windows env.pEnvironment) fs env.wd
            (runApp_searchRoot id r)
            ≠ .ok found) ∨ env.pipeOk = false ∨ env.startOk = false) :
    (runApp env fs id r).events = [] ∧ ∃ msg, (runApp env fs id r).ending = .fatal msg := by
  cases hfe : findEntrypoint env.isExecutable
      (getBinarySuffix env.lower env.windows env.pEnvironment)
      fs env.wd (runApp_searchRoot id r) with
  | error e => simp only [runApp, hfe]; exact ⟨trivial, _, rfl⟩
  | ok found =>
    rcases h with h | h | h
    · exact absurd hfe (h found)
    · simp only [runApp, hfe, h, if_true]; exact ⟨trivial, _, rfl⟩
    · by_cases hp : env.pipeOk = false
      · simp only [runApp, hfe, hp, if_true]; exact ⟨trivial, _, rfl⟩
      · simp only [runApp, hfe, hp, h, if_true, if_false, Bool.true_eq_false]
        refine ⟨trivial, ?_⟩
        split
        · exact ⟨_, rfl⟩
        · exact ⟨_, rfl⟩

/-- A report that returns an error in `runApp` ends the launcher as fatal. -/
theorem runApp_failed_report (env : Env) (fs : FS) (id : UUID) (r : ReleaseV2) (status : Str)
    (h : Event.sessionStatus status false ∈ (runApp env fs id r).events) :
    ∃ msg, (runApp env fs id r).ending = .fatal msg := by
  cases hfe : findEntrypoint env.isExecutable
      (getBinarySuffix env.lower env.windows env.pEnvironment)
      fs env.wd (runApp_searchRoot id r) with
  | error e =>
    exact (runApp_not_started env fs id r
      (Or.inl (fun f hf => by rw [hfe] at hf; cases hf))).2
  | ok found =>
    by_cases hp : env.pipeOk = true
    · by_cases hs : env.startOk = true
      · obtain ⟨andThen, hr1, hr2, hr3, _, _, _⟩ :=
          runApp_started env fs id r found hfe hp hs
        obtain ⟨e1, _, e3, _⟩ := reportClosed_run env fs
          [Event.launch
            (normalizeEntrypoint (getBinarySuffix env.lower env.windows env.pEnvironment)
              found)
            (streamingArgs ++ env.passthrough) (Dir (Dir (Dir (Dir found))) ++ ['/'])] andThen
        cases hrd : env.reader with
        | eof =>
          rw [hr1 hrd] at h ⊢
          rw [e1] at h
          simp only [List.mem_append, List.mem_singleton, List.mem_cons, List.mem_nil_iff,
            or_false] at h
          rcases h with h | h
          · cases h
          · injection h with h1 h2
            exact ⟨_, e3 h2.symm⟩
        | fatalBeforeReport => rw [hr2 hrd]; exact ⟨_, rfl⟩
        | fatalAfterReport => rw [hr3 hrd]; exact ⟨_, rfl⟩
      · exact (runApp_not_started env fs id r (Or.inr (Or.inr (by simpa using hs)))).2
    · exact (runApp_not_started env fs id r (Or.inr (Or.inl (by simpa using hp)))).2

end Launcher

namespace Launcher

/-! ## Status reports that return an error -/

theorem launchSession_failed_report (env : Env) (fs : FS) (session : Session) (status : Str)
    (h : Event.sessionStatus status false ∈ (launchSession env fs session).events) :
    ∃ msg, (launchSession env fs session).ending = .fatal msg := by
  unfold launchSession at h ⊢
  by_cases hs : env.statusOk "starting".toList = false
  · simp only [hs, if_true]; exact ⟨_, rfl⟩
  · simp only [hs, Bool.true_eq_false, if_false] at h ⊢
    cases hid : session.AppId with
    | none => simp only [hid] at h; simp at h
    | some appId =>
      simp only [hid] at h ⊢
      cases hres : (GetLatestReleaseV2 env.sem env.api2Root env.platform env.net appId).result with
      | error e => simp only [hres] at h; simp at h
      | ok r =>
        simp only [hres] at h ⊢
        by_cases hf : r.Files = none ∨ r.Files = some []
        · simp only [hf, if_true] at h; simp at h
        · simp only [hf, if_false] at h ⊢
          cases hinst : (installRelease env fs appId r).result with
          | panic m => simp only [hinst] at h; simp at h
          | err m => simp only [hinst] at h; simp at h
          | ok u =>
            simp only [hinst] at h ⊢
            by_cases hr : env.statusOk "running".toList = false
            · simp only [hr, if_true]; exact ⟨_, rfl⟩
            · simp only [hr, Bool.true_eq_false, if_false] at h ⊢
              have h2 : Event.sessionStatus status false
                  ∈ (runApp env (installRelease env fs appId r).fs appId r).events := by
                simpa using h
              exact runApp_failed_report _ _ _ _ status h2

end Launcher

namespace Launcher

/-! ## The order of the reported statuses -/

theorem statuses_append (a b : List Event) : statuses (a ++ b) = statuses a ++ statuses b := by
  simp only [statuses, List.filterMap_append]

theorem openStatuses_append (a b : List Event) :
    openStatuses (a ++ b) = openStatuses a ++ openStatuses b := by
  simp only [openStatuses, statuses_append, List.filter_append]

theorem statuses_install (l : List InstallEvent) : statuses (l.map Event.install) = [] := by
  induction l with
  | nil => rfl
  | cons e rest ih =>
    simp only [List.map_cons, statuses, List.filterMap_cons] at ih ⊢
    exact ih

theorem statuses_request (l : List Str) : statuses (l.map Event.releaseRequest) = [] := by
  induction l with
  | nil => rfl
  | cons e rest ih =>
    simp only [List.map_cons, statuses, List.filterMap_cons] at ih ⊢
    exact ih

theorem statuses_runApp (env : Env) (fs : FS) (id : UUID) (r : ReleaseV2) :
    statuses (runApp env fs id r).events = []
      ∨ statuses (runApp env fs id r).events = ["closed".toList] := by
  rcases runApp_events_cases env fs id r with h | ⟨e, a, d, h⟩ | ⟨e, a, d, ok, h⟩
  · left; rw [h]; rfl
  · left; rw [h]; rfl
  · right; rw [h]; rfl

theorem healthCheck_statuses (ok : Str → Bool) (session : Option Session) (fetched : Fetched)
    (t : Str) :
    statuses (healthCheck ok session fetched t).reports = []
      ∨ statuses (healthCheck ok session fetched t).reports = ["closed".toList] := by
  cases session with
  | none => left; rfl
  | some g =>
    cases hfs : fetched.session with
    | none => left; simp only [healthCheck, hfs]; rfl
    | some sess =>
      by_cases hc : sess.Status = "running".toList ∧ (Atoi t).1 ≥ 20
      · right
        by_cases hs : ok "closed".toList = true
        · simp only [healthCheck, hfs, hc, hs, and_self, if_true]; rfl
        · simp only [healthCheck, hfs, hc, hs, and_self, if_true, Bool.false_eq_true, if_false]
          rfl
      · left
        simp only [healthCheck, hfs, hc, if_false]; rfl

theorem closeSession_statuses (ok : Str → Bool) (session : Option Session) :
    statuses (closeSession ok session).reports = []
      ∨ statuses (closeSession ok session).reports = ["closed".toList] := by
  cases session with
  | none => left; rfl
  | some g =>
    right
    by_cases hs : ok "closed".toList = true
    · simp only [closeSession, hs, if_true]; rfl
    · simp only [closeSession, hs, Bool.false_eq_true, if_false]; rfl

/-- A request leaves the phase as it is and adds at most one report, of `closed`. -/
theorem serve_statuses (env : Env) (req : Request) (m : Machine) :
    (serve env req m).phase = m.phase
      ∧ (statuses (serve env req m).trace = statuses m.trace
        ∨ statuses (serve env req m).trace = statuses m.trace ++ ["closed".toList]) := by
  refine ⟨rfl, ?_⟩
  cases req with
  | healthCheck fetched t =>
    simp only [serve, statuses_append]
    rcases healthCheck_statuses env.statusOk m.session fetched t with h | h
    · left; rw [h, List.append_nil]
    · right; rw [h]
  | hello =>
    simp only [serve, statuses_append]
    rcases closeSession_statuses env.statusOk m.session with h | h
    · left; rw [h, List.append_nil]
    · right; rw [h]

theorem serve_openStatuses (env : Env) (req : Request) (m : Machine) :
    openStatuses (serve env req m).trace = openStatuses m.trace := by
  rcases (serve_statuses env req m).2 with h | h
  · simp only [openStatuses, h]
  · simp only [openStatuses, h, List.filter_append]
    have : List.filter (fun s => decide (s ≠ "closed".toList)) ["closed".toList] = [] := by
      decide
    rw [this, List.append_nil]

end Launcher

namespace Launcher

theorem statuses_poll_sleep : statuses [Event.poll, Event.sleep] = [] := rfl

theorem statuses_poll : statuses [Event.poll] = [] := rfl

theorem statuses_single (s : Str) (ok : Bool) : statuses [Event.sessionStatus s ok] = [s] := rfl

theorem mainStep_polling (env : Env) (answer : PollAnswer) (m : Machine)
    (h : m.phase = .polling) :
    statuses (mainStep env answer m).trace = statuses m.trace
      ∧ ((mainStep env answer m).phase = .polling ∨ (mainStep env answer m).phase = .found) := by
  cases answer with
  | failed =>
    simp [mainStep, h, statuses_append, statuses_poll_sleep]
  | session s =>
    cases s with
    | none =>
      simp [mainStep, h, statuses_append, statuses_poll_sleep]
    | some sess =>
      by_cases hid : sess.Id = none
      · simp [mainStep, h, hid, statuses_append, statuses_poll_sleep]
      · simp [mainStep, h, hid, statuses_append, statuses_poll]

theorem mainStep_found (env : Env) (answer : PollAnswer) (m : Machine)
    (h : m.phase = .found) :
    statuses (mainStep env answer m).trace = statuses m.trace ++ ["starting".toList]
      ∧ ((mainStep env answer m).phase = .resolving
        ∨ ∃ e, (mainStep env answer m).phase = .done e) := by
  by_cases hs : env.statusOk "starting".toList = false
  · simp only [mainStep, h, hs, if_true, statuses_append, statuses_single]
    exact ⟨trivial, Or.inr ⟨_, rfl⟩⟩
  · simp only [mainStep, h, hs, Bool.true_eq_false, if_false, statuses_append,
      statuses_single]
    exact ⟨trivial, Or.inl trivial⟩

theorem mainStep_resolving (env : Env) (answer : PollAnswer) (m : Machine)
    (h : m.phase = .resolving) :
    statuses (mainStep env answer m).trace = statuses m.trace
      ∧ ((∃ r, (mainStep env answer m).phase = .installing r)
        ∨ ∃ e, (mainStep env answer m).phase = .done e) := by
  cases ha : m.session.bind (fun s => s.AppId) with
  | none =>
    simp only [mainStep, h, ha]
    exact ⟨trivial, Or.inr ⟨_, rfl⟩⟩
  | some appId =>
    cases hr : (GetLatestReleaseV2 env.sem env.api2Root env.platform
        (netUnder env m.cancelled) appId).result with
    | error e =>
      simp only [mainStep, h, ha, hr, statuses_append, statuses_request, List.append_nil]
      exact ⟨trivial, Or.inr ⟨_, rfl⟩⟩
    | ok r =>
      by_cases hf : r.Files = none ∨ r.Files = some []
      · simp only [mainStep, h, ha, hr, hf, if_true, statuses_append, statuses_request,
          List.append_nil]
        exact ⟨trivial, Or.inr ⟨_, rfl⟩⟩
      · simp only [mainStep, h, ha, hr, hf, if_false, statuses_append, statuses_request,
          List.append_nil]
        exact ⟨trivial, Or.inl ⟨_, rfl⟩⟩

theorem mainStep_installing (env : Env) (answer : PollAnswer) (m : Machine) (r : ReleaseV2)
    (h : m.phase = .installing r) :
    statuses (mainStep env answer m).trace = statuses m.trace
      ∧ ((mainStep env answer m).phase = .installed r
        ∨ ∃ e, (mainStep env answer m).phase = .done e) := by
  cases ha : m.session.bind (fun s => s.AppId) with
  | none =>
    simp only [mainStep, h, ha]
    exact ⟨trivial, Or.inr ⟨_, rfl⟩⟩
  | some appId =>
    cases hr : (installRelease env m.fs appId r).result with
    | panic e =>
      simp only [mainStep, h, ha, hr, statuses_append, statuses_install, List.append_nil]
      exact ⟨trivial, Or.inr ⟨_, rfl⟩⟩
    | err e =>
      simp only [mainStep, h, ha, hr, statuses_append, statuses_install, List.append_nil]
      exact ⟨trivial, Or.inr ⟨_, rfl⟩⟩
    | ok u =>
      simp only [mainStep, h, ha, hr, statuses_append, statuses_install, List.append_nil]
      exact ⟨trivial, Or.inl trivial⟩

theorem mainStep_installed (env : Env) (answer : PollAnswer) (m : Machine) (r : ReleaseV2)
    (h : m.phase = .installed r) :
    statuses (mainStep env answer m).trace = statuses m.trace ++ ["running".toList]
      ∧ ((mainStep env answer m).phase = .supervising r
        ∨ ∃ e, (mainStep env answer m).phase = .done e) := by
  by_cases hs : env.statusOk "running".toList = false
  · simp only [mainStep, h, hs, if_true, statuses_append, statuses_single]
    exact ⟨trivial, Or.inr ⟨_, rfl⟩⟩
  · simp only [mainStep, h, hs, Bool.true_eq_false, if_false, statuses_append,
      statuses_single]
    exact ⟨trivial, Or.inl trivial⟩

theorem mainStep_supervising (env : Env) (answer : PollAnswer) (m : Machine) (r : ReleaseV2)
    (h : m.phase = .supervising r) :
    (statuses (mainStep env answer m).trace = statuses m.trace
        ∨ statuses (mainStep env answer m).trace = statuses m.trace ++ ["closed".toList])
      ∧ ∃ e, (mainStep env answer m).phase = .done e := by
  cases ha : m.session.bind (fun s => s.AppId) with
  | none =>
    simp only [mainStep, h, ha]
    exact ⟨Or.inl trivial, _, rfl⟩
  | some appId =>
    simp only [mainStep, h, ha, statuses_append]
    refine ⟨?_, _, rfl⟩
    rcases statuses_runApp env m.fs appId r with h1 | h1
    · left; rw [h1, List.append_nil]
    · right; rw [h1]

theorem mainStep_done (env : Env) (answer : PollAnswer) (m : Machine) (e : Ending)
    (h : m.phase = .done e) : mainStep env answer m = m := by
  simp only [mainStep, h]

end Launcher

namespace Launcher

theorem openStatuses_of_statuses (a b : List Event) (l : List Str)
    (h : statuses a = statuses b ++ l) :
    openStatuses a = openStatuses b ++ l.filter (fun s => s ≠ "closed".toList) := by
  simp only [openStatuses, h, List.filter_append]

theorem openStatuses_same (a b : List Event) (h : statuses a = statuses b) :
    openStatuses a = openStatuses b := by
  simp only [openStatuses, h]

theorem filter_starting :
    ["starting".toList].filter (fun s => s ≠ "closed".toList) = ["starting".toList] := by
  decide

theorem filter_running :
    ["running".toList].filter (fun s => s ≠ "closed".toList) = ["running".toList] := by
  decide

theorem filter_closed :
    ["closed".toList].filter (fun s => s ≠ "closed".toList) = [] := by
  decide

/-- Every step keeps the statuses other than `closed` in line with the phase. -/
theorem step_openStatusesIn (env : Env) (m : Machine) (a : Action) (h : openStatusesIn m) :
    openStatusesIn (step env m a) := by
  unfold step
  by_cases hx : exited m.phase = true
  · simp only [hx, if_true]; exact h
  · simp only [hx, Bool.false_eq_true, if_false]
    cases a with
    | request req =>
      have hp : (serve env req m).phase = m.phase := rfl
      unfold openStatusesIn at h ⊢
      rw [hp, serve_openStatuses]
      exact h
    | main answer =>
      show openStatusesIn (mainStep env answer m)
      cases hph : m.phase with
      | polling =>
        obtain ⟨h1, h2⟩ := mainStep_polling env answer m hph
        have h3 := openStatuses_same _ _ h1
        simp only [openStatusesIn, hph] at h
        rcases h2 with h2 | h2
        · simp only [openStatusesIn, h2, h3, h]
        · simp only [openStatusesIn, h2, h3, h]
      | found =>
        obtain ⟨h1, h2⟩ := mainStep_found env answer m hph
        have h3 := openStatuses_of_statuses _ _ _ h1
        simp only [openStatusesIn, hph] at h
        rw [h, filter_starting, List.nil_append] at h3
        rcases h2 with h2 | ⟨e, h2⟩
        · simp only [openStatusesIn, h2, h3]
        · simp only [openStatusesIn, h2, h3]
          exact Or.inr (Or.inl trivial)
      | resolving =>
        obtain ⟨h1, h2⟩ := mainStep_resolving env answer m hph
        have h3 := openStatuses_same _ _ h1
        simp only [openStatusesIn, hph] at h
        rcases h2 with ⟨r, h2⟩ | ⟨e, h2⟩
        · simp only [openStatusesIn, h2, h3, h]
        · simp only [openStatusesIn, h2, h3, h]
          exact Or.inr (Or.inl trivial)
      | installing r =>
        obtain ⟨h1, h2⟩ := mainStep_installing env answer m r hph
        have h3 := openStatuses_same _ _ h1
        simp only [openStatusesIn, hph] at h
        rcases h2 with h2 | ⟨e, h2⟩
        · simp only [openStatusesIn, h2, h3, h]
        · simp only [openStatusesIn, h2, h3, h]
          exact Or.inr (Or.inl trivial)
      | installed r =>
        obtain ⟨h1, h2⟩ := mainStep_installed env answer m r hph
        have h3 := openStatuses_of_statuses _ _ _ h1
        simp only [openStatusesIn, hph] at h
        rw [h, filter_running] at h3
        rcases h2 with h2 | ⟨e, h2⟩
        · simp only [openStatusesIn, h2, h3]; rfl
        · simp only [openStatusesIn, h2, h3]
          exact Or.inr (Or.inr rfl)
      | supervising r =>
        obtain ⟨h1, e, h2⟩ := mainStep_supervising env answer m r hph
        simp only [openStatusesIn, hph] at h
        have h3 : openStatuses (mainStep env answer m).trace = openStatuses m.trace := by
          rcases h1 with h1 | h1
          · exact openStatuses_same _ _ h1
          · rw [openStatuses_of_statuses _ _ _ h1, filter_closed, List.append_nil]
        simp only [openStatusesIn, h2, h3, h]
        exact Or.inr (Or.inr trivial)
      | done e =>
        rw [mainStep_done env answer m e hph]
        exact h

theorem steps_openStatusesIn (env : Env) (actions : List Action) :
    ∀ m, openStatusesIn m → openStatusesIn (steps env m actions) := by
  induction actions with
  | nil => intro m h; exact h
  | cons a rest ih =>
    intro m h
    exact ih _ (step_openStatusesIn env m a h)

theorem openStatusesIn_cases (m : Machine) (h : openStatusesIn m) :
    openStatuses m.trace = [] ∨ openStatuses m.trace = ["starting".toList]
      ∨ openStatuses m.trace = ["starting".toList, "running".toList] := by
  unfold openStatusesIn at h
  cases hph : m.phase with
  | polling => rw [hph] at h; exact Or.inl h
  | found => rw [hph] at h; exact Or.inl h
  | resolving => rw [hph] at h; exact Or.inr (Or.inl h)
  | installing r => rw [hph] at h; exact Or.inr (Or.inl h)
  | installed r => rw [hph] at h; exact Or.inr (Or.inl h)
  | supervising r => rw [hph] at h; exact Or.inr (Or.inr h)
  | done e => rw [hph] at h; exact h

end Launcher

namespace Launcher

/-- A step of the main flow keeps the statuses in line with the phase when no request has
been served. -/
theorem mainStep_statusesIn (env : Env) (m : Machine) (answer : PollAnswer)
    (h : statusesIn m) : statusesIn (step env m (.main answer)) := by
  unfold step
  by_cases hx : exited m.phase = true
  · simp only [hx, if_true]; exact h
  · simp only [hx, Bool.false_eq_true, if_false]
    cases hph : m.phase with
    | polling =>
      obtain ⟨h1, h2⟩ := mainStep_polling env answer m hph
      simp only [statusesIn, hph] at h
      rcases h2 with h2 | h2
      · simp only [statusesIn, h2, h1, h]
      · simp only [statusesIn, h2, h1, h]
    | found =>
      obtain ⟨h1, h2⟩ := mainStep_found env answer m hph
      simp only [statusesIn, hph] at h
      rw [h, List.nil_append] at h1
      rcases h2 with h2 | ⟨e, h2⟩
      · simp only [statusesIn, h2, h1]
      · simp only [statusesIn, h2, h1]
        exact ⟨["running".toList, "closed".toList], rfl⟩
    | resolving =>
      obtain ⟨h1, h2⟩ := mainStep_resolving env answer m hph
      simp only [statusesIn, hph] at h
      rw [h] at h1
      rcases h2 with ⟨r, h2⟩ | ⟨e, h2⟩
      · simp only [statusesIn, h2, h1]
      · simp only [statusesIn, h2, h1]
        exact ⟨["running".toList, "closed".toList], rfl⟩
    | installing r =>
      obtain ⟨h1, h2⟩ := mainStep_installing env answer m r hph
      simp only [statusesIn, hph] at h
      rw [h] at h1
      rcases h2 with h2 | ⟨e, h2⟩
      · simp only [statusesIn, h2, h1]
      · simp only [statusesIn, h2, h1]
        exact ⟨["running".toList, "closed".toList], rfl⟩
    | installed r =>
      obtain ⟨h1, h2⟩ := mainStep_installed env answer m r hph
      simp only [statusesIn, hph] at h
      rw [h] at h1
      rcases h2 with h2 | ⟨e, h2⟩
      · simp only [statusesIn, h2, h1]; rfl
      · simp only [statusesIn, h2, h1]
        exact ⟨["closed".toList], rfl⟩
    | supervising r =>
      obtain ⟨h1, e, h2⟩ := mainStep_supervising env answer m r hph
      simp only [statusesIn, hph] at h
      rw [h] at h1
      rcases h1 with h1 | h1
      · simp only [statusesIn, h2, h1]
        exact ⟨["closed".toList], rfl⟩
      · simp only [statusesIn, h2, h1]
        exact ⟨[], rfl⟩
    | done e =>
      rw [mainStep_done env answer m e hph]
      exact h

theorem steps_statusesIn (env : Env) (actions : List Action)
    (hmain : ∀ a ∈ actions, ∃ answer, a = Action.main answer) :
    ∀ m, statusesIn m → statusesIn (steps env m actions) := by
  induction actions with
  | nil => intro m h; exact h
  | cons a rest ih =>
    intro m h
    obtain ⟨answer, ha⟩ := hmain a (List.mem_cons_self _ _)
    subst ha
    exact ih (fun b hb => hmain b (List.mem_cons_of_mem _ hb)) _
      (mainStep_statusesIn env m answer h)

theorem statusesIn_prefix (m : Machine) (h : statusesIn m) :
    statuses m.trace <+: ["starting".toList, "running".toList, "closed".toList] := by
  unfold statusesIn at h
  cases hph : m.phase with
  | polling => rw [hph] at h; rw [h]; exact List.nil_prefix
  | found => rw [hph] at h; rw [h]; exact List.nil_prefix
  | resolving => rw [hph] at h; rw [h]; exact ⟨["running".toList, "closed".toList], rfl⟩
  | installing r => rw [hph] at h; rw [h]; exact ⟨["running".toList, "closed".toList], rfl⟩
  | installed r => rw [hph] at h; rw [h]; exact ⟨["running".toList, "closed".toList], rfl⟩
  | supervising r => rw [hph] at h; rw [h]; exact ⟨["closed".toList], rfl⟩
  | done e => rw [hph] at h; exact h

/-- Once the main flow has ended, whatever happens adds reports of `closed` only. -/
theorem steps_after_done (env : Env) (more : List Action) :
    ∀ m e, m.phase = .done e →
      ∃ k, statuses (steps env m more).trace
        = statuses m.trace ++ List.replicate k "closed".toList := by
  induction more with
  | nil => intro m e _; exact ⟨0, by simp [steps]⟩
  | cons a rest ih =>
    intro m e hph
    have hstep : (step env m a).phase = .done e
        ∧ (statuses (step env m a).trace = statuses m.trace
          ∨ statuses (step env m a).trace = statuses m.trace ++ ["closed".toList]) := by
      by_cases hx : exited m.phase = true
      · have hm : step env m a = m := by simp only [step, hx, if_true]
        rw [hm]; exact ⟨hph, Or.inl rfl⟩
      · cases a with
        | main answer =>
          have hm : step env m (.main answer) = m := by
            simp only [step, hx, Bool.false_eq_true, if_false]
            exact mainStep_done env answer m e hph
          rw [hm]; exact ⟨hph, Or.inl rfl⟩
        | request req =>
          have hm : step env m (.request req) = serve env req m := by
            simp only [step, hx, Bool.false_eq_true, if_false]
          rw [hm]; exact ⟨hph, (serve_statuses env req m).2⟩
    obtain ⟨k, hk⟩ := ih (step env m a) e hstep.1
    rcases hstep.2 with h1 | h1
    · exact ⟨k, by simp only [steps, List.foldl_cons] at hk ⊢; rw [hk, h1]⟩
    · refine ⟨k + 1, ?_⟩
      simp only [steps, List.foldl_cons] at hk ⊢
      rw [hk, h1, List.append_assoc]
      rfl

theorem steps_append (env : Env) (m : Machine) (a b : List Action) :
    steps env m (a ++ b) = steps env (steps env m a) b := by
  simp only [steps, List.foldl_append]

/-- When the statuses other than `closed` are at most `starting` then `running`, nothing but
`closed` is reported after `running`. -/
theorem nothing_open_after_running (tr : List Event)
    (h : openStatuses tr = [] ∨ openStatuses tr = ["starting".toList]
      ∨ openStatuses tr = ["starting".toList, "running".toList])
    (pre post : List Str) (hsplit : statuses tr = pre ++ "running".toList :: post) :
    ∀ s ∈ post, s = "closed".toList := by
  have hopen : openStatuses tr
      = pre.filter (fun s => s ≠ "closed".toList)
        ++ "running".toList :: post.filter (fun s => s ≠ "closed".toList) := by
    simp only [openStatuses, hsplit, List.filter_append, List.filter_cons]
    rfl
  intro s hs
  by_contra hne
  have hmem : s ∈ post.filter (fun s => s ≠ "closed".toList) := by
    simp only [List.mem_filter, decide_eq_true_eq]
    exact ⟨hs, hne⟩
  have hlen : (openStatuses tr).length
      = (pre.filter (fun s => s ≠ "closed".toList)).length + 1
        + (post.filter (fun s => s ≠ "closed".toList)).length := by
    rw [hopen, List.length_append, List.length_cons]; omega
  have hpos : 0 < (post.filter (fun s => s ≠ "closed".toList)).length :=
    List.length_pos_of_mem hmem
  rcases h with h | h | h
  · rw [h] at hlen; simp only [List.length_nil] at hlen; omega
  · rw [h] at hlen; simp only [List.length_singleton] at hlen; omega
  · have hpre : (pre.filter (fun s => s ≠ "closed".toList)).length = 0 := by
      rw [h] at hlen; simp only [List.length_cons, List.length_nil] at hlen; omega
    have hnil := List.eq_nil_of_length_eq_zero hpre
    rw [hnil, h, List.nil_append] at hopen
    injection hopen with h1 h2
    revert h1
    decide

end Launcher

namespace Launcher

/-- Five steps of the main flow from the point where the first loop is left, with no request
in between, are the function `launchSession`. -/
theorem steps_found_launchSession (env : Env) (fs : FS) (session : Session)
    (tr : List Event) (a : PollAnswer) :
    steps env ⟨.found, fs, some session, false, tr⟩ (List.replicate 5 (.main a))
      = ⟨.done (launchSession env fs session).ending, (launchSession env fs session).fs,
          some session, false, tr ++ (launchSession env fs session).events⟩ := by
  by_cases hs : env.statusOk "starting".toList = false
  · simp only [steps, List.replicate, List.foldl_cons, List.foldl_nil, step, mainStep, exited,
      launchSession, hs, if_true, if_false, Bool.false_eq_true, Bool.true_eq_false]
  · cases hid : session.AppId with
    | none =>
      simp only [steps, List.replicate, List.foldl_cons, List.foldl_nil, step, mainStep, exited,
        launchSession, hs, hid, if_true, if_false, Bool.false_eq_true, Bool.true_eq_false, Option.bind,
        List.append_nil]
    | some appId =>
      cases hres : (GetLatestReleaseV2 env.sem env.api2Root env.platform env.net appId).result with
      | error e =>
        simp only [steps, List.replicate, List.foldl_cons, List.foldl_nil, step, mainStep,
          exited, launchSession, netUnder, hs, hid, hres, if_true, if_false,
          Bool.false_eq_true, Bool.true_eq_false, Option.bind, List.append_assoc]
      | ok r =>
        by_cases hf : r.Files = none ∨ r.Files = some []
        · simp only [steps, List.replicate, List.foldl_cons, List.foldl_nil, step, mainStep,
            exited, launchSession, netUnder, hs, hid, hres, hf, if_true, if_false,
            Bool.false_eq_true, Bool.true_eq_false, Option.bind, List.append_assoc]
        · cases hinst : (installRelease env fs appId r).result with
          | panic m =>
            simp only [steps, List.replicate, List.foldl_cons, List.foldl_nil, step, mainStep,
              exited, launchSession, netUnder, hs, hid, hres, hf, hinst, if_true, if_false,
              Bool.false_eq_true, Bool.true_eq_false, Option.bind, List.append_assoc]
          | err m =>
            simp only [steps, List.replicate, List.foldl_cons, List.foldl_nil, step, mainStep,
              exited, launchSession, netUnder, hs, hid, hres, hf, hinst, if_true, if_false,
              Bool.false_eq_true, Bool.true_eq_false, Option.bind, List.append_assoc]
          | ok u =>
            by_cases hr : env.statusOk "running".toList = false
            · simp only [steps, List.replicate, List.foldl_cons, List.foldl_nil, step,
                mainStep, exited, launchSession, netUnder, hs, hid, hres, hf, hinst, hr,
                if_true, if_false, Bool.false_eq_true, Bool.true_eq_false, Option.bind, List.append_assoc]
            · simp only [steps, List.replicate, List.foldl_cons, List.foldl_nil, step,
                mainStep, exited, launchSession, netUnder, hs, hid, hres, hf, hinst, hr,
                if_true, if_false, Bool.false_eq_true, Bool.true_eq_false, Option.bind, List.append_assoc]

end Launcher

namespace Launcher

theorem steps_cons (env : Env) (m : Machine) (a : Action) (l : List Action) :
    steps env m (a :: l) = steps env (step env m a) l := rfl

/-- The rounds of the first loop in the step relation are the function `awaitSession`. -/
theorem steps_polling_awaitSession (env : Env) (fs : FS) (polls : List PollAnswer) :
    ∀ (s0 : Option Session) (ev : List Event) (session : Session),
      (awaitSession polls ev).2 = some session →
      ∃ n, steps env ⟨.polling, fs, s0, false, ev⟩ ((polls.take n).map Action.main)
        = ⟨.found, fs, some session, false, (awaitSession polls ev).1⟩ := by
  induction polls with
  | nil => intro s0 ev session h; cases h
  | cons a rest ih =>
    intro s0 ev session h
    cases a with
    | failed =>
      simp only [awaitSession] at h ⊢
      obtain ⟨n, hn⟩ := ih none (ev ++ [.poll, .sleep]) session h
      refine ⟨n + 1, ?_⟩
      simp only [List.take_succ_cons, List.map_cons, steps_cons]
      rw [← hn]
      simp only [step, exited, Bool.false_eq_true, if_false, mainStep]
    | session s =>
      cases s with
      | none =>
        simp only [awaitSession] at h ⊢
        obtain ⟨n, hn⟩ := ih none (ev ++ [.poll, .sleep]) session h
        refine ⟨n + 1, ?_⟩
        simp only [List.take_succ_cons, List.map_cons, steps_cons]
        rw [← hn]
        simp only [step, exited, Bool.false_eq_true, if_false, mainStep]
      | some sess =>
        by_cases hid : sess.Id = none
        · simp only [awaitSession, hid, if_true] at h ⊢
          obtain ⟨n, hn⟩ := ih (some sess) (ev ++ [.poll, .sleep]) session h
          refine ⟨n + 1, ?_⟩
          simp only [List.take_succ_cons, List.map_cons, steps_cons]
          rw [← hn]
          simp only [step, exited, Bool.false_eq_true, if_false, mainStep, hid, if_true]
        · simp only [awaitSession, hid, if_false] at h ⊢
          injection h with h
          subst h
          refine ⟨1, ?_⟩
          simp only [List.take_succ_cons, List.take_zero, List.map_cons, List.map_nil, steps,
            List.foldl_cons, List.foldl_nil, step, exited, Bool.false_eq_true, if_false,
            mainStep, hid]

/-- The run of `main` is a run of the step relation in which no request is served: when the
first loop finds a session, a sequence of steps of the main flow leads to the events and
the ending of `launchSession` after the events of the first loop. -/
theorem main_flow_is_steps (env : Env) (fs : FS) (polls : List PollAnswer) (session : Session)
    (h : (awaitSession polls startEvents).2 = some session) :
    ∃ actions, (∀ a ∈ actions, ∃ answer, a = Action.main answer)
      ∧ steps env (initial fs) actions
        = ⟨.done (launchSession env fs session).ending, (launchSession env fs session).fs,
            some session, false,
            (awaitSession polls startEvents).1 ++ (launchSession env fs session).events⟩ := by
  obtain ⟨n, hn⟩ := steps_polling_awaitSession env fs polls (some ⟨none, none, []⟩)
    startEvents session h
  refine ⟨(polls.take n).map Action.main ++ List.replicate 5 (.main .failed), ?_, ?_⟩
  · intro a ha
    simp only [List.mem_append, List.mem_map, List.mem_replicate] at ha
    rcases ha with ⟨x, _, hx⟩ | ⟨_, hx⟩
    · exact ⟨x, hx.symm⟩
    · exact ⟨_, hx⟩
  · rw [steps_append]
    show steps env (steps env ⟨.polling, fs, some ⟨none, none, []⟩, false, startEvents⟩ _) _
      = _
    rw [hn]
    exact steps_found_launchSession env fs session _ _

end Launcher

namespace Launcher

end Launcher

namespace Launcher

/-! ## Version files of any length -/

theorem take_twelve_padded (b : List Nat) (k : Nat) (h : 12 ≤ b.length + k) :
    (b ++ List.replicate k 0).take 12 = firstTwelve b := by
  rw [List.take_append_eq_append_take, List.take_replicate, firstTwelve]
  congr 2
  omega

theorem sliceBytes_firstTwelve (b : List Nat) (low high : Nat) (h1 : low ≤ high)
    (h2 : high ≤ 12) :
    sliceBytes b (readFileCap b.length) low high
      = some (((firstTwelve b).drop low).take (high - low)) := by
  have hcap : 512 ≤ readFileCap b.length := by simp [readFileCap]
  have hcap2 : b.length + 1 ≤ readFileCap b.length := by simp [readFileCap]
  have hin : low ≤ high ∧ high ≤ readFileCap b.length := ⟨h1, by omega⟩
  simp only [sliceBytes, hin, and_self, if_true, Option.some.injEq]
  rw [← take_twelve_padded b (readFileCap b.length - b.length) (by omega)]
  rw [List.take_drop, List.take_drop, List.take_take]
  congr 2
  omega

theorem getD_byte (l : List Nat) (i : Nat) (h : ∀ x ∈ l, x < 256) : l.getD i 0 < 256 := by
  rw [List.getD_eq_getElem?_getD]
  cases hi : l[i]? with
  | none => simp
  | some x =>
    have hx : x ∈ l := List.mem_iff_getElem?.mpr ⟨i, hi⟩
    simpa using h x hx

theorem getUint32_lt (l : List Nat) (h : ∀ x ∈ l, x < 256) : getUint32 l < 2 ^ 32 := by
  have h0 := getD_byte l 0 h
  have h1 := getD_byte l 1 h
  have h2 := getD_byte l 2 h
  have h3 := getD_byte l 3 h
  have : (2 : Nat) ^ 32 = 4294967296 := by norm_num
  unfold getUint32
  omega

theorem firstTwelve_bytes (content : List Nat) (h : ∀ x ∈ content.take 12, x < 256) :
    ∀ x ∈ firstTwelve content, x < 256 := by
  intro x hx
  simp only [firstTwelve, List.mem_append, List.mem_replicate] at hx
  rcases hx with hx | ⟨_, hx⟩
  · exact h x hx
  · rw [hx]; norm_num

/-- Reading a version file: the three numbers come from the first twelve bytes of the
buffer, and the parse of their decimal forms decides the result. -/
theorem ReadVersion_of_content (fs : FS) (dir : Str) (content : List Nat)
    (h : fs.lookup (versionFile dir) = some (.file content)) :
    ReadVersion fs dir
      = (match NewVersion (formatUint (getUint32 ((firstTwelve content).take 4))
            ++ '.' :: formatUint (getUint32 (((firstTwelve content).drop 4).take 4))
            ++ '.' :: formatUint (getUint32 (((firstTwelve content).drop 8).take 4))) with
        | none => .err "failed to parse version"
        | some version => .ok version) := by
  have s1 := sliceBytes_firstTwelve content 0 4 (by omega) (by omega)
  have s2 := sliceBytes_firstTwelve content 4 8 (by omega) (by omega)
  have s3 := sliceBytes_firstTwelve content 8 12 (by omega) (by omega)
  simp only [List.drop_zero, Nat.sub_zero] at s1
  have e2 : (8 : Nat) - 4 = 4 := rfl
  have e3 : (12 : Nat) - 8 = 4 := rfl
  rw [e2] at s2
  rw [e3] at s3
  simp only [ReadVersion, FS.stat, FS.readFile, h, s1, s2, s3]

theorem ReadVersion_of_byte_content (fs : FS) (dir : Str) (content : List Nat)
    (h : fs.lookup (versionFile dir) = some (.file content))
    (hbytes : ∀ x ∈ content.take 12, x < 256) :
    ReadVersion fs dir
      = .ok ⟨getUint32 ((firstTwelve content).take 4),
          getUint32 (((firstTwelve content).drop 4).take 4),
          getUint32 (((firstTwelve content).drop 8).take 4), [], []⟩ := by
  have hb := firstTwelve_bytes content hbytes
  have b1 : getUint32 ((firstTwelve content).take 4) < 2 ^ 32 :=
    getUint32_lt _ (fun x hx => hb x (List.mem_of_mem_take hx))
  have b2 : getUint32 (((firstTwelve content).drop 4).take 4) < 2 ^ 32 :=
    getUint32_lt _ (fun x hx => hb x (List.mem_of_mem_drop (List.mem_of_mem_take hx)))
  have b3 : getUint32 (((firstTwelve content).drop 8).take 4) < 2 ^ 32 :=
    getUint32_lt _ (fun x hx => hb x (List.mem_of_mem_drop (List.mem_of_mem_take hx)))
  obtain ⟨fa1, fa2, fa3⟩ := formatUint_spec (getUint32 ((firstTwelve content).take 4))
  obtain ⟨fb1, fb2, fb3⟩ :=
    formatUint_spec (getUint32 (((firstTwelve content).drop 4).take 4))
  obtain ⟨fc1, fc2, fc3⟩ :=
    formatUint_spec (getUint32 (((firstTwelve content).drop 8).take 4))
  have hp := NewVersion_dotted _ _ _ fa1 fb1 fc1 fa2 fb2 fc2 (by rw [fa3]; omega)
    (by rw [fb3]; omega) (by rw [fc3]; omega)
  rw [fa3, fb3, fc3] at hp
  rw [ReadVersion_of_content fs dir content h]
  simp only [List.append_assoc, List.cons_append] at hp ⊢
  rw [hp]

/-- C23 (as the code has it): `ReadVersion` reads an existing version file of any length
without an out-of-range access. The slice expressions are bounded by the capacity of the
buffer that `os.ReadFile` returns, which is 512 at least, so for every content (of bytes)
the call succeeds with the three little-endian numbers of the first twelve bytes of the
buffer: the content, followed by zero bytes when it is shorter. The result depends on
these twelve bytes only; for a content of twelve or more bytes they are its first twelve
bytes. -/
theorem ReadVersion_reads_first_twelve_zero_padded (fs : FS) (dir : Str) (content : List Nat)
    (h : fs.lookup (versionFile dir) = some (.file content))
    (hbytes : ∀ x ∈ content.take 12, x < 256) :
    ReadVersion fs dir
        = .ok ⟨getUint32 ((firstTwelve content).take 4),
            getUint32 (((firstTwelve content).drop 4).take 4),
            getUint32 (((firstTwelve content).drop 8).take 4), [], []⟩
      ∧ (∀ msg, ReadVersion fs dir ≠ .panic msg)
      ∧ (12 ≤ content.length → firstTwelve content = content.take 12)
      ∧ (∀ (fs2 : FS) (dir2 : Str) (content2 : List Nat),
          fs2.lookup (versionFile dir2) = some (.file content2) →
          firstTwelve content2 = firstTwelve content →
          ReadVersion fs2 dir2 = ReadVersion fs dir)
      ∧ (∀ low high, low ≤ high → high ≤ 12 →
          sliceBytes content (readFileCap content.length) low high ≠ none) := by
  have hr := ReadVersion_of_byte_content fs dir content h hbytes
  refine ⟨hr, ?_, ?_, ?_, ?_⟩
  · intro msg hm
    rw [hr] at hm
    cases hm
  · intro hlen
    have : 12 - content.length = 0 := by omega
    simp only [firstTwelve, this, List.replicate_zero, List.append_nil]
  · intro fs2 dir2 content2 h2 heq
    rw [ReadVersion_of_content fs2 dir2 content2 h2, ReadVersion_of_content fs dir content h,
      heq]
  · intro low high h1 h2
    rw [sliceBytes_firstTwelve content low high h1 h2]
    exact fun hc => by cases hc

/-- Witness for `ReadVersion_reads_first_twelve_zero_padded`: a version file of three
bytes. -/
theorem ReadVersion_reads_first_twelve_zero_padded_witness :
    shortVersionFS.lookup (versionFile "/opt/app".toList) = some (.file [1, 2, 3])
      ∧ (∀ x ∈ ([1, 2, 3] : List Nat).take 12, x < 256)
      ∧ ReadVersion shortVersionFS "/opt/app".toList = .ok ⟨197121, 0, 0, [], []⟩ :=
  ⟨by decide, by decide,
    (ReadVersion_reads_first_twelve_zero_padded shortVersionFS "/opt/app".toList [1, 2, 3]
      (by decide) (by decide)).1⟩

/-- C23 (as stated) fails: an empty version file and one of three bytes are read without a
panic; the empty file reads as 0.0.0 and the bytes 1, 2, 3 read as 197121.0.0, each with no
error. -/
theorem ReadVersion_short_file_no_panic :
    emptyVersionFS.lookup (versionFile "/opt/app".toList) = some (.file [])
      ∧ ReadVersion emptyVersionFS "/opt/app".toList = .ok ⟨0, 0, 0, [], []⟩
      ∧ shortVersionFS.lookup (versionFile "/opt/app".toList) = some (.file [1, 2, 3])
      ∧ ReadVersion shortVersionFS "/opt/app".toList = .ok ⟨197121, 0, 0, [], []⟩ := by
  refine ⟨by decide, by decide, by decide, by decide⟩

end Launcher

namespace Launcher

/-! ## What a written version keeps -/

theorem WriteVersion_of_residues (fs : FS) (dir : Str) (v v2 : Version)
    (h1 : v2.major % 2 ^ 32 = v.major % 2 ^ 32) (h2 : v2.minor % 2 ^ 32 = v.minor % 2 ^ 32)
    (h3 : v2.patch % 2 ^ 32 = v.patch % 2 ^ 32) :
    WriteVersion fs dir v2 = WriteVersion fs dir v := by
  simp only [WriteVersion, toUint32, h1, h2, h3]

/-- C24: with the directory present and no directory in the place of the version file,
writing any version succeeds, and reading it back gives major, minor and patch each reduced
modulo `2^32`, with empty pre-release and metadata. The written file depends on these three
residues only: a version with the same residues, whatever its pre-release and metadata,
leaves the same file system and reads back as the same version. -/
theorem WriteVersion_keeps_residues_only (fs : FS) (dir : Str) (v : Version)
    (hdir : fs.isDir (Clean dir) = true)
    (hfile : fs.lookup (versionFile dir) ≠ some Node.dir) :
    (WriteVersion fs dir v).2 = .ok ()
      ∧ ReadVersion (WriteVersion fs dir v).1 dir
          = .ok { major := v.major % 2 ^ 32, minor := v.minor % 2 ^ 32,
                  patch := v.patch % 2 ^ 32, pre := [], metadata := [] }
      ∧ (∀ v2 : Version, v2.major % 2 ^ 32 = v.major % 2 ^ 32 →
          v2.minor % 2 ^ 32 = v.minor % 2 ^ 32 → v2.patch % 2 ^ 32 = v.patch % 2 ^ 32 →
          WriteVersion fs dir v2 = WriteVersion fs dir v
            ∧ ReadVersion (WriteVersion fs dir v2).1 dir
              = ReadVersion (WriteVersion fs dir v).1 dir)
      ∧ (∀ pre metadata : Str,
          ReadVersion (WriteVersion fs dir { v with pre := pre, metadata := metadata }).1 dir
            = ReadVersion (WriteVersion fs dir v).1 dir)
      ∧ (∀ i j k : Nat,
          ReadVersion (WriteVersion fs dir
              { v with major := v.major + i * 2 ^ 32, minor := v.minor + j * 2 ^ 32,
                       patch := v.patch + k * 2 ^ 32 }).1 dir
            = ReadVersion (WriteVersion fs dir v).1 dir) := by
  have hok := WriteVersion_succeeds fs dir v (by rw [Dir_versionFile]; exact hdir) hfile
  have hl := WriteVersion_ok_lookup fs dir v hok
  have hread := ReadVersion_of_bytes _ dir (toUint32 v.major) (toUint32 v.minor)
    (toUint32 v.patch) (Nat.mod_lt _ (by decide)) (Nat.mod_lt _ (by decide))
    (Nat.mod_lt _ (by decide)) hl
  refine ⟨hok, hread, ?_, ?_, ?_⟩
  · intro v2 h1 h2 h3
    have hw := WriteVersion_of_residues fs dir v v2 h1 h2 h3
    exact ⟨hw, by rw [hw]⟩
  · intro pre metadata
    rw [WriteVersion_of_residues fs dir v { v with pre := pre, metadata := metadata } rfl rfl
      rfl]
  · intro i j k
    rw [WriteVersion_of_residues fs dir v
      { v with major := v.major + i * 2 ^ 32, minor := v.minor + j * 2 ^ 32,
               patch := v.patch + k * 2 ^ 32 }
      (Nat.add_mul_mod_self_right _ _ _) (Nat.add_mul_mod_self_right _ _ _)
      (Nat.add_mul_mod_self_right _ _ _)]

/-- Witness for `WriteVersion_keeps_residues_only`: the version `4294967297.2.3-beta+b7`
reads back as 1.2.3. -/
theorem WriteVersion_keeps_residues_only_witness :
    (FS.mk [("/opt/app".toList, Node.dir)]).isDir (Clean "/opt/app".toList) = true
      ∧ (FS.mk [("/opt/app".toList, Node.dir)]).lookup (versionFile "/opt/app".toList)
          ≠ some Node.dir
      ∧ ReadVersion (WriteVersion (FS.mk [("/opt/app".toList, Node.dir)]) "/opt/app".toList
          ⟨4294967297, 2, 3, "beta".toList, "b7".toList⟩).1 "/opt/app".toList
        = .ok ⟨1, 2, 3, [], []⟩ :=
  ⟨by decide, by decide,
    (WriteVersion_keeps_residues_only (FS.mk [("/opt/app".toList, Node.dir)])
      "/opt/app".toList ⟨4294967297, 2, 3, "beta".toList, "b7".toList⟩ (by decide)
      (by decide)).2.1⟩

end Launcher

namespace Launcher

/-! ## The health check without a session record -/

theorem GetSessionData_session_none (fetch : SessionFetch) :
    (GetSessionData fetch).session = none ↔
      (fetch = .sendError ∨ (∃ c, fetch = .readError c) ∨ (∃ c, fetch = .decodeError c)
        ∨ (∃ d c, fetch = .envelope "error".toList d c)
        ∨ ∃ c, fetch = .envelope "ok".toList none c) := by
  cases fetch with
  | sendError => simp [GetSessionData]
  | readError c => simp [GetSessionData]
  | decodeError c => simp [GetSessionData]
  | envelope status data c =>
    by_cases he : status = "error".toList
    · subst he
      simp [GetSessionData]
    · by_cases ho : status = "ok".toList
      · subst ho
        simp only [GetSessionData, he, if_false, if_true]
        constructor
        · intro h
          exact Or.inr (Or.inr (Or.inr (Or.inr ⟨c, by rw [show data = none from h]⟩)))
        · rintro (h | ⟨_, h⟩ | ⟨_, h⟩ | ⟨_, _, h⟩ | ⟨_, h⟩)
          · cases h
          · cases h
          · cases h
          · injection h with h1 h2 h3
            exact absurd h1 he
          · cases h; rfl
      · simp only [GetSessionData, he, ho, if_false]
        constructor
        · intro h; cases h
        · rintro (h | ⟨_, h⟩ | ⟨_, h⟩ | ⟨_, _, h⟩ | ⟨_, h⟩)
          · cases h
          · cases h
          · cases h
          · injection h with h1 h2 h3
            exact absurd h1 he
          · injection h with h1 h2 h3
            exact absurd h1 ho

/-- C25: with a session at hand, the health-check handler goes on after the fetch whatever
`GetSessionData` returns. When the returned session record is nil it ends in the panic of
reading the status of the nil record, with no body and no report, after writing the status
code 500 if the fetch returned an error; it completes, with the closure or with the status
body, exactly when the returned record is not nil. `GetSessionData` returns a nil record
when the request cannot be sent (then with an error), and when the body cannot be read or
decoded, the envelope has the status `error`, or the envelope has the status `ok` and no
data (then with the outcome of closing the body as its error). -/
theorem healthCheck_completes_iff_record (statusOk : Str → Bool) (g : Session)
    (fetched : Fetched) (t : Str) :
    (fetched.session = none →
        healthCheck statusOk (some g) fetched t
          = ⟨[], (if fetched.failed = true then [500] else [])
                ++ (if (Atoi t).2 = none then [] else [500]), none, false, .panicked⟩)
      ∧ ((healthCheck statusOk (some g) fetched t).ending = .completed ↔
          fetched.session ≠ none)
      ∧ ((healthCheck statusOk (some g) fetched t).ending = .completed →
          (healthCheck statusOk (some g) fetched t).body ≠ none
            ∨ (healthCheck statusOk (some g) fetched t).reports ≠ [])
      ∧ GetSessionData .sendError = ⟨none, true⟩
      ∧ (∀ closeOk, GetSessionData (.envelope "ok".toList none closeOk) = ⟨none, !closeOk⟩)
      ∧ (∀ fetch, (GetSessionData fetch).session = none ↔
          (fetch = .sendError ∨ (∃ c, fetch = .readError c) ∨ (∃ c, fetch = .decodeError c)
            ∨ (∃ d c, fetch = .envelope "error".toList d c)
            ∨ ∃ c, fetch = .envelope "ok".toList none c))
      ∧ (∀ fetch, (GetSessionData fetch).failed = true →
          fetch = .sendError ∨ (∃ c, fetch = .readError c) ∨ (∃ c, fetch = .decodeError c)
            ∨ ∃ s d, fetch = .envelope s d false) := by
  refine ⟨?_, ?_, ?_, rfl, fun _ => rfl, GetSessionData_session_none, ?_⟩
  · intro h
    simp only [healthCheck, h]
  · cases hfs : fetched.session with
    | none => simp [healthCheck, hfs]
    | some sess =>
      by_cases hc : sess.Status = "running".toList ∧ (Atoi t).1 ≥ 20
      · by_cases hs : statusOk "closed".toList = true
        · simp only [healthCheck, hfs, hc, hs, and_self, if_true]
          simp
        · simp only [healthCheck, hfs, hc, hs, and_self, if_true, Bool.false_eq_true, if_false]
          simp
      · simp only [healthCheck, hfs, hc, if_false]
        simp
  · cases hfs : fetched.session with
    | none => simp [healthCheck, hfs]
    | some sess =>
      by_cases hc : sess.Status = "running".toList ∧ (Atoi t).1 ≥ 20
      · by_cases hs : statusOk "closed".toList = true
        · simp only [healthCheck, hfs, hc, hs, and_self, if_true]
          simp
        · simp only [healthCheck, hfs, hc, hs, and_self, if_true, Bool.false_eq_true, if_false]
          simp
      · simp only [healthCheck, hfs, hc, if_false]
        simp
  · intro fetch h
    cases fetch with
    | sendError => exact Or.inl rfl
    | readError c => exact Or.inr (Or.inl ⟨c, rfl⟩)
    | decodeError c => exact Or.inr (Or.inr (Or.inl ⟨c, rfl⟩))
    | envelope status data c =>
      refine Or.inr (Or.inr (Or.inr ⟨status, data, ?_⟩))
      have hc : c = false := by
        simp only [GetSessionData] at h
        split_ifs at h <;> simpa using h
      rw [hc]

/-- Witness for `healthCheck_completes_iff_record`: the request of `GetSessionData` cannot
be sent. -/
theorem healthCheck_completes_iff_record_witness :
    (GetSessionData .sendError).session = none
      ∧ healthCheck (fun _ => true) (some scenarioSession) (GetSessionData .sendError)
          "3".toList
        = ⟨[], [500], none, false, .panicked⟩ :=
  ⟨rfl,
    ((healthCheck_completes_iff_record (fun _ => true) scenarioSession
      (GetSessionData .sendError) "3".toList).1 rfl).trans (by decide)⟩

end Launcher

namespace Launcher

/-! ## The sizes are read before the downloads -/

theorem sumSizes_none_iff (files : List File) :
    ∀ acc, sumSizes files acc = none ↔ ∃ f ∈ files, f.Size = none := by
  induction files with
  | nil => intro acc; simp [sumSizes]
  | cons f rest ih =>
    intro acc
    cases hs : f.Size with
    | none =>
      simp only [sumSizes, hs, true_iff]
      exact ⟨f, List.mem_cons_self _ _, hs⟩
    | some size =>
      simp only [sumSizes, hs]
      rw [ih]
      constructor
      · rintro ⟨g, hg, hgs⟩
        exact ⟨g, List.mem_cons_of_mem _ hg, hgs⟩
      · rintro ⟨g, hg, hgs⟩
        rcases List.mem_cons.mp hg with rfl | hg
        · rw [hs] at hgs; cases hgs
        · exact ⟨g, hg, hgs⟩

/-- After the size loop, `installAppRelease` attempts every download and ends with a result
that is no panic. -/
theorem installAppRelease_after_sizes (sem : LoopVar) (http : Str → HttpAnswer)
    (removeAllOk : Str → Bool) (fs : FS)
    (w : Str) (appId : UUID) (release : ReleaseV2) (entities : List File) (total : Nat)
    (hfiles : release.Files = some entities) (hne : releaseFiles sem entities ≠ [])
    (hsize : sumSizes (releaseFiles sem entities) 0 = some total) :
    downloadAttempts (installAppRelease sem http removeAllOk fs (some w) appId release).log
        = (releaseFiles sem entities).map
            (fun f => (installAppRelease_tempDownloadPath w appId release, f.Url))
      ∧ ∀ msg, (installAppRelease sem http removeAllOk fs (some w) appId release).result ≠ .panic msg := by
  have hlen : ¬ (releaseFiles sem entities).length = 0 := by
    intro h; exact hne (List.length_eq_zero.mp h)
  obtain ⟨hd1, hd2⟩ := downloadAll_attempts http
    (installAppRelease_tempDownloadPath w appId release) total (releaseFiles sem entities)
    ⟨fs, [], 0⟩
  obtain ⟨hm1, hm2⟩ := moveAll_attempts (installAppRelease_tempDownloadPath w appId release)
    (installAppRelease_appInstallationPath w appId release) (releaseFiles sem entities)
    ((downloadAll http (installAppRelease_tempDownloadPath w appId release) total
        (releaseFiles sem entities) ⟨fs, [], 0⟩).fs,
      (downloadAll http (installAppRelease_tempDownloadPath w appId release) total
        (releaseFiles sem entities) ⟨fs, [], 0⟩).log)
  simp only [hd1, hd2, downloadAttempts, moveAttempts, List.nil_append] at hm1 hm2
  cases hv : NewVersion release.Version with
  | none =>
    simp only [installAppRelease, hfiles, hlen, if_false, hsize, hv]
    exact ⟨hm2, fun msg h => by cases h⟩
  | some v =>
    cases hw : (WriteVersion (moveAll (installAppRelease_tempDownloadPath w appId release)
        (installAppRelease_appInstallationPath w appId release) (releaseFiles sem entities)
        ((downloadAll http (installAppRelease_tempDownloadPath w appId release) total
            (releaseFiles sem entities) ⟨fs, [], 0⟩).fs,
          (downloadAll http (installAppRelease_tempDownloadPath w appId release) total
            (releaseFiles sem entities) ⟨fs, [], 0⟩).log)).1
        (installAppRelease_appInstallationPath w appId release) v).2 with
    | error e =>
      simp only [installAppRelease, hfiles, hlen, if_false, hsize, hv, hw]
      refine ⟨?_, fun msg h => by cases h⟩
      rw [downloadAttempts_append, hm2]; simp [downloadAttempts]
    | ok u =>
      simp only [installAppRelease, hfiles, hlen, if_false, hsize, hv, hw]
      split
      · refine ⟨?_, fun msg h => by cases h⟩
        rw [downloadAttempts_append, hm2]; simp [downloadAttempts]
      · refine ⟨?_, fun msg h => by cases h⟩
        rw [downloadAttempts_append, hm2]; simp [downloadAttempts]

/-- After the size read, `installAppReleaseArchive` attempts the download and ends with a
result that is no panic. -/
theorem installAppReleaseArchive_after_size (http : Str → HttpAnswer)
    (unzip : List Nat → Option (List ZipEntry)) (removeAllOk : Str → Bool) (fs : FS) (w : Str) (appId : UUID)
    (release : ReleaseV2) (entities : List File) (archive : File) (size : Int)
    (hfiles : release.Files = some entities) (harchive : findArchive entities = some archive)
    (hsize : archive.Size = some size) :
    (∃ ok rest, (installAppReleaseArchive http unzip removeAllOk fs (some w) appId release).log
        = .download (installAppReleaseArchive_tempDownloadPath w appId release) archive.Url ok
          :: rest)
      ∧ ∀ msg, (installAppReleaseArchive http unzip removeAllOk fs (some w) appId release).result
          ≠ .panic msg := by
  cases hd : (DownloadFile http fs (installAppReleaseArchive_tempDownloadPath w appId release)
      archive.Url (some (NewDownloadProgressTracker (toUint64 size)))).result with
  | error e =>
    simp only [installAppReleaseArchive, hfiles, harchive, hsize, hd]
    exact ⟨⟨false, [], rfl⟩, fun msg h => by cases h⟩
  | ok u =>
    simp only [installAppReleaseArchive, hfiles, harchive, hsize, hd, installArchiveAfterDownload]
    split
    · exact ⟨⟨true, _, rfl⟩, fun msg h => by cases h⟩
    · split
      · exact ⟨⟨true, _, rfl⟩, fun msg h => by cases h⟩
      · split
        · exact ⟨⟨true, _, rfl⟩, fun msg h => by cases h⟩
        · split
          · exact ⟨⟨true, _, rfl⟩, fun msg h => by cases h⟩
          · exact ⟨⟨true, _, rfl⟩, fun msg h => by cases h⟩

end Launcher

namespace Launcher

/-! ## The normalization of the entrypoint -/

theorem normalStack_of_plain (rooted : Bool) (l : List Str) (h : ∀ n ∈ l, PlainName n) :
    NormalStack rooted l := by
  induction l with
  | nil => trivial
  | cons e rest ih =>
    refine ⟨(h e (List.mem_cons_self _ _)).1, ih (fun n hn => h n (List.mem_cons_of_mem _ hn)),
      fun he => absurd he (h e (List.mem_cons_self _ _)).2⟩

theorem Clean_rooted_segments (xs : List Str) (hp : ∀ e ∈ xs, PlainName e) :
    Clean ('/' :: joinSlash xs) = '/' :: joinSlash xs := by
  have hs : NormalStack true xs.reverse :=
    normalStack_of_plain true xs.reverse (fun n hn => hp n (List.mem_reverse.mp hn))
  have := Clean_renderPath true xs.reverse hs
  simpa [renderPath] using this

/-- The directory of a rooted path of plain names is the path without its last name. -/
theorem Dir_rooted_segments (xs : List Str) (n : Str) (hxs : xs ≠ [])
    (hp : ∀ e ∈ xs, PlainName e) (hn : '/' ∉ n) :
    Dir ('/' :: joinSlash (xs ++ [n])) = '/' :: joinSlash xs := by
  have hj : joinSlash (xs ++ [n]) = joinSlash xs ++ '/' :: n := by
    rw [joinSlash_append xs [n] hxs (by simp)]; rfl
  rw [hj, ← List.cons_append, Dir_append_name _ _ hn, Clean_trailing_sep _ (by simp),
    Clean_rooted_segments xs hp]

theorem takeWhile_append_stop (p : Char → Bool) (a b : Str) (c : Char)
    (ha : ∀ x ∈ a, p x = true) (hc : p c = false) :
    (a ++ c :: b).takeWhile p = a := by
  induction a with
  | nil => simp [List.takeWhile, hc]
  | cons x a ih =>
    rw [List.cons_append, List.takeWhile_cons, if_pos (ha x (List.mem_cons_self _ _)),
      ih (fun y hy => ha y (List.mem_cons_of_mem _ hy))]

/-- The base of a path that ends in a name is that name. -/
theorem Base_append_name (x n : Str) (hne : n ≠ []) (hn : '/' ∉ n) :
    Base (x ++ '/' :: n) = n := by
  have hrev : (x ++ '/' :: n).reverse = n.reverse ++ '/' :: x.reverse := by
    simp [List.reverse_append]
  have hall : ∀ c ∈ n.reverse, (fun c => decide (c ≠ '/')) c = true := by
    intro c hc
    have : c ≠ '/' := fun h => hn (h ▸ List.mem_reverse.mp hc)
    simpa using this
  obtain ⟨c, rest, hcr⟩ := List.exists_cons_of_ne_nil (show n.reverse ≠ [] by simpa using hne)
  have hc : c ≠ '/' := by
    have := hall c (by rw [hcr]; exact List.mem_cons_self _ _)
    simpa using this
  have hdrop : ((x ++ '/' :: n).reverse.dropWhile (fun c => decide (c = '/')))
      = (x ++ '/' :: n).reverse := by
    rw [hrev, hcr, List.cons_append, List.dropWhile_cons]
    simp [hc]
  have htake : (x ++ '/' :: n).reverse.takeWhile (fun c => decide (c ≠ '/')) = n.reverse :=
    by rw [hrev]; exact takeWhile_append_stop _ _ _ _ hall (by simp)
  unfold Base
  rw [if_neg (by simp)]
  simp only [hdrop, List.reverse_reverse, htake]
  rw [if_neg hne]

theorem HasPrefix_append (a b : Str) : HasPrefix (a ++ b) a = true := by
  induction a with
  | nil => cases b <;> rfl
  | cons c a ih => simp [HasPrefix, ih]

theorem removeFirst_prefix (a b : Str) (ha : a ≠ []) : removeFirst (a ++ b) a = b := by
  obtain ⟨c, rest, rfl⟩ := List.exists_cons_of_ne_nil ha
  have := HasPrefix_append (c :: rest) b
  rw [List.cons_append] at this ⊢
  simp only [removeFirst, this, if_true]
  simp

theorem slashes_append (a b : Str) :
    ((a ++ b).filter (fun c => c = '/')).length
      = (a.filter (fun c => c = '/')).length + (b.filter (fun c => c = '/')).length := by
  rw [List.filter_append, List.length_append]

end Launcher

namespace Launcher

theorem HasPrefix_rooted_name (e pn : Str) (hne : pn ≠ []) (hpn : '/' ∉ pn) :
    HasPrefix ('/' :: e) pn = false := by
  obtain ⟨c, rest, rfl⟩ := List.exists_cons_of_ne_nil hne
  have hc : '/' ≠ c := fun h => hpn (h ▸ List.mem_cons_self _ _)
  simp [HasPrefix, hc]

theorem getProjectName_no_slash (suffix x n : Str) (hne : n ≠ []) (hn : '/' ∉ n) :
    '/' ∉ getProjectName suffix (x ++ '/' :: n) := by
  unfold getProjectName
  rw [Base_append_name x n hne hn]
  by_cases h : HasSuffix n suffix = true
  · simp only [h, if_true]
    exact fun hm => hn (List.mem_of_mem_take hm)
  · simp only [h, if_false]
    exact hn

/-- The normalization for a rooted path of plain names that ends in four names after a
non-empty front. -/
theorem normalizeEntrypoint_of_segments (suffix : Str) (pre : List Str) (a b c d : Str)
    (hpre : pre ≠ []) (hplain : ∀ n ∈ pre ++ [a, b, c, d], PlainName n)
    (hname : getProjectName suffix ('/' :: joinSlash (pre ++ [a, b, c, d])) ≠ []) :
    Clean ('/' :: joinSlash (pre ++ [a, b, c, d])) = '/' :: joinSlash (pre ++ [a, b, c, d])
      ∧ isRooted ('/' :: joinSlash (pre ++ [a, b, c, d])) = true
      ∧ Dir (Dir (Dir (Dir ('/' :: joinSlash (pre ++ [a, b, c, d])))))
          = '/' :: joinSlash pre
      ∧ normalizeEntrypoint suffix ('/' :: joinSlash (pre ++ [a, b, c, d]))
          = joinSlash [a, b, c, d]
      ∧ splitOnChar '/' (normalizeEntrypoint suffix ('/' :: joinSlash (pre ++ [a, b, c, d])))
          = [a, b, c, d]
      ∧ (Dir (Dir (Dir (Dir ('/' :: joinSlash (pre ++ [a, b, c, d]))))) ++ ['/'])
            ++ normalizeEntrypoint suffix ('/' :: joinSlash (pre ++ [a, b, c, d]))
          = '/' :: joinSlash (pre ++ [a, b, c, d]) := by
  have hp : ∀ n ∈ pre, PlainName n := fun n hn => hplain n (List.mem_append_left _ hn)
  have ha : PlainName a := hplain a (by simp)
  have hb : PlainName b := hplain b (by simp)
  have hc : PlainName c := hplain c (by simp)
  have hd : PlainName d := hplain d (by simp)
  have e4 : pre ++ [a, b, c, d] = (pre ++ [a, b, c]) ++ [d] := by simp
  have e3 : pre ++ [a, b, c] = (pre ++ [a, b]) ++ [c] := by simp
  have e2 : pre ++ [a, b] = (pre ++ [a]) ++ [b] := by simp
  have p3 : ∀ n ∈ pre ++ [a, b, c], PlainName n := by
    intro n hn; apply hplain; rw [e4]; exact List.mem_append_left _ hn
  have p2 : ∀ n ∈ pre ++ [a, b], PlainName n := by
    intro n hn; apply p3; rw [e3]; exact List.mem_append_left _ hn
  have p1 : ∀ n ∈ pre ++ [a], PlainName n := by
    intro n hn; apply p2; rw [e2]; exact List.mem_append_left _ hn
  have d1 : Dir ('/' :: joinSlash (pre ++ [a, b, c, d])) = '/' :: joinSlash (pre ++ [a, b, c]) := by
    rw [e4]; exact Dir_rooted_segments _ d (by simp) p3 hd.1.2.2
  have d2 : Dir ('/' :: joinSlash (pre ++ [a, b, c])) = '/' :: joinSlash (pre ++ [a, b]) := by
    rw [e3]; exact Dir_rooted_segments _ c (by simp) p2 hc.1.2.2
  have d3 : Dir ('/' :: joinSlash (pre ++ [a, b])) = '/' :: joinSlash (pre ++ [a]) := by
    rw [e2]; exact Dir_rooted_segments _ b (by simp) p1 hb.1.2.2
  have d4 : Dir ('/' :: joinSlash (pre ++ [a])) = '/' :: joinSlash pre :=
    Dir_rooted_segments _ a hpre hp ha.1.2.2
  have hdir : Dir (Dir (Dir (Dir ('/' :: joinSlash (pre ++ [a, b, c, d])))))
      = '/' :: joinSlash pre := by rw [d1, d2, d3, d4]
  have hsplit : '/' :: joinSlash (pre ++ [a, b, c, d])
      = ('/' :: joinSlash pre ++ ['/']) ++ joinSlash [a, b, c, d] := by
    rw [joinSlash_append pre [a, b, c, d] hpre (by simp)]
    simp
  have hlast : '/' :: joinSlash (pre ++ [a, b, c, d])
      = ('/' :: joinSlash (pre ++ [a, b, c])) ++ '/' :: d := by
    rw [e4, joinSlash_append (pre ++ [a, b, c]) [d] (by simp) (by simp)]
    rfl
  have hcount : (('/' :: joinSlash (pre ++ [a, b, c, d])).filter (fun c => c = '/')).length
      > 3 := by
    rw [hsplit, slashes_append]
    have h4 : joinSlash [a, b, c, d] = a ++ '/' :: (b ++ '/' :: (c ++ '/' :: d)) := rfl
    rw [h4]
    simp only [List.filter_append, List.filter_cons, List.length_append, List.length_cons,
      decide_True, if_true, List.filter_nil, List.length_nil]
    omega
  have hpn : '/' ∉ getProjectName suffix ('/' :: joinSlash (pre ++ [a, b, c, d])) := by
    rw [hlast]; exact getProjectName_no_slash suffix _ d hd.1.1 hd.1.2.2
  have hnp : HasPrefix ('/' :: joinSlash (pre ++ [a, b, c, d]))
      (getProjectName suffix ('/' :: joinSlash (pre ++ [a, b, c, d]))) = false :=
    HasPrefix_rooted_name _ _ hname hpn
  have hnorm : normalizeEntrypoint suffix ('/' :: joinSlash (pre ++ [a, b, c, d]))
      = joinSlash [a, b, c, d] := by
    simp only [normalizeEntrypoint, hcount, if_true, hnp, hdir]
    rw [hsplit]
    exact removeFirst_prefix _ _ (by simp)
  refine ⟨Clean_rooted_segments _ hplain, rfl, hdir, hnorm, ?_, ?_⟩
  · rw [hnorm]
    exact splitOnChar_joinSlash [a, b, c, d] (by simp) (by
      intro e he
      exact (hplain e (List.mem_append_right _ he)).1.2.2)
  · rw [hnorm, hdir, ← hsplit]

end Launcher

namespace Launcher

theorem plain_of_normalStack_rooted (l : List Str) (h : NormalStack true l) :
    ∀ n ∈ l, PlainName n := by
  induction l with
  | nil => intro n hn; cases hn
  | cons e rest ih =>
    intro n hn
    rcases List.mem_cons.mp hn with rfl | hn
    · refine ⟨h.1, fun he => ?_⟩
      have := (h.2.2 he).1
      cases this
    · exact ih h.2.1 n hn

/-- Every clean absolute path is the root separator followed by plain names joined by
separators; with at least five of them, it ends in four names after a non-empty front. -/
theorem clean_rooted_shape (p : Str) (hclean : Clean p = p) (hroot : isRooted p = true) :
    ∃ segs, (∀ n ∈ segs, PlainName n) ∧ p = '/' :: joinSlash segs
      ∧ (5 ≤ segs.length → ∃ pre a b c d, pre ≠ [] ∧ segs = pre ++ [a, b, c, d]) := by
  have hne : p ≠ [] := by
    intro h; rw [h] at hroot; cases hroot
  have hrender : p = '/' :: joinSlash (cleanStack p).reverse := by
    have h := hclean
    unfold Clean at h
    rw [if_neg hne, hroot] at h
    simpa [renderPath] using h.symm
  have hplain := plain_of_normalStack_rooted (cleanStack p)
    (by have := cleanStack_normal p; rwa [hroot] at this)
  refine ⟨(cleanStack p).reverse, fun n hn => hplain n (List.mem_reverse.mp hn), hrender, ?_⟩
  intro hlen
  generalize (cleanStack p).reverse = segs at hlen
  have hl : segs.reverse.length = segs.length := List.length_reverse segs
  have hs : segs = segs.reverse.reverse := (List.reverse_reverse segs).symm
  rcases hrev : segs.reverse with _ | ⟨d, _ | ⟨c, _ | ⟨b, _ | ⟨a, _ | ⟨x, rest⟩⟩⟩⟩⟩
  · rw [hrev] at hl; simp only [List.length_nil] at hl; omega
  · rw [hrev] at hl; simp only [List.length_cons, List.length_nil] at hl; omega
  · rw [hrev] at hl; simp only [List.length_cons, List.length_nil] at hl; omega
  · rw [hrev] at hl; simp only [List.length_cons, List.length_nil] at hl; omega
  · rw [hrev] at hl; simp only [List.length_cons, List.length_nil] at hl; omega
  · refine ⟨(x :: rest).reverse, a, b, c, d, by simp, ?_⟩
    rw [hs, hrev]
    simp

end Launcher

namespace Launcher

theorem segments_rooted (segs : List Str) (hp : ∀ n ∈ segs, PlainName n) :
    segments ('/' :: joinSlash segs) = segs := by
  unfold segments
  rw [splitOnChar_sep_cons]
  by_cases hne : segs = []
  · subst hne; rfl
  · rw [splitOnChar_joinSlash segs hne (fun e he => (hp e he).1.2.2)]
    simp only [List.filter_cons, ne_eq, not_true_eq_false, decide_False, Bool.false_eq_true,
      if_false]
    rw [List.filter_eq_self]
    intro e he
    simpa using (hp e he).1.1

theorem segments_relative (segs : List Str) (hne : segs ≠ []) (hp : ∀ n ∈ segs, PlainName n) :
    segments (joinSlash segs) = segs := by
  unfold segments
  rw [splitOnChar_joinSlash segs hne (fun e he => (hp e he).1.2.2), List.filter_eq_self]
  intro e he
  simpa using (hp e he).1.1

/-- C22: for every clean absolute path of at least five segments whose project name is not
empty, the project directory of `runApp` (four times the directory of the entrypoint,
followed by a separator) is the path without its last four segments followed by a
separator; the normalized entrypoint is the last four segments joined, it has exactly
these four segments, and the project directory followed by it is the original
entrypoint. -/
theorem normalizeEntrypoint_root_relative (suffix p : Str) (hclean : Clean p = p)
    (hroot : isRooted p = true) (hsegs : 5 ≤ (segments p).length)
    (hname : getProjectName suffix p ≠ []) :
    ∃ pre a b c d, pre ≠ [] ∧ segments p = pre ++ [a, b, c, d]
      ∧ Dir (Dir (Dir (Dir p))) ++ ['/'] = '/' :: joinSlash pre ++ ['/']
      ∧ normalizeEntrypoint suffix p = joinSlash [a, b, c, d]
      ∧ segments (normalizeEntrypoint suffix p) = [a, b, c, d]
      ∧ (Dir (Dir (Dir (Dir p))) ++ ['/']) ++ normalizeEntrypoint suffix p = p := by
  obtain ⟨segs, hplain, hp, hshape⟩ := clean_rooted_shape p hclean hroot
  have hseg : segments p = segs := by rw [hp]; exact segments_rooted segs hplain
  rw [hseg] at hsegs
  obtain ⟨pre, a, b, c, d, hpre, hsegs4⟩ := hshape hsegs
  subst hsegs4
  subst hp
  obtain ⟨_, _, h3, h4, _, h6⟩ :=
    normalizeEntrypoint_of_segments suffix pre a b c d hpre hplain hname
  refine ⟨pre, a, b, c, d, hpre, hseg, by rw [h3], h4, ?_, h6⟩
  rw [h4]
  exact segments_relative [a, b, c, d] (by simp)
    (fun n hn => hplain n (List.mem_append_right _ hn))

/-- Witness for `normalizeEntrypoint_root_relative`: the installed executable of the
project `Demo`. -/
theorem normalizeEntrypoint_root_relative_witness :
    Clean "/srv/apps/Demo/Binaries/Linux/DemoTest".toList
        = "/srv/apps/Demo/Binaries/Linux/DemoTest".toList
      ∧ isRooted "/srv/apps/Demo/Binaries/Linux/DemoTest".toList = true
      ∧ 5 ≤ (segments "/srv/apps/Demo/Binaries/Linux/DemoTest".toList).length
      ∧ getProjectName "Test".toList "/srv/apps/Demo/Binaries/Linux/DemoTest".toList ≠ []
      ∧ ∃ pre a b c d, pre ≠ []
        ∧ segments "/srv/apps/Demo/Binaries/Linux/DemoTest".toList = pre ++ [a, b, c, d]
        ∧ Dir (Dir (Dir (Dir "/srv/apps/Demo/Binaries/Linux/DemoTest".toList))) ++ ['/']
            = '/' :: joinSlash pre ++ ['/']
        ∧ normalizeEntrypoint "Test".toList "/srv/apps/Demo/Binaries/Linux/DemoTest".toList
            = joinSlash [a, b, c, d]
        ∧ segments (normalizeEntrypoint "Test".toList
            "/srv/apps/Demo/Binaries/Linux/DemoTest".toList) = [a, b, c, d]
        ∧ (Dir (Dir (Dir (Dir "/srv/apps/Demo/Binaries/Linux/DemoTest".toList))) ++ ['/'])
              ++ normalizeEntrypoint "Test".toList
                "/srv/apps/Demo/Binaries/Linux/DemoTest".toList
            = "/srv/apps/Demo/Binaries/Linux/DemoTest".toList :=
  ⟨by decide, by decide, by decide, by decide,
    normalizeEntrypoint_root_relative "Test".toList
      "/srv/apps/Demo/Binaries/Linux/DemoTest".toList (by decide) (by decide) (by decide)
      (by decide)⟩

end Launcher

namespace Launcher

/-! ## The entrypoint is the last candidate of the walk -/

/-- The result of the walk over files whose header check reports no error: the entrypoint
given at the start when no file is a candidate, and otherwise the path of the last
candidate. -/
theorem scanFiles_last_candidate (isExecutable : List Nat → Option Bool) (suffix : Str)
    (l : List (Str × List Nat)) :
    ∀ entrypoint : Str,
      (∀ e ∈ l, pathAccepted suffix e.1 = true → isExecutable e.2 ≠ none) →
      (scanFiles isExecutable suffix l entrypoint = entrypoint
          ∧ ∀ e ∈ l, isCandidate isExecutable suffix e = false)
        ∨ ∃ pre e post, l = pre ++ e :: post ∧ isCandidate isExecutable suffix e = true
            ∧ (∀ x ∈ post, isCandidate isExecutable suffix x = false)
            ∧ scanFiles isExecutable suffix l entrypoint = e.1 := by
  induction l with
  | nil => intro entrypoint _; exact Or.inl ⟨rfl, fun e he => by cases he⟩
  | cons f rest ih =>
    intro entrypoint hok
    have hrest : ∀ e ∈ rest, pathAccepted suffix e.1 = true → isExecutable e.2 ≠ none :=
      fun e he => hok e (List.mem_cons_of_mem _ he)
    obtain ⟨path, content⟩ := f
    by_cases hacc : pathAccepted suffix path = true
    · have hacc2 : (HasSuffix path suffix && Contains path "Binaries".toList
          && !Contains path "Engine".toList && !Contains path "EpicWebHelper".toList) = true :=
        hacc
      cases hx : isExecutable content with
      | none => exact absurd hx (hok (path, content) (List.mem_cons_self _ _) hacc)
      | some b =>
        cases b with
        | true =>
          have hstep : scanFiles isExecutable suffix ((path, content) :: rest) entrypoint
              = scanFiles isExecutable suffix rest path := by
            simp only [scanFiles, hacc2, if_true, hx]
          have hcand : isCandidate isExecutable suffix (path, content) = true := by
            simp only [isCandidate, hacc, hx, decide_True, Bool.and_self]
          rcases ih path hrest with ⟨h1, h2⟩ | ⟨pre, e, post, h1, h2, h3, h4⟩
          · exact Or.inr ⟨[], (path, content), rest, rfl, hcand, h2, by rw [hstep, h1]⟩
          · exact Or.inr ⟨(path, content) :: pre, e, post, by rw [h1]; rfl, h2, h3,
              by rw [hstep, h4]⟩
        | false =>
          have hstep : scanFiles isExecutable suffix ((path, content) :: rest) entrypoint
              = scanFiles isExecutable suffix rest entrypoint := by
            simp only [scanFiles, hacc2, if_true, hx]
          have hcand : isCandidate isExecutable suffix (path, content) = false := by
            simp [isCandidate, hx]
          rcases ih entrypoint hrest with ⟨h1, h2⟩ | ⟨pre, e, post, h1, h2, h3, h4⟩
          · refine Or.inl ⟨by rw [hstep, h1], fun e he => ?_⟩
            rcases List.mem_cons.mp he with rfl | he
            · exact hcand
            · exact h2 e he
          · exact Or.inr ⟨(path, content) :: pre, e, post, by rw [h1]; rfl, h2, h3,
              by rw [hstep, h4]⟩
    · have hacc2 : ¬ (HasSuffix path suffix && Contains path "Binaries".toList
          && !Contains path "Engine".toList && !Contains path "EpicWebHelper".toList) = true :=
        hacc
      have hstep : scanFiles isExecutable suffix ((path, content) :: rest) entrypoint
          = scanFiles isExecutable suffix rest entrypoint := by
        simp only [scanFiles, hacc2, Bool.false_eq_true, if_false]
      have hcand : isCandidate isExecutable suffix (path, content) = false := by
        simp [isCandidate, hacc]
      rcases ih entrypoint hrest with ⟨h1, h2⟩ | ⟨pre, e, post, h1, h2, h3, h4⟩
      · refine Or.inl ⟨by rw [hstep, h1], fun e he => ?_⟩
        rcases List.mem_cons.mp he with rfl | he
        · exact hcand
        · exact h2 e he
      · exact Or.inr ⟨(path, content) :: pre, e, post, by rw [h1]; rfl, h2, h3,
          by rw [hstep, h4]⟩

theorem findEntrypoint_of_walk (isExecutable : List Nat → Option Bool) (suffix : Str) (fs : FS)
    (w root : Str) :
    findEntrypoint isExecutable suffix fs (some w) root
      = (if scanFiles isExecutable suffix (visitedFiles fs w root) [] = [] then
          .error "no entrypoint found"
        else .ok (absFrom w (scanFiles isExecutable suffix (visitedFiles fs w root) []))) := by
  simp only [findEntrypoint, visitedFiles, absFrom]
  split
  · rfl
  · split <;> rfl

theorem visitedFiles_path (fs : FS) (w root : Str) (hroot : root ≠ []) :
    ∀ e ∈ visitedFiles fs w root, e.1 ≠ [] := by
  intro e he
  simp only [visitedFiles, List.mem_map] at he
  obtain ⟨x, _, rfl⟩ := he
  simp [hroot]

end Launcher

namespace Launcher

/-- C21 (as the code has it): when the header check reports no error for the files whose
path passes the tests, `findEntrypoint` returns its error exactly when the walk visits no
candidate, where a candidate is a regular file whose path, as the walk reports it, ends
with the binary suffix, contains the text `Binaries`, contains neither the text `Engine`
nor the text `EpicWebHelper`, and is accepted by the header check; when it succeeds, the
result is the absolute path of the last candidate in walk order. -/
theorem findEntrypoint_error_iff_no_candidate (isExecutable : List Nat → Option Bool)
    (suffix : Str) (fs : FS) (w root : Str) (hroot : root ≠ [])
    (hwalk : ∀ e ∈ visitedFiles fs w root,
      pathAccepted suffix e.1 = true → isExecutable e.2 ≠ none) :
    ((∃ msg, findEntrypoint isExecutable suffix fs (some w) root = .error msg) ↔
        ∀ e ∈ visitedFiles fs w root, isCandidate isExecutable suffix e = false)
      ∧ (∀ msg, findEntrypoint isExecutable suffix fs (some w) root = .error msg →
          msg = "no entrypoint found")
      ∧ (∀ found, findEntrypoint isExecutable suffix fs (some w) root = .ok found →
          ∃ pre e post, visitedFiles fs w root = pre ++ e :: post
            ∧ isCandidate isExecutable suffix e = true
            ∧ (∀ x ∈ post, isCandidate isExecutable suffix x = false)
            ∧ found = absFrom w e.1) := by
  have hfe := findEntrypoint_of_walk isExecutable suffix fs w root
  rcases scanFiles_last_candidate isExecutable suffix (visitedFiles fs w root) [] hwalk with
    ⟨h1, h2⟩ | ⟨pre, e, post, h1, h2, h3, h4⟩
  · rw [h1, if_pos rfl] at hfe
    rw [hfe]
    refine ⟨⟨fun _ => h2, fun _ => ⟨_, rfl⟩⟩, fun msg h => ?_, fun found h => (by cases h)⟩
    injection h with h
    exact h.symm
  · have hmem : e ∈ visitedFiles fs w root := by rw [h1]; simp
    have hne : e.1 ≠ [] := visitedFiles_path fs w root hroot e hmem
    rw [h4, if_neg hne] at hfe
    rw [hfe]
    refine ⟨⟨fun ⟨msg, h⟩ => (by cases h), fun h => ?_⟩, fun msg h => (by cases h),
      fun found h => ?_⟩
    · have := h e hmem
      rw [h2] at this
      cases this
    · injection h with h
      exact ⟨pre, e, post, h1, h2, h3, h.symm⟩

set_option maxRecDepth 100000 in
/-- Witness for `findEntrypoint_error_iff_no_candidate`: the installed project `Demo`. -/
theorem findEntrypoint_error_iff_no_candidate_witness :
    runApp_searchRoot (uuidOfByte 10) archiveRelease ≠ []
      ∧ (∀ e ∈ visitedFiles gameFS sampleWd (runApp_searchRoot (uuidOfByte 10) archiveRelease),
          pathAccepted "Test".toList e.1 = true → (fun _ => some true) e.2 ≠ none)
      ∧ ∃ pre e post,
          visitedFiles gameFS sampleWd (runApp_searchRoot (uuidOfByte 10) archiveRelease)
            = pre ++ e :: post
          ∧ isCandidate (fun _ => some true) "Test".toList e = true
          ∧ (∀ x ∈ post, isCandidate (fun _ => some true) "Test".toList x = false)
          ∧ Join [sampleWd, runApp_searchRoot (uuidOfByte 10) archiveRelease,
              "Demo/Binaries/Linux/DemoTest".toList] = absFrom sampleWd e.1 :=
  ⟨by decide, fun _ _ _ hc => (by cases hc),
    (findEntrypoint_error_iff_no_candidate (fun _ => some true) "Test".toList gameFS
      sampleWd (runApp_searchRoot (uuidOfByte 10) archiveRelease) (by decide)
      (fun _ _ _ hc => (by cases hc))).2.2 _ (by decide)⟩

set_option maxRecDepth 100000 in
/-- C21 (as stated) fails in both directions. In the tree of the project `GameEngine` the
executable `GameEngine/Binaries/Linux/GameEngineTest` is a candidate by segments (a segment
is `Binaries`, none is `Engine`), and `findEntrypoint` returns its error, since the path
contains the text `Engine`. In the tree with `Demo/MyBinaries/DemoTest` no file has a
segment `Binaries`, and `findEntrypoint` returns that file, since the path contains the
text `Binaries`. -/
theorem findEntrypoint_tests_text_not_segments :
    findEntrypoint (fun _ => some true) "Test".toList gameEngineFS (some sampleWd)
        (runApp_searchRoot (uuidOfByte 10) archiveRelease) = .error "no entrypoint found"
      ∧ (visitedFiles gameEngineFS sampleWd
          (runApp_searchRoot (uuidOfByte 10) archiveRelease)).any
            (isSegmentCandidate (fun _ => some true) "Test".toList) = true
      ∧ findEntrypoint (fun _ => some true) "Test".toList myBinariesFS (some sampleWd)
          (runApp_searchRoot (uuidOfByte 10) archiveRelease)
        = .ok (Join [sampleWd, runApp_searchRoot (uuidOfByte 10) archiveRelease,
            "Demo/MyBinaries/DemoTest".toList])
      ∧ (visitedFiles myBinariesFS sampleWd
          (runApp_searchRoot (uuidOfByte 10) archiveRelease)).any
            (isSegmentCandidate (fun _ => some true) "Test".toList) = false := by
  refine ⟨by decide, by decide, by decide, by decide⟩

end Launcher

namespace Launcher

/-! ## The temporary download path after an archive installation -/

theorem TempDir_plain : PlainName TempDir := by
  simp [PlainName, KeptElem, TempDir]

theorem DownloadDir_plain : PlainName DownloadDir := by
  simp [PlainName, KeptElem, DownloadDir]

theorem HasPrefix_append_left (a s p : Str) : HasPrefix (a ++ s) (a ++ p) = HasPrefix s p := by
  induction a with
  | nil => rfl
  | cons c a ih =>
    simp only [List.cons_append, HasPrefix, decide_True, Bool.true_and]
    exact ih

theorem HasPrefix_self_append (a b : Str) : HasPrefix (a ++ b) a = true := by
  induction a with
  | nil => cases b <;> rfl
  | cons c a ih =>
    simp only [List.cons_append, HasPrefix, decide_True, Bool.true_and]
    exact ih

theorem ne_of_HasPrefix (p q pre : Str) (hp : HasPrefix p pre = true)
    (hq : HasPrefix q pre = false) : q ≠ p := by
  intro h
  rw [h, hp] at hq
  cases hq

/-- For a clean absolute working directory and a version without a separator, the temporary
download path lies outside the install directory and is not its version file. -/
theorem temp_outside_install (wd : Str) (appId : UUID) (release : ReleaseV2)
    (hroot : isRooted wd = true) (hclean : Clean wd = wd) (hver : '/' ∉ release.Version) :
    HasPrefix (installAppReleaseArchive_tempDownloadPath wd appId release)
        (Clean (installAppReleaseArchive_appInstallationPath wd appId release) ++ ['/']) = false
      ∧ installAppReleaseArchive_tempDownloadPath wd appId release
          ≠ versionFile (installAppReleaseArchive_appInstallationPath wd appId release) := by
  have hname := releaseDirName_plain release hver
  have hid := UUID_String_plain appId
  have hwd : wd ≠ [] := by
    intro h; rw [h] at hroot; simp [isRooted] at hroot
  have htemp : installAppReleaseArchive_tempDownloadPath wd appId release
      = (if wd = ['/'] then [] else wd) ++ '/' :: joinSlash [TempDir, DownloadDir,
          appId.String, release.Id.String ++ "-".toList ++ release.Version] := by
    unfold installAppReleaseArchive_tempDownloadPath
    apply Join_clean_absolute wd _ hroot hclean (by simp)
    intro n hm
    simp only [List.mem_cons, List.mem_singleton, List.not_mem_nil, or_false] at hm
    rcases hm with rfl | rfl | rfl | rfl
    · exact TempDir_plain
    · exact DownloadDir_plain
    · exact hid
    · exact hname
  have hinst : installAppReleaseArchive_appInstallationPath wd appId release
      = (if wd = ['/'] then [] else wd) ++ '/' :: joinSlash [AppDir,
          appId.String, release.Id.String ++ "-".toList ++ release.Version] := by
    unfold installAppReleaseArchive_appInstallationPath
    apply Join_clean_absolute wd _ hroot hclean (by simp)
    intro n hm
    simp only [List.mem_cons, List.mem_singleton, List.not_mem_nil, or_false] at hm
    rcases hm with rfl | rfl | rfl
    · exact AppDir_plain
    · exact hid
    · exact hname
  have hcleaninst : Clean (installAppReleaseArchive_appInstallationPath wd appId release)
      = installAppReleaseArchive_appInstallationPath wd appId release := by
    have : installAppReleaseArchive_appInstallationPath wd appId release
        = Clean (joinSlash [wd, AppDir, appId.String,
            release.Id.String ++ "-".toList ++ release.Version]) := by
      simp only [installAppReleaseArchive_appInstallationPath, Join, hwd, if_false]
    rw [this, Clean_idempotent]
  have hrootinst : isRooted (installAppReleaseArchive_appInstallationPath wd appId release)
      = true := by
    rw [hinst]
    by_cases h1 : wd = ['/']
    · simp [h1, isRooted]
    · simp only [h1, if_false]
      cases wd with
      | nil => exact absurd rfl hwd
      | cons c rest => simpa [isRooted] using hroot
  have hne1 : installAppReleaseArchive_appInstallationPath wd appId release ≠ ['/'] := by
    rw [hinst]
    intro h
    have hl := congrArg List.length h
    simp [joinSlash, AppDir] at hl
    omega
  have hvf : versionFile (installAppReleaseArchive_appInstallationPath wd appId release)
      = installAppReleaseArchive_appInstallationPath wd appId release
          ++ '/' :: ".version".toList := by
    unfold versionFile
    rw [Join_clean_absolute _ _ hrootinst hcleaninst (by simp)
      (by intro n hm; simp only [List.mem_singleton] at hm; rw [hm]; exact versionName_plain)]
    simp only [hne1, if_false, joinSlash]
  constructor
  · rw [hcleaninst, htemp, hinst]
    have hassoc : ∀ a b c : Str, (a ++ b) ++ c = a ++ (b ++ c) := List.append_assoc
    rw [hassoc (if wd = ['/'] then [] else wd), HasPrefix_append_left]
    simp [joinSlash, TempDir, AppDir, HasPrefix]
  · rw [hvf, htemp, hinst]
    have hassoc : ∀ a b c : Str, (a ++ b) ++ c = a ++ (b ++ c) := List.append_assoc
    rw [hassoc (if wd = ['/'] then [] else wd)]
    intro h
    have h2 := List.append_cancel_left h
    simp [joinSlash, TempDir, AppDir] at h2

/-- The `os.MkdirAll` leaves every node of the table as it is. -/
theorem FS.mkdirAll_lookup (fs fs1 : FS) (p q : Str) (n : Node) (hq : fs.lookup q = some n)
    (h : fs.mkdirAll p = some fs1) : fs1.lookup q = some n := by
  unfold FS.mkdirAll at h
  generalize ancestors p = l at h
  induction l generalizing fs with
  | nil =>
    simp only [List.foldl_nil, Option.some.injEq] at h
    rw [← h]; exact hq
  | cons a rest ih =>
    simp only [List.foldl_cons] at h
    cases ha : fs.lookup a with
    | none =>
      rw [ha] at h
      simp only [] at h
      have hne : q ≠ a := by
        intro hc; rw [hc, ha] at hq; cases hq
      exact ih (fs.put a .dir) (by rw [FS.lookup_put_ne _ _ _ _ hne]; exact hq) h
    | some nd =>
      cases nd with
      | dir =>
        rw [ha] at h
        simp only [] at h
        exact ih fs hq h
      | file c =>
        rw [ha] at h
        simp only [] at h
        exfalso
        have hnone : ∀ l : List Str, List.foldl (fun acc q =>
            match acc with
            | none => none
            | some s =>
              match s.lookup q with
              | some .dir => some s
              | some (.file _) => none
              | none => some (s.put q .dir)) (none : Option FS) l = none := by
          intro l
          induction l with
          | nil => rfl
          | cons x xs ihx => simpa using ihx
        have h3 : (none : Option FS) = some fs1 := (hnone rest).symm.trans h
        cases h3

/-- The extraction of one member leaves every regular file outside the destination as it
is. -/
theorem extractAndWriteFile_lookup_outside (fs : FS) (dest : Str) (f : ZipEntry) (q : Str)
    (c : List Nat) (hq : fs.lookup q = some (.file c))
    (hout : HasPrefix q (Clean dest ++ ['/']) = false) :
    (extractAndWriteFile fs dest f).1.lookup q = some (.file c) := by
  by_cases ho : f.openOk = false
  · simp only [extractAndWriteFile, ho, Bool.true_eq_false, if_true]; exact hq
  · by_cases hp : HasPrefix (Join [dest, f.Name]) (Clean dest ++ ['/']) = false
    · simp only [extractAndWriteFile, ho, Bool.true_eq_false, hp, if_true, if_false]; exact hq
    · have hp1 : HasPrefix (Join [dest, f.Name]) (Clean dest ++ ['/']) = true := by
        simpa using hp
      have hne : q ≠ Join [dest, f.Name] := ne_of_HasPrefix _ _ _ hp1 hout
      by_cases hd : f.IsDir = true
      · cases hm : fs.mkdirAll (Join [dest, f.Name]) with
        | none => simp only [extractAndWriteFile, ho, Bool.true_eq_false, hp, hd, if_true, if_false, hm]; exact hq
        | some fs1 =>
          simp only [extractAndWriteFile, ho, Bool.true_eq_false, hp, hd, if_true, if_false, hm]
          exact FS.mkdirAll_lookup fs fs1 _ q _ hq hm
      · cases hm : fs.mkdirAll (Dir (Join [dest, f.Name])) with
        | none =>
          simp only [extractAndWriteFile, ho, Bool.true_eq_false, hp, hd, Bool.false_eq_true, if_false, hm]
          exact hq
        | some fs1 =>
          have h1 := FS.mkdirAll_lookup fs fs1 _ q _ hq hm
          cases hc : fs1.create (Join [dest, f.Name]) with
          | none =>
            simp only [extractAndWriteFile, ho, Bool.true_eq_false, hp, hd, Bool.false_eq_true, if_false, hm, hc]
            exact h1
          | some fs2 =>
            have h2 : fs2.lookup q = some (.file c) := by
              unfold FS.create at hc
              split at hc
              · injection hc with hc
                rw [← hc, FS.lookup_put_ne _ _ _ _ hne]; exact h1
              · cases hc
            by_cases hcp : f.copyOk = true
            · simp only [extractAndWriteFile, ho, Bool.true_eq_false, hp, hd, Bool.false_eq_true, if_false, hm,
                hc, hcp, if_true]
              rw [FS.lookup_put_ne _ _ _ _ hne]; exact h2
            · simp only [extractAndWriteFile, ho, Bool.true_eq_false, hp, hd, Bool.false_eq_true, if_false, hm,
                hc, hcp]
              rw [FS.lookup_put_ne _ _ _ _ hne]; exact h2

theorem extractEntries_lookup_outside (dest : Str) (q : Str) (c : List Nat)
    (hout : HasPrefix q (Clean dest ++ ['/']) = false) (members : List ZipEntry) :
    ∀ fs : FS, fs.lookup q = some (.file c) →
      (extractEntries fs dest members).1.lookup q = some (.file c) := by
  induction members with
  | nil => intro fs hq; exact hq
  | cons f rest ih =>
    intro fs hq
    have h1 := extractAndWriteFile_lookup_outside fs dest f q c hq hout
    rcases hx : extractAndWriteFile fs dest f with ⟨fs1, res⟩
    rw [hx] at h1
    cases res with
    | error e => simp only [extractEntries, hx]; exact h1
    | ok u => simp only [extractEntries, hx]; exact ih fs1 h1

/-- The extraction leaves every regular file outside the destination as it is. -/
theorem ExtractArchive_lookup_outside (unzip : List Nat → Option (List ZipEntry)) (fs : FS)
    (archivePath dest q : Str) (c : List Nat) (hq : fs.lookup q = some (.file c))
    (hout : HasPrefix q (Clean dest ++ ['/']) = false) :
    (ExtractArchive unzip fs archivePath dest).1.lookup q = some (.file c) := by
  cases hr : fs.readFile archivePath with
  | none => simp only [ExtractArchive, hr]; exact hq
  | some bytes =>
    cases hu : unzip bytes with
    | none => simp only [ExtractArchive, hr, hu]; exact hq
    | some members =>
      cases hm : fs.mkdirAll dest with
      | none => simp only [ExtractArchive, hr, hu, hm]; exact hq
      | some fs1 =>
        simp only [ExtractArchive, hr, hu, hm]
        exact extractEntries_lookup_outside dest q c hout members fs1
          (FS.mkdirAll_lookup fs fs1 _ q _ hq hm)

/-- The `WriteVersion` touches the version file only. -/
theorem WriteVersion_lookup_ne (fs : FS) (dir : Str) (v : Version) (q : Str)
    (hq : q ≠ versionFile dir) : (WriteVersion fs dir v).1.lookup q = fs.lookup q := by
  have hcreate : ∀ s s1 : FS, s.create (versionFile dir) = some s1 →
      s1.lookup q = s.lookup q := by
    intro s s1 h
    unfold FS.create at h
    split at h
    · injection h with h
      rw [← h, FS.lookup_put_ne _ _ _ _ hq]
    · cases h
  have hremove : ∀ s s1 : FS, s.remove (versionFile dir) = some s1 →
      s1.lookup q = s.lookup q := by
    intro s s1 h
    unfold FS.remove at h
    split at h
    · injection h with h
      rw [← h, FS.lookup_erase_ne _ _ _ hq]
    · split at h
      · cases h
      · injection h with h
        rw [← h, FS.lookup_erase_ne _ _ _ hq]
    · cases h
  have hwrite : ∀ (s s1 : FS) (data : List Nat), s.writeFile (versionFile dir) data = some s1 →
      s1.lookup q = s.lookup q := by
    intro s s1 data h
    unfold FS.writeFile at h
    split at h
    · injection h with h
      rw [← h, FS.lookup_put_ne _ _ _ _ hq]
    · cases h
  cases hs : fs.stat (versionFile dir) with
  | error e =>
    cases e with
    | other => simp only [WriteVersion, hs]
    | notExist =>
      cases hc : fs.create (versionFile dir) with
      | none => simp only [WriteVersion, hs, hc]
      | some fs1 =>
        cases hw : fs1.writeFile (versionFile dir)
            (putUint32 (toUint32 v.major) ++ putUint32 (toUint32 v.minor)
              ++ putUint32 (toUint32 v.patch)) with
        | none => simp only [WriteVersion, hs, hc, hw]; exact hcreate fs fs1 hc
        | some fs2 =>
          simp only [WriteVersion, hs, hc, hw]
          exact (hwrite fs1 fs2 _ hw).trans (hcreate fs fs1 hc)
  | ok n =>
    cases hc : fs.remove (versionFile dir) with
    | none => simp only [WriteVersion, hs, hc]
    | some fs1 =>
      cases hw : fs1.writeFile (versionFile dir)
          (putUint32 (toUint32 v.major) ++ putUint32 (toUint32 v.minor)
            ++ putUint32 (toUint32 v.patch)) with
      | none => simp only [WriteVersion, hs, hc, hw]; exact hremove fs fs1 hc
      | some fs2 =>
        simp only [WriteVersion, hs, hc, hw]
        exact (hwrite fs1 fs2 _ hw).trans (hremove fs fs1 hc)

/-- A download that returns no error leaves a regular file at the path. -/
theorem DownloadFile_ok_lookup (http : Str → HttpAnswer) (fs : FS) (path url : Str)
    (counter : Option DownloadProgressTracker)
    (h : (DownloadFile http fs path url counter).result = .ok ()) :
    ∃ content, (DownloadFile http fs path url counter).fs.lookup path
      = some (.file content) := by
  have hfetch : ∀ fs1 : FS, (fetchToFile http fs1 path url counter).result = .ok () →
      ∃ content, (fetchToFile http fs1 path url counter).fs.lookup path
        = some (.file content) := by
    intro fs1 h1
    cases hh : http url with
    | transportError => simp only [fetchToFile, hh] at h1; cases h1
    | response statusCode contentLength chunks readOk =>
      by_cases hst : ¬ statusCode = 200
      · simp only [fetchToFile, hh, ne_eq, hst, not_false_eq_true, if_true] at h1; cases h1
      · rw [not_not] at hst
        subst hst
        cases hm : fs1.mkdirAll (Dir path) with
        | none => simp only [fetchToFile, hh, ne_eq, not_true_eq_false, if_false, hm] at h1; cases h1
        | some fs2 =>
          cases hc : fs2.create path with
          | none => simp only [fetchToFile, hh, ne_eq, not_true_eq_false, if_false, hm, hc] at h1; cases h1
          | some fs3 =>
            by_cases hr : readOk = true
            · simp only [fetchToFile, hh, ne_eq, not_true_eq_false, if_false, hm, hc, hr, if_true]
              exact ⟨_, FS.lookup_put_same _ _ _⟩
            · simp only [fetchToFile, hh, ne_eq, not_true_eq_false, if_false, hm, hc, hr, Bool.false_eq_true]
                at h1
              cases h1
  cases hs : fs.stat path with
  | ok n =>
    cases hr : fs.remove path with
    | none => simp only [DownloadFile, hs, hr] at h; cases h
    | some fs1 =>
      simp only [DownloadFile, hs, hr] at h ⊢
      exact hfetch fs1 h
  | error e =>
    cases e with
    | notExist =>
      simp only [DownloadFile, hs] at h ⊢
      exact hfetch fs h
    | other => simp only [DownloadFile, hs] at h; cases h

end Launcher

namespace Launcher

/-- C12 (as the code has it): in archive mode, for a clean absolute working directory and a
version without a separator. When the download fails nothing more is done: the call returns
the download error with the file system as `DownloadFile` has left it. After a successful
download the downloaded archive is a regular file at the temporary download path, and it is
still there, unchanged, when the call returns the error of the extraction, of the parsing of
the version, of the writing of the version file, or of the removal itself. The removal is
reached only when the extraction, the parsing and the writing have all succeeded; when it
succeeds the call returns no error and the path is absent. So, after a successful download,
the path is absent exactly when the call returns no error. A regular file that lies at the
path beforehand is gone after a download that fails at the request (the request cannot be
sent, or the status is not 200): `DownloadFile` deletes it first. -/
theorem installAppReleaseArchive_temp_path (http : Str → HttpAnswer)
    (unzip : List Nat → Option (List ZipEntry)) (removeAllOk : Str → Bool) (fs : FS)
    (wd : Str) (appId : UUID) (release : ReleaseV2) (entities : List File) (archive : File)
    (size : Int)
    (hfiles : release.Files = some entities) (harchive : findArchive entities = some archive)
    (hsize : archive.Size = some size)
    (hroot : isRooted wd = true) (hclean : Clean wd = wd) (hver : '/' ∉ release.Version) :
    let temp := installAppReleaseArchive_tempDownloadPath wd appId release
    let inst := installAppReleaseArchive_appInstallationPath wd appId release
    let d := DownloadFile http fs temp archive.Url
      (some (NewDownloadProgressTracker (toUint64 size)))
    let x := ExtractArchive unzip d.fs temp inst
    let r := installAppReleaseArchive http unzip removeAllOk fs (some wd) appId release
    (d.result ≠ .ok () → r.result = .err "failed to download file" ∧ r.fs = d.fs)
      ∧ (d.result = .ok () → ∃ content, d.fs.lookup temp = some (.file content)
          ∧ (x.2 ≠ .ok () →
              r.result = .err "failed to extract archive"
                ∧ r.fs.lookup temp = some (.file content))
          ∧ (x.2 = .ok () → NewVersion release.Version = none →
              r.result = .err "failed to parse release version"
                ∧ r.fs.lookup temp = some (.file content))
          ∧ (∀ v, x.2 = .ok () → NewVersion release.Version = some v →
              ((WriteVersion x.1 inst v).2 ≠ .ok () →
                  r.result = .err "failed to write version"
                    ∧ r.fs.lookup temp = some (.file content))
                ∧ ((WriteVersion x.1 inst v).2 = .ok () → removeAllOk temp = false →
                  r.result = .err "failed to remove temporary download directory"
                    ∧ r.fs.lookup temp = some (.file content))
                ∧ ((WriteVersion x.1 inst v).2 = .ok () → removeAllOk temp = true →
                  r.result = .ok () ∧ r.fs = (WriteVersion x.1 inst v).1.removeAll temp)))
      ∧ (d.result = .ok () → (r.result = .ok () ↔ r.fs.lookup temp = none))
      ∧ (∀ stale, fs.lookup temp = some (.file stale) →
          (http archive.Url = .transportError
            ∨ ∃ statusCode contentLength chunks readOk,
                http archive.Url = .response statusCode contentLength chunks readOk
                  ∧ statusCode ≠ 200) →
          r.result = .err "failed to download file" ∧ r.fs.lookup temp = none) := by
  intro temp inst d x r
  obtain ⟨hout, hnv⟩ := temp_outside_install wd appId release hroot hclean hver
  have hok : ∀ e : Except String Unit, e ≠ .ok () → ∃ msg, e = .error msg := by
    intro e he
    cases e with
    | error msg => exact ⟨msg, rfl⟩
    | ok u => exact absurd rfl he
  -- the facts after a successful download
  have after : d.result = .ok () → ∃ content, d.fs.lookup temp = some (.file content)
      ∧ x.1.lookup temp = some (.file content)
      ∧ (∀ v, (WriteVersion x.1 inst v).1.lookup temp = some (.file content))
      ∧ r = installArchiveAfterDownload unzip removeAllOk d.fs temp inst release
          [.download temp archive.Url true] := by
    intro hd
    obtain ⟨content, hc⟩ := DownloadFile_ok_lookup http fs temp archive.Url _ hd
    have hx : x.1.lookup temp = some (.file content) :=
      ExtractArchive_lookup_outside unzip d.fs temp inst temp content hc hout
    refine ⟨content, hc, hx, fun v => ?_, ?_⟩
    · rw [WriteVersion_lookup_ne _ _ _ _ hnv]; exact hx
    · show installAppReleaseArchive http unzip removeAllOk fs (some wd) appId release = _
      have hd2 : (DownloadFile http fs
          (installAppReleaseArchive_tempDownloadPath wd appId release) archive.Url
          (some (NewDownloadProgressTracker (toUint64 size)))).result = .ok () := hd
      simp only [installAppReleaseArchive, hfiles, harchive, hsize, hd2]
  have part2 : d.result = .ok () → ∃ content, d.fs.lookup temp = some (.file content)
      ∧ (x.2 ≠ .ok () →
          r.result = .err "failed to extract archive"
            ∧ r.fs.lookup temp = some (.file content))
      ∧ (x.2 = .ok () → NewVersion release.Version = none →
          r.result = .err "failed to parse release version"
            ∧ r.fs.lookup temp = some (.file content))
      ∧ (∀ v, x.2 = .ok () → NewVersion release.Version = some v →
          ((WriteVersion x.1 inst v).2 ≠ .ok () →
              r.result = .err "failed to write version"
                ∧ r.fs.lookup temp = some (.file content))
            ∧ ((WriteVersion x.1 inst v).2 = .ok () → removeAllOk temp = false →
              r.result = .err "failed to remove temporary download directory"
                ∧ r.fs.lookup temp = some (.file content))
            ∧ ((WriteVersion x.1 inst v).2 = .ok () → removeAllOk temp = true →
              r.result = .ok () ∧ r.fs = (WriteVersion x.1 inst v).1.removeAll temp)) := by
    intro hd
    obtain ⟨content, hc, hx, hwv, hr⟩ := after hd
    refine ⟨content, hc, ?_, ?_, ?_⟩
    · intro hxe
      obtain ⟨msg, hmsg⟩ := hok _ hxe
      have hmsg2 : (ExtractArchive unzip d.fs temp inst).2 = .error msg := hmsg
      rw [hr]
      simp only [installArchiveAfterDownload, hmsg2]
      exact ⟨trivial, hx⟩
    · intro hxo hv
      have hxo2 : (ExtractArchive unzip d.fs temp inst).2 = .ok () := hxo
      rw [hr]
      simp only [installArchiveAfterDownload, hxo2, hv]
      exact ⟨trivial, hx⟩
    · intro v hxo hv
      have hxo2 : (ExtractArchive unzip d.fs temp inst).2 = .ok () := hxo
      refine ⟨?_, ?_, ?_⟩
      · intro hwe
        obtain ⟨msg, hmsg⟩ := hok _ hwe
        have hmsg2 : (WriteVersion (ExtractArchive unzip d.fs temp inst).1 inst v).2
            = .error msg := hmsg
        rw [hr]
        simp only [installArchiveAfterDownload, hxo2, hv, hmsg2]
        exact ⟨trivial, hwv v⟩
      · intro hwo hrm
        have hwo2 : (WriteVersion (ExtractArchive unzip d.fs temp inst).1 inst v).2
            = .ok () := hwo
        rw [hr]
        simp only [installArchiveAfterDownload, hxo2, hv, hwo2, hrm, Bool.false_eq_true,
          if_false]
        exact ⟨trivial, hwv v⟩
      · intro hwo hrm
        have hwo2 : (WriteVersion (ExtractArchive unzip d.fs temp inst).1 inst v).2
            = .ok () := hwo
        rw [hr]
        simp only [installArchiveAfterDownload, hxo2, hv, hwo2, hrm, if_true]
        exact ⟨trivial, trivial⟩
  have part1 : d.result ≠ .ok () → r.result = .err "failed to download file" ∧ r.fs = d.fs := by
    intro hde
    obtain ⟨msg, hmsg⟩ := hok _ hde
    have hd2 : (DownloadFile http fs
        (installAppReleaseArchive_tempDownloadPath wd appId release) archive.Url
        (some (NewDownloadProgressTracker (toUint64 size)))).result = .error msg := hmsg
    show (installAppReleaseArchive http unzip removeAllOk fs (some wd) appId release).result = _
      ∧ (installAppReleaseArchive http unzip removeAllOk fs (some wd) appId release).fs = _
    simp only [installAppReleaseArchive, hfiles, harchive, hsize, hd2]
    exact ⟨trivial, trivial⟩
  refine ⟨part1, part2, ?_, ?_⟩
  rotate_left
  · intro stale hstale hreq
    have hstat : fs.stat temp = .ok (.file stale) := by
      simp only [FS.stat, hstale]
    have hrem : fs.remove temp = some (fs.erase temp) := by
      simp only [FS.remove, hstale]
    have hd : d.result ≠ .ok () ∧ d.fs = fs.erase temp := by
      show (DownloadFile http fs temp archive.Url _).result ≠ .ok ()
        ∧ (DownloadFile http fs temp archive.Url _).fs = fs.erase temp
      rcases hreq with hreq | ⟨statusCode, contentLength, chunks, readOk, hreq, hcode⟩
      · simp only [DownloadFile, hstat, hrem, fetchToFile, hreq]
        exact ⟨fun h => (by cases h), trivial⟩
      · simp only [DownloadFile, hstat, hrem, fetchToFile, hreq, ne_eq, hcode,
          not_false_eq_true, if_true]
        exact ⟨fun h => (by cases h), trivial⟩
    obtain ⟨h1, h2⟩ := part1 hd.1
    refine ⟨h1, ?_⟩
    rw [h2, hd.2]
    exact FS.lookup_erase_same _ _
  · intro hd
    obtain ⟨content, _, h1, h2, h3⟩ := part2 hd
    by_cases hxo : x.2 = .ok ()
    · cases hv : NewVersion release.Version with
      | none =>
        obtain ⟨ha, hb⟩ := h2 hxo hv
        rw [ha, hb]
        constructor <;> intro h <;> cases h
      | some v =>
        obtain ⟨k1, k2, k3⟩ := h3 v hxo hv
        by_cases hwo : (WriteVersion x.1 inst v).2 = .ok ()
        · cases hrm : removeAllOk temp with
          | false =>
            obtain ⟨ha, hb⟩ := k2 hwo hrm
            rw [ha, hb]
            constructor <;> intro h <;> cases h
          | true =>
            obtain ⟨ha, hb⟩ := k3 hwo hrm
            rw [ha, hb]
            exact ⟨fun _ => FS.lookup_removeAll_same _ _, fun _ => rfl⟩
        · obtain ⟨ha, hb⟩ := k1 hwo
          rw [ha, hb]
          constructor <;> intro h <;> cases h
    · obtain ⟨ha, hb⟩ := h1 hxo
      rw [ha, hb]
      constructor <;> intro h <;> cases h

/-- Witness for `installAppReleaseArchive_temp_path`: an installation in which every step
succeeds; it returns no error and the temporary download path is absent. -/
theorem installAppReleaseArchive_temp_path_witness :
    archiveRelease.Files
        = some [{ Id := uuidOfByte 5, FileType := "release-archive".toList,
                  Url := "https://cdn/app".toList, Size := some 4, OriginalPath := none }]
      ∧ isRooted sampleWd = true ∧ Clean sampleWd = sampleWd
      ∧ '/' ∉ archiveRelease.Version
      ∧ (archiveInstallOk.result = .ok ()
          ↔ archiveInstallOk.fs.lookup
              (installAppReleaseArchive_tempDownloadPath sampleWd (uuidOfByte 10)
                archiveRelease) = none)
      ∧ archiveInstallOk.result = .ok () :=
  ⟨rfl, by decide, by decide, by decide,
    (installAppReleaseArchive_temp_path twoFileHttp unzipOneMember (fun _ => true) scenarioFS
      sampleWd (uuidOfByte 10) archiveRelease _
      { Id := uuidOfByte 5, FileType := "release-archive".toList,
        Url := "https://cdn/app".toList, Size := some 4, OriginalPath := none } 4
      rfl (by decide) rfl (by decide) (by decide) (by decide)).2.2.1 (by decide),
    by decide⟩

/-- C12 (as stated) fails, in both of its parts. For `archiveRelease` and an archive that
holds a directory named `.version`, the download and the extraction succeed, writing the
version file fails, and the temporary download path is not removed: the downloaded archive
is still there. And when the file server cannot be reached, a file that an earlier run has
left at the temporary download path is gone after the failed download: `DownloadFile`
deletes it before it sends the request. When only the removal fails, the call returns that
error and the archive is still there. -/
theorem installAppReleaseArchive_keeps_temp_after_extraction :
    InstallEvent.extract
        (installAppReleaseArchive_tempDownloadPath sampleWd (uuidOfByte 10) archiveRelease)
        (installAppReleaseArchive_appInstallationPath sampleWd (uuidOfByte 10) archiveRelease)
        true ∈ archiveInstallWriteFails.log
      ∧ archiveInstallWriteFails.result = .err "failed to write version"
      ∧ archiveInstallWriteFails.fs.lookup
          (installAppReleaseArchive_tempDownloadPath sampleWd (uuidOfByte 10) archiveRelease)
          = some (.file [1, 2, 3, 4])
      ∧ staleDownloadFS.lookup
          (installAppReleaseArchive_tempDownloadPath sampleWd (uuidOfByte 10) archiveRelease)
          = some (.file [9])
      ∧ archiveInstallStale.result = .err "failed to download file"
      ∧ archiveInstallStale.fs.lookup
          (installAppReleaseArchive_tempDownloadPath sampleWd (uuidOfByte 10) archiveRelease)
          = none
      ∧ archiveInstallRemovalFails.result
          = .err "failed to remove temporary download directory"
      ∧ archiveInstallRemovalFails.fs.lookup
          (installAppReleaseArchive_tempDownloadPath sampleWd (uuidOfByte 10) archiveRelease)
          = some (.file [1, 2, 3, 4]) := by
  refine ⟨by decide, by decide, by decide, by decide, by decide, by decide, by decide,
    by decide⟩

end Launcher

namespace Launcher

/-! ## The attempts of the multi-file installation -/

/-- The file system after the download loop is the one that the calls of `DownloadFile` for
the files leave, one after the other. -/
theorem downloadAll_fs (http : Str → HttpAnswer) (temp : Str) (total : Nat)
    (files : List File) :
    ∀ st, (downloadAll http temp total files st).fs
      = files.foldl (fun s f =>
          (DownloadFile http s temp f.Url (some (NewDownloadProgressTracker total))).fs)
          st.fs := by
  induction files with
  | nil => intro st; rfl
  | cons f rest ih =>
    intro st
    simp only [downloadAll, List.foldl_cons]
    rw [ih]

/-- The file system after the move loop is the one that the calls of `os.Rename` for the
files with an original path leave, one after the other; a failed call leaves it as it
was. -/
theorem moveAll_fs (temp inst : Str) (files : List File) :
    ∀ st, (moveAll temp inst files st).1
      = files.foldl (fun s f =>
          match f.OriginalPath with
          | none => s
          | some originalPath =>
            (s.rename (Join [temp, originalPath]) (Join [inst, originalPath])).getD s)
          st.1 := by
  induction files with
  | nil => intro st; rfl
  | cons f rest ih =>
    intro st
    cases hp : f.OriginalPath with
    | none =>
      simp only [moveAll, hp, List.foldl_cons]
      rw [ih]
    | some op =>
      cases hr : st.1.rename (Join [temp, op]) (Join [inst, op]) with
      | none =>
        simp only [moveAll, hp, hr, List.foldl_cons, Option.getD_none]
        rw [ih]
      | some fs1 =>
        simp only [moveAll, hp, hr, List.foldl_cons, Option.getD_some]
        rw [ih]

/-- In multi-file mode `installAppRelease` makes exactly one download attempt for every
entry of the slice `files`, in order, and exactly one move attempt for every entry that has
an original path, whatever the file server answers and whatever the file system holds; the
call then ends by the version steps and the removal alone: an unparsable version gives the
parse error, otherwise the result is the outcome of `WriteVersion` and then of the removal.
The only errors the call can return are the five named ones. With per-iteration loop
variables the entries of `files` are the files of type `release`. -/
theorem installAppRelease_attempts (sem : LoopVar) (http : Str → HttpAnswer)
    (removeAllOk : Str → Bool) (fs : FS)
    (wd : Option Str) (appId : UUID) (release : ReleaseV2) :
    (∀ msg, (installAppRelease sem http removeAllOk fs wd appId release).result = .err msg →
        msg ∈ ["no release files found", "failed to get working directory",
          "failed to parse release version", "failed to write version",
          "failed to remove temporary download directory"])
      ∧ (∀ entities w total, release.Files = some entities → wd = some w →
          releaseFiles sem entities ≠ [] →
          sumSizes (releaseFiles sem entities) 0 = some total →
          downloadAttempts (installAppRelease sem http removeAllOk fs wd appId release).log
              = (releaseFiles sem entities).map
                  (fun f => (installAppRelease_tempDownloadPath w appId release, f.Url))
            ∧ moveAttempts (installAppRelease sem http removeAllOk fs wd appId release).log
              = ((releaseFiles sem entities).filterMap (fun f => f.OriginalPath)).map
                  (fun op => (Join [installAppRelease_tempDownloadPath w appId release, op],
                    Join [installAppRelease_appInstallationPath w appId release, op]))
            ∧ (NewVersion release.Version = none →
                (installAppRelease sem http removeAllOk fs wd appId release).result
                  = .err "failed to parse release version")
            ∧ (∀ v, NewVersion release.Version = some v →
                ((installAppRelease sem http removeAllOk fs wd appId release).result = .ok ()
                    ∧ removeAllOk (installAppRelease_tempDownloadPath w appId release) = true
                    ∧ InstallEvent.writeVersion
                        (installAppRelease_appInstallationPath w appId release) true
                      ∈ (installAppRelease sem http removeAllOk fs wd appId release).log)
                  ∨ ((installAppRelease sem http removeAllOk fs wd appId release).result
                      = .err "failed to remove temporary download directory"
                    ∧ removeAllOk (installAppRelease_tempDownloadPath w appId release) = false
                    ∧ InstallEvent.writeVersion
                        (installAppRelease_appInstallationPath w appId release) true
                      ∈ (installAppRelease sem http removeAllOk fs wd appId release).log)
                  ∨ ((installAppRelease sem http removeAllOk fs wd appId release).result
                      = .err "failed to write version"
                    ∧ InstallEvent.writeVersion
                        (installAppRelease_appInstallationPath w appId release) false
                      ∈ (installAppRelease sem http removeAllOk fs wd appId release).log)))
      ∧ (∀ entities, releaseFiles .perIteration entities
          = entities.filter (fun f => f.FileType = "release".toList)) := by
  refine ⟨?_, ?_, releaseFiles_perIteration⟩
  · intro msg h
    cases hf : release.Files with
    | none => simp only [installAppRelease, hf] at h; cases h
    | some entities =>
      by_cases hl : (releaseFiles sem entities).length = 0
      · simp only [installAppRelease, hf, hl, if_true] at h
        cases h; simp
      · cases hwd : wd with
        | none =>
          simp only [installAppRelease, hf, hl, if_false, hwd] at h
          cases h; simp
        | some w =>
          cases hs : sumSizes (releaseFiles sem entities) 0 with
          | none => simp only [installAppRelease, hf, hl, if_false, hwd, hs] at h; cases h
          | some total =>
            cases hv : NewVersion release.Version with
            | none =>
              simp only [installAppRelease, hf, hl, if_false, hwd, hs, hv] at h
              cases h; simp
            | some v =>
              simp only [installAppRelease, hf, hl, if_false, hwd, hs, hv] at h
              split at h
              · cases h; simp
              · split at h
                · cases h
                · cases h; simp
  · intro entities w total hfiles hwd hne hsize
    have hlen : ¬ (releaseFiles sem entities).length = 0 := by
      intro h; exact hne (List.length_eq_zero.mp h)
    obtain ⟨hd1, hd2⟩ := downloadAll_attempts http
      (installAppRelease_tempDownloadPath w appId release) total (releaseFiles sem entities)
      ⟨fs, [], 0⟩
    obtain ⟨hm1, hm2⟩ := moveAll_attempts (installAppRelease_tempDownloadPath w appId release)
      (installAppRelease_appInstallationPath w appId release) (releaseFiles sem entities)
      ((downloadAll http (installAppRelease_tempDownloadPath w appId release) total
          (releaseFiles sem entities) ⟨fs, [], 0⟩).fs,
        (downloadAll http (installAppRelease_tempDownloadPath w appId release) total
          (releaseFiles sem entities) ⟨fs, [], 0⟩).log)
    simp only [hd1, hd2, downloadAttempts, moveAttempts, List.nil_append] at hm1 hm2
    subst hwd
    cases hv : NewVersion release.Version with
    | none =>
      simp only [installAppRelease, hfiles, hlen, if_false, hsize, hv]
      refine ⟨hm2, hm1, ?_, ?_⟩
      · simp
      · simp
    | some v =>
      cases hw : (WriteVersion (moveAll (installAppRelease_tempDownloadPath w appId release)
          (installAppRelease_appInstallationPath w appId release) (releaseFiles sem entities)
          ((downloadAll http (installAppRelease_tempDownloadPath w appId release) total
              (releaseFiles sem entities) ⟨fs, [], 0⟩).fs,
            (downloadAll http (installAppRelease_tempDownloadPath w appId release) total
              (releaseFiles sem entities) ⟨fs, [], 0⟩).log)).1
          (installAppRelease_appInstallationPath w appId release) v).2 with
      | error e =>
        simp only [installAppRelease, hfiles, hlen, if_false, hsize, hv, hw]
        refine ⟨?_, ?_, ?_, ?_⟩
        · rw [downloadAttempts_append, hm2]; simp [downloadAttempts]
        · rw [moveAttempts_append, hm1]; simp [moveAttempts]
        · intro hc; cases hc
        · intro v2 _; exact Or.inr (Or.inr ⟨trivial, by simp⟩)
      | ok u =>
        simp only [installAppRelease, hfiles, hlen, if_false, hsize, hv, hw]
        by_cases hrm : removeAllOk (installAppRelease_tempDownloadPath w appId release) = true
        · simp only [hrm, if_true]
          refine ⟨?_, ?_, ?_, ?_⟩
          · rw [downloadAttempts_append, hm2]; simp [downloadAttempts]
          · rw [moveAttempts_append, hm1]; simp [moveAttempts]
          · intro hc; cases hc
          · intro v2 _; exact Or.inl ⟨trivial, trivial, by simp⟩
        · have hrf : removeAllOk (installAppRelease_tempDownloadPath w appId release)
              = false := by simpa using hrm
          simp only [hrf, Bool.false_eq_true, if_false]
          refine ⟨?_, ?_, ?_, ?_⟩
          · rw [downloadAttempts_append, hm2]; simp [downloadAttempts]
          · rw [moveAttempts_append, hm1]; simp [moveAttempts]
          · intro hc; cases hc
          · intro v2 _; exact Or.inr (Or.inl ⟨trivial, trivial, by simp⟩)

set_option maxRecDepth 100000 in
/-- C13: with one loop variable per loop (language versions before 1.22) every entry of the
slice `files` reads the last file of the release. For the release 1.2.3 with the two files
`https://cdn/app` and `https://cdn/pak`, both of type `release`, the second file is
downloaded twice and the first one never; the move is attempted twice for `data/pak` and
never for `bin/app`. When both files lie ready under the temporary download path and the
file server cannot be reached, the downloads fail, the call goes on and returns no error:
`data/pak` is moved to the install directory, `bin/app` is not, and it is deleted with the
temporary directory. With per-iteration loop variables each file gets its one download
attempt and its one move attempt, and both files end in the install directory; a removal
that fails then gives its error. -/
theorem installAppRelease_perLoop_attempts :
    releaseFiles .perLoop (twoFileRelease.Files.getD [])
        = [{ Id := uuidOfByte 6, FileType := "release".toList, Url := "https://cdn/pak".toList,
             Size := some 2, OriginalPath := some "data/pak".toList },
           { Id := uuidOfByte 6, FileType := "release".toList, Url := "https://cdn/pak".toList,
             Size := some 2, OriginalPath := some "data/pak".toList }]
      ∧ downloadAttempts twoFileInstallPerLoop.log
          = [(installAppRelease_tempDownloadPath sampleWd (uuidOfByte 10) twoFileRelease,
                "https://cdn/pak".toList),
             (installAppRelease_tempDownloadPath sampleWd (uuidOfByte 10) twoFileRelease,
                "https://cdn/pak".toList)]
      ∧ twoFileInstallPerLoop.fs.lookup
          (installAppRelease_tempDownloadPath sampleWd (uuidOfByte 10) twoFileRelease)
          = some (.file [5, 6])
      ∧ twoFileInstallPerLoop.totalProgress = 4
      ∧ moveAttempts twoFileInstallPerLoop.log
          = [(Join [installAppRelease_tempDownloadPath sampleWd (uuidOfByte 10) twoFileRelease,
                "data/pak".toList],
              Join [installAppRelease_appInstallationPath sampleWd (uuidOfByte 10)
                twoFileRelease, "data/pak".toList]),
             (Join [installAppRelease_tempDownloadPath sampleWd (uuidOfByte 10) twoFileRelease,
                "data/pak".toList],
              Join [installAppRelease_appInstallationPath sampleWd (uuidOfByte 10)
                twoFileRelease, "data/pak".toList])]
      ∧ (stagedInstall .perLoop).log
          = [.download (installAppRelease_tempDownloadPath sampleWd (uuidOfByte 10)
                twoFileRelease) "https://cdn/pak".toList false,
             .download (installAppRelease_tempDownloadPath sampleWd (uuidOfByte 10)
                twoFileRelease) "https://cdn/pak".toList false,
             .move
              (Join [installAppRelease_tempDownloadPath sampleWd (uuidOfByte 10)
                twoFileRelease, "data/pak".toList])
              (Join [installAppRelease_appInstallationPath sampleWd (uuidOfByte 10)
                twoFileRelease, "data/pak".toList]) true,
             .move
              (Join [installAppRelease_tempDownloadPath sampleWd (uuidOfByte 10)
                twoFileRelease, "data/pak".toList])
              (Join [installAppRelease_appInstallationPath sampleWd (uuidOfByte 10)
                twoFileRelease, "data/pak".toList]) false,
             .writeVersion
              (installAppRelease_appInstallationPath sampleWd (uuidOfByte 10) twoFileRelease)
              true,
             .removeAll
              (installAppRelease_tempDownloadPath sampleWd (uuidOfByte 10) twoFileRelease)]
      ∧ (stagedInstall .perLoop).result = .ok ()
      ∧ (stagedInstall .perLoop).fs.lookup
          (Join [installAppRelease_appInstallationPath sampleWd (uuidOfByte 10) twoFileRelease,
            "data/pak".toList]) = some (.file [5, 6])
      ∧ (stagedInstall .perLoop).fs.lookup
          (Join [installAppRelease_appInstallationPath sampleWd (uuidOfByte 10) twoFileRelease,
            "bin/app".toList]) = none
      ∧ (stagedInstall .perLoop).fs.lookup
          (Join [installAppRelease_tempDownloadPath sampleWd (uuidOfByte 10) twoFileRelease,
            "bin/app".toList]) = none
      ∧ (stagedInstall .perIteration).result = .ok ()
      ∧ (stagedInstall .perIteration).fs.lookup
          (Join [installAppRelease_appInstallationPath sampleWd (uuidOfByte 10) twoFileRelease,
            "data/pak".toList]) = some (.file [5, 6])
      ∧ (stagedInstall .perIteration).fs.lookup
          (Join [installAppRelease_appInstallationPath sampleWd (uuidOfByte 10) twoFileRelease,
            "bin/app".toList]) = some (.file [1, 2, 3, 4])
      ∧ (stagedInstall .perIteration).fs.lookup
          (versionFile
            (installAppRelease_appInstallationPath sampleWd (uuidOfByte 10) twoFileRelease))
          = some (.file [1, 0, 0, 0, 2, 0, 0, 0, 3, 0, 0, 0])
      ∧ stagedInstallRemovalFails.result
          = .err "failed to remove temporary download directory" := by
  refine ⟨by decide, by decide, by decide, by decide, by decide, by decide, by decide,
    by decide, by decide, by decide, by decide, by decide, by decide, by decide, by decide⟩

end Launcher

namespace Launcher

/-- C17 (as the code has it): once the application has been started. When the goroutine
that reads its output does not end the launcher, `runApp` makes exactly one report of
`closed`, after the launch and before it ends, whatever the outcome of the wait; it ends the
launcher as fatal exactly when the call of that report returns an error, or the outcome is
an exit error that carries a wait status, or another wait error; it returns exactly when the
report returns no error and the outcome is a zero exit (or an exit error without a wait
status). In every case at most one report of `closed` is made, after the launch; when the
goroutine ends the launcher first there is none, and the launcher ends as fatal. -/
theorem runApp_closed_once_then_ends (env : Env) (fs : FS) (id : UUID) (r : ReleaseV2)
    (found : Str)
    (hfound : findEntrypoint env.isExecutable
      (getBinarySuffix env.lower env.windows env.pEnvironment)
      fs env.wd (runApp_searchRoot id r) = .ok found)
    (hpipe : env.pipeOk = true) (hstart : env.startOk = true) :
    (env.reader = .eof →
        (runApp env fs id r).events
            = [Event.launch
                (normalizeEntrypoint (getBinarySuffix env.lower env.windows env.pEnvironment)
                  found)
                (streamingArgs ++ env.passthrough) (Dir (Dir (Dir (Dir found))) ++ ['/']),
              Event.sessionStatus "closed".toList (env.statusOk "closed".toList)]
          ∧ ((runApp env fs id r).ending = .returned ↔
              SetSessionStatus (env.statusFetch "closed".toList) = .ok ()
                ∧ (env.wait = .exited ∨ env.wait = .exitError false))
          ∧ ((∃ msg, (runApp env fs id r).ending = .fatal msg) ↔
              SetSessionStatus (env.statusFetch "closed".toList) ≠ .ok ()
                ∨ env.wait = .exitError true ∨ env.wait = .waitError)
          ∧ (SetSessionStatus (env.statusFetch "closed".toList) ≠ .ok () →
              (runApp env fs id r).ending
                = .fatal "failed to set session status to starting"))
      ∧ ((runApp env fs id r).events
            = [Event.launch
                (normalizeEntrypoint (getBinarySuffix env.lower env.windows env.pEnvironment)
                  found)
                (streamingArgs ++ env.passthrough) (Dir (Dir (Dir (Dir found))) ++ ['/'])]
          ∨ (runApp env fs id r).events
            = [Event.launch
                (normalizeEntrypoint (getBinarySuffix env.lower env.windows env.pEnvironment)
                  found)
                (streamingArgs ++ env.passthrough) (Dir (Dir (Dir (Dir found))) ++ ['/']),
              Event.sessionStatus "closed".toList (env.statusOk "closed".toList)])
      ∧ (env.reader = .fatalBeforeReport →
          (runApp env fs id r).events
              = [Event.launch
                  (normalizeEntrypoint
                    (getBinarySuffix env.lower env.windows env.pEnvironment) found)
                  (streamingArgs ++ env.passthrough) (Dir (Dir (Dir (Dir found))) ++ ['/'])]
            ∧ (runApp env fs id r).ending = .fatal readerFatal)
      ∧ (env.reader = .fatalAfterReport → (runApp env fs id r).ending = .fatal readerFatal) := by
  obtain ⟨andThen, hr1, hr2, hr3, h1, h2, h3⟩ :=
    runApp_started env fs id r found hfound hpipe hstart
  obtain ⟨e1, e2, e3, _⟩ := reportClosed_run env fs
    [Event.launch
      (normalizeEntrypoint (getBinarySuffix env.lower env.windows env.pEnvironment) found)
      (streamingArgs ++ env.passthrough) (Dir (Dir (Dir (Dir found))) ++ ['/'])] andThen
  have hev : (runApp env fs id r).events
        = [Event.launch
            (normalizeEntrypoint (getBinarySuffix env.lower env.windows env.pEnvironment)
              found)
            (streamingArgs ++ env.passthrough) (Dir (Dir (Dir (Dir found))) ++ ['/'])]
      ∨ (runApp env fs id r).events
        = [Event.launch
            (normalizeEntrypoint (getBinarySuffix env.lower env.windows env.pEnvironment)
              found)
            (streamingArgs ++ env.passthrough) (Dir (Dir (Dir (Dir found))) ++ ['/']),
          Event.sessionStatus "closed".toList (env.statusOk "closed".toList)] := by
    cases hrd : env.reader with
    | eof => right; rw [hr1 hrd]; exact e1
    | fatalBeforeReport => left; rw [hr2 hrd]
    | fatalAfterReport => right; rw [hr3 hrd]
  refine ⟨fun hrd => ?_, hev, fun hrd => ?_, fun hrd => ?_⟩
  · rw [hr1 hrd]
    refine ⟨e1, ?_, ?_, fun hne => e3 ((statusOk_false_iff env _).mpr hne)⟩
    · by_cases hs : env.statusOk "closed".toList = true
      · rw [e2 hs, h1]
        exact ⟨fun h => ⟨(statusOk_true_iff env _).mp hs, h⟩, fun h => h.2⟩
      · have hf : env.statusOk "closed".toList = false := by simpa using hs
        rw [e3 hf]
        exact ⟨fun h => (by cases h),
          fun h => absurd ((statusOk_true_iff env _).mpr h.1) hs⟩
    · by_cases hs : env.statusOk "closed".toList = true
      · rw [e2 hs, h2]
        exact ⟨Or.inr, fun h => h.elim
          (fun h0 => absurd ((statusOk_true_iff env _).mp hs) h0) (fun h1 => h1)⟩
      · have hf : env.statusOk "closed".toList = false := by simpa using hs
        rw [e3 hf]
        exact ⟨fun _ => Or.inl ((statusOk_false_iff env _).mp hf), fun _ => ⟨_, rfl⟩⟩
  · rw [hr2 hrd]; exact ⟨rfl, rfl⟩
  · rw [hr3 hrd]

set_option maxRecDepth 100000 in
/-- Witness for `runApp_closed_once_then_ends`: the installed project `Demo`, a zero exit, a
reader that meets the end of the stream and a report that returns no error. -/
theorem runApp_closed_once_then_ends_witness :
    findEntrypoint launchEnv.isExecutable
        (getBinarySuffix launchEnv.lower launchEnv.windows launchEnv.pEnvironment) gameFS
        launchEnv.wd (runApp_searchRoot (uuidOfByte 10) archiveRelease)
        = .ok (Join [sampleWd, runApp_searchRoot (uuidOfByte 10) archiveRelease,
            "Demo/Binaries/Linux/DemoTest".toList])
      ∧ launchEnv.pipeOk = true ∧ launchEnv.startOk = true ∧ launchEnv.reader = .eof
      ∧ (runApp launchEnv gameFS (uuidOfByte 10) archiveRelease).ending = .returned :=
  ⟨by decide, rfl, rfl, rfl,
    ((runApp_closed_once_then_ends launchEnv gameFS (uuidOfByte 10) archiveRelease
      (Join [sampleWd, runApp_searchRoot (uuidOfByte 10) archiveRelease,
        "Demo/Binaries/Linux/DemoTest".toList]) (by decide) rfl rfl).1 rfl).2.1.mpr
      ⟨by decide, Or.inl rfl⟩⟩

set_option maxRecDepth 100000 in
/-- C17 (as stated) fails in two ways, each time after an exit with code zero. When the
request that reports `closed` cannot be sent, `runApp` has launched the application, has
made the one report, and ends the launcher as fatal. When the goroutine that reads the
output meets a read error other than the end of the stream and its `log.Fatalf` comes
first, the launcher ends as fatal with no report of `closed`, although every report would
have been accepted. -/
theorem runApp_zero_exit_fatal :
    closeFailsEnv.wait = .exited
      ∧ closeFailsEnv.statusFetch "closed".toList = .sendError
      ∧ (runApp closeFailsEnv gameFS (uuidOfByte 10) archiveRelease).events
          = [Event.launch "Demo/Binaries/Linux/DemoTest".toList streamingArgs
              (Join [sampleWd, runApp_searchRoot (uuidOfByte 10) archiveRelease] ++ ['/']),
            Event.sessionStatus "closed".toList false]
      ∧ (runApp closeFailsEnv gameFS (uuidOfByte 10) archiveRelease).ending
          = .fatal "failed to set session status to starting"
      ∧ readerFailsEnv.wait = .exited
      ∧ SetSessionStatus (readerFailsEnv.statusFetch "closed".toList) = .ok ()
      ∧ (runApp readerFailsEnv gameFS (uuidOfByte 10) archiveRelease).events
          = [Event.launch "Demo/Binaries/Linux/DemoTest".toList streamingArgs
              (Join [sampleWd, runApp_searchRoot (uuidOfByte 10) archiveRelease] ++ ['/'])]
      ∧ (runApp readerFailsEnv gameFS (uuidOfByte 10) archiveRelease).ending
          = .fatal readerFatal := by
  refine ⟨rfl, by decide, by decide, by decide, rfl, by decide, by decide, by decide⟩

end Launcher

namespace Launcher

/-- The flag of a report in the events of `runApp` is the outcome of the call of
`SetSessionStatus`, and the reported status is `closed`. -/
theorem runApp_report_flag (env : Env) (fs : FS) (id : UUID) (r : ReleaseV2) (status : Str)
    (ok : Bool) (h : Event.sessionStatus status ok ∈ (runApp env fs id r).events) :
    status = "closed".toList ∧ ok = env.statusOk "closed".toList := by
  cases hfe : findEntrypoint env.isExecutable
      (getBinarySuffix env.lower env.windows env.pEnvironment)
      fs env.wd (runApp_searchRoot id r) with
  | error e =>
    rw [(runApp_not_started env fs id r
      (Or.inl (fun f hf => by rw [hfe] at hf; cases hf))).1] at h
    cases h
  | ok found =>
    by_cases hp : env.pipeOk = true
    · by_cases hs : env.startOk = true
      · obtain ⟨andThen, hr1, hr2, hr3, _, _, _⟩ :=
          runApp_started env fs id r found hfe hp hs
        obtain ⟨e1, _, _, _⟩ := reportClosed_run env fs
          [Event.launch
            (normalizeEntrypoint (getBinarySuffix env.lower env.windows env.pEnvironment)
              found)
            (streamingArgs ++ env.passthrough) (Dir (Dir (Dir (Dir found))) ++ ['/'])] andThen
        cases hrd : env.reader with
        | eof =>
          rw [hr1 hrd, e1] at h
          simp only [List.mem_append, List.mem_singleton, List.mem_cons, List.mem_nil_iff,
            or_false] at h
          rcases h with h | h
          · cases h
          · injection h with h1 h2
            exact ⟨h1, h2⟩
        | fatalBeforeReport =>
          rw [hr2 hrd] at h
          simp only [List.mem_singleton] at h
          cases h
        | fatalAfterReport =>
          rw [hr3 hrd] at h
          simp only [List.mem_cons, List.mem_singleton, List.mem_nil_iff, or_false] at h
          rcases h with h | h
          · cases h
          · injection h with h1 h2
            exact ⟨h1, h2⟩
      · rw [(runApp_not_started env fs id r (Or.inr (Or.inr (by simpa using hs)))).1] at h
        cases h
    · rw [(runApp_not_started env fs id r (Or.inr (Or.inl (by simpa using hp)))).1] at h
      cases h

/-- The flag of every report in the events of `launchSession` is the outcome of the call of
`SetSessionStatus` for the reported status. -/
theorem launchSession_report_flag (env : Env) (fs : FS) (session : Session) (status : Str)
    (ok : Bool) (h : Event.sessionStatus status ok ∈ (launchSession env fs session).events) :
    ok = env.statusOk status := by
  have hmap1 : ∀ l : List Str, Event.sessionStatus status ok ∉ l.map Event.releaseRequest := by
    intro l hc
    simp only [List.mem_map] at hc
    obtain ⟨_, _, hx⟩ := hc
    cases hx
  have hmap2 : ∀ l : List InstallEvent, Event.sessionStatus status ok ∉ l.map Event.install := by
    intro l hc
    simp only [List.mem_map] at hc
    obtain ⟨_, _, hx⟩ := hc
    cases hx
  have hstart : ∀ b : Bool, env.statusOk "starting".toList = b →
      Event.sessionStatus status ok = Event.sessionStatus "starting".toList b →
      ok = env.statusOk status := by
    intro b hb he
    injection he with h1 h2
    rw [h1, hb, h2]
  unfold launchSession at h
  by_cases hs : env.statusOk "starting".toList = false
  · simp only [hs, if_true, List.mem_singleton] at h
    exact hstart false hs h
  · have hs1 : env.statusOk "starting".toList = true := by simpa using hs
    simp only [hs, Bool.true_eq_false, if_false] at h
    cases hid : session.AppId with
    | none =>
      simp only [hid, List.mem_singleton] at h
      exact hstart true hs1 h
    | some appId =>
      simp only [hid] at h
      cases hres : (GetLatestReleaseV2 env.sem env.api2Root env.platform env.net appId).result with
      | error e =>
        simp only [hres, List.mem_append, List.mem_singleton] at h
        rcases h with h | h
        · exact hstart true hs1 h
        · exact absurd h (hmap1 _)
      | ok r =>
        simp only [hres] at h
        by_cases hf : r.Files = none ∨ r.Files = some []
        · simp only [hf, if_true, List.mem_append, List.mem_singleton] at h
          rcases h with h | h
          · exact hstart true hs1 h
          · exact absurd h (hmap1 _)
        · simp only [hf, if_false] at h
          cases hinst : (installRelease env fs appId r).result with
          | panic m =>
            simp only [hinst, List.mem_append, List.mem_singleton] at h
            rcases h with (h | h) | h
            · exact hstart true hs1 h
            · exact absurd h (hmap1 _)
            · exact absurd h (hmap2 _)
          | err m =>
            simp only [hinst, List.mem_append, List.mem_singleton] at h
            rcases h with (h | h) | h
            · exact hstart true hs1 h
            · exact absurd h (hmap1 _)
            · exact absurd h (hmap2 _)
          | ok u =>
            simp only [hinst] at h
            by_cases hr : env.statusOk "running".toList = false
            · simp only [hr, if_true, List.mem_append, List.mem_singleton] at h
              rcases h with ((h | h) | h) | h
              · exact hstart true hs1 h
              · exact absurd h (hmap1 _)
              · exact absurd h (hmap2 _)
              · injection h with h1 h2
                rw [h1, hr, h2]
            · have hr1 : env.statusOk "running".toList = true := by simpa using hr
              simp only [hr, Bool.true_eq_false, if_false, List.mem_append,
                List.mem_singleton] at h
              rcases h with (((h | h) | h) | h) | h
              · exact hstart true hs1 h
              · exact absurd h (hmap1 _)
              · exact absurd h (hmap2 _)
              · injection h with h1 h2
                rw [h1, hr1, h2]
              · obtain ⟨k1, k2⟩ := runApp_report_flag _ _ _ _ status ok h
                rw [k1, k2]

/-- C18 (as the code has it): a status report fails for the launcher when the call of
`SetSessionStatus` returns an error. In the main flow every such report ends the launcher as
fatal: the report of `starting` before anything else is done, and also the report of
`closed` that `runApp` makes (here for a reader that meets the end of the stream); the flag
of every report among the events is the outcome of that call. In the web server the outcome
of the report of `closed` changes neither how the handler ends nor its body nor the
cancellation, whatever the calls return: the health-check handler and the force-close
handler complete, the latter cancels the context, and the failure path of the web server
exits with code 1 after a report that succeeds as after one that fails. -/
theorem failed_report_fatal_in_main_ignored_in_server (env : Env) (fs : FS)
    (session : Session) :
    (SetSessionStatus (env.statusFetch "starting".toList) ≠ .ok () →
        launchSession env fs session
          = ⟨fs, [.sessionStatus "starting".toList false],
              .fatal "failed to set session status to starting"⟩)
      ∧ (∀ status ok, Event.sessionStatus status ok ∈ (launchSession env fs session).events →
          (ok = true ↔ SetSessionStatus (env.statusFetch status) = .ok ())
            ∧ (ok = false → ∃ msg, (launchSession env fs session).ending = .fatal msg))
      ∧ (∀ id r found,
          findEntrypoint env.isExecutable
              (getBinarySuffix env.lower env.windows env.pEnvironment) fs env.wd
              (runApp_searchRoot id r) = .ok found →
          env.pipeOk = true → env.startOk = true → env.reader = .eof →
          SetSessionStatus (env.statusFetch "closed".toList) ≠ .ok () →
          Event.sessionStatus "closed".toList false ∈ (runApp env fs id r).events
            ∧ (runApp env fs id r).ending
              = .fatal "failed to set session status to starting")
      ∧ (∀ (ok : Str → Bool) (fetched : Fetched) t,
          (healthCheck ok (some session) fetched t).ending
              = (healthCheck (fun _ => true) (some session) fetched t).ending
            ∧ (healthCheck ok (some session) fetched t).body
              = (healthCheck (fun _ => true) (some session) fetched t).body
            ∧ (healthCheck ok (some session) fetched t).cancelled = false
            ∧ ∀ code, (healthCheck ok (some session) fetched t).ending ≠ .exit code)
      ∧ (∀ ok : Str → Bool,
          (closeSession ok (some session)).reports
              = [.sessionStatus "closed".toList (ok "closed".toList)]
            ∧ (closeSession ok (some session)).ending = .completed
            ∧ (closeSession ok (some session)).cancelled = true)
      ∧ (∀ ok : Str → Bool,
          (startWebServer_failed ok (some session)).reports
              = [.sessionStatus "closed".toList (ok "closed".toList)]
            ∧ (startWebServer_failed ok (some session)).ending = .exit 1) := by
  refine ⟨?_, ?_, ?_, ?_, ?_, ?_⟩
  · intro h
    have hf := (statusOk_false_iff env _).mpr h
    simp only [launchSession, hf, if_true]
  · intro status ok h
    have hflag := launchSession_report_flag env fs session status ok h
    refine ⟨?_, fun hk => ?_⟩
    · rw [hflag]; exact statusOk_true_iff env status
    · subst hk
      exact launchSession_failed_report env fs session status h
  · intro id r found hfound hp hs hrd hne
    obtain ⟨andThen, hr1, _, _, _, _, _⟩ := runApp_started env fs id r found hfound hp hs
    obtain ⟨e1, _, e3, _⟩ := reportClosed_run env fs
      [Event.launch
        (normalizeEntrypoint (getBinarySuffix env.lower env.windows env.pEnvironment) found)
        (streamingArgs ++ env.passthrough) (Dir (Dir (Dir (Dir found))) ++ ['/'])] andThen
    have hf := (statusOk_false_iff env _).mpr hne
    rw [hr1 hrd, e1, e3 hf, hf]
    exact ⟨by simp, rfl⟩
  · intro ok fetched t
    cases hfs : fetched.session with
    | none => simp [healthCheck, hfs]
    | some sess =>
      by_cases hc : sess.Status = "running".toList ∧ (Atoi t).1 ≥ 20
      · by_cases hs : ok "closed".toList = true
        · simp only [healthCheck, hfs, hc, hs, and_self, if_true, true_and]
          intro code hcode; cases hcode
        · simp only [healthCheck, hfs, hc, hs, and_self, if_true, Bool.false_eq_true,
            if_false, true_and]
          intro code hcode; cases hcode
      · simp only [healthCheck, hfs, hc, if_false, true_and]
        intro code hcode; cases hcode
  · intro ok
    by_cases hs : ok "closed".toList = true
    · simp only [closeSession, hs, if_true, and_self]
    · have hf : ok "closed".toList = false := by simpa using hs
      simp only [closeSession, hf, Bool.false_eq_true, if_false, and_self]
  · intro ok
    simp only [startWebServer_failed, and_self]

/-- Witness for `failed_report_fatal_in_main_ignored_in_server`: the request that reports
`starting` cannot be sent. -/
theorem failed_report_fatal_in_main_ignored_in_server_witness :
    SetSessionStatus (unreachableEnv.statusFetch "starting".toList) ≠ .ok ()
      ∧ launchSession unreachableEnv scenarioFS scenarioSession
        = ⟨scenarioFS, [.sessionStatus "starting".toList false],
            .fatal "failed to set session status to starting"⟩ :=
  ⟨by decide,
    (failed_report_fatal_in_main_ignored_in_server unreachableEnv scenarioFS
      scenarioSession).1 (by decide)⟩

set_option maxRecDepth 100000 in
/-- C18 (as stated) fails: the same run of `main` is made in an environment in which every
report is sent and answered, and in one in which the request that reports `closed` cannot be
sent. After the report that returns no error the launcher goes on to wait for the
cancellation; after the one that returns an error it ends as fatal. -/
theorem main_failed_closed_report_is_fatal :
    (main launchEnv scenarioFS [.session (some scenarioSession)]).ending = .blocked
      ∧ Event.sessionStatus "closed".toList true
          ∈ (main launchEnv scenarioFS [.session (some scenarioSession)]).events
      ∧ closeFailsEnv.statusFetch "closed".toList = .sendError
      ∧ Event.sessionStatus "closed".toList false
          ∈ (main closeFailsEnv scenarioFS [.session (some scenarioSession)]).events
      ∧ (main closeFailsEnv scenarioFS [.session (some scenarioSession)]).ending
          = .fatal "failed to set session status to starting" := by
  refine ⟨by decide, by decide, by decide, by decide, by decide⟩

end Launcher

namespace Launcher

/-- C19 (as the code has it): in every run of the step relation the reported statuses other
than `closed` are nothing, or `starting`, or `starting` then `running`; so nothing but
`closed` is reported after `running`, and `starting` is never reported after `running`. A
request adds at most one report, of `closed`. When no request is served the whole sequence
is a prefix of `starting`, `running`, `closed`. Once the main flow has ended, whatever
happens adds reports of `closed` only. The runs start with the session record that `init`
has made, so a request `/hello` that is served first reports `closed` and cancels the
context. -/
theorem statuses_ordered_apart_from_closed (env : Env) (fs : FS) (actions : List Action) :
    (openStatuses (steps env (initial fs) actions).trace = []
        ∨ openStatuses (steps env (initial fs) actions).trace = ["starting".toList]
        ∨ openStatuses (steps env (initial fs) actions).trace
            = ["starting".toList, "running".toList])
      ∧ (∀ pre post, statuses (steps env (initial fs) actions).trace
            = pre ++ "running".toList :: post →
          ∀ s ∈ post, s = "closed".toList)
      ∧ (∀ m req, statuses (serve env req m).trace = statuses m.trace
          ∨ statuses (serve env req m).trace = statuses m.trace ++ ["closed".toList])
      ∧ ((∀ a ∈ actions, ∃ answer, a = Action.main answer) →
          statuses (steps env (initial fs) actions).trace
            <+: ["starting".toList, "running".toList, "closed".toList])
      ∧ (∀ e more, (steps env (initial fs) actions).phase = .done e →
          ∃ k, statuses (steps env (initial fs) (actions ++ more)).trace
            = statuses (steps env (initial fs) actions).trace
              ++ List.replicate k "closed".toList)
      ∧ statuses (steps env (initial fs) [.request .hello]).trace = ["closed".toList]
      ∧ (steps env (initial fs) [.request .hello]).cancelled = true := by
  have hopen := openStatusesIn_cases _
    (steps_openStatusesIn env actions (initial fs) (by simp only [openStatusesIn, initial]; rfl))
  refine ⟨hopen, nothing_open_after_running _ hopen,
    fun m req => (serve_statuses env req m).2, ?_, ?_, ?_, ?_⟩
  · intro hmain
    exact statusesIn_prefix _
      (steps_statusesIn env actions hmain (initial fs) (by simp only [statusesIn, initial]; rfl))
  · intro e more hph
    rw [steps_append]
    exact steps_after_done env more _ e hph
  · simp only [steps, List.foldl_cons, List.foldl_nil, step, exited, initial,
      Bool.false_eq_true, if_false, serve, closeSession]
    split <;> rfl
  · simp only [steps, List.foldl_cons, List.foldl_nil, step, exited, initial,
      Bool.false_eq_true, if_false, serve, closeSession]
    split <;> rfl

set_option maxRecDepth 100000 in
/-- Witness for `statuses_ordered_apart_from_closed`: the main flow alone, up to the end of
the application. -/
theorem statuses_ordered_apart_from_closed_witness :
    (∀ a ∈ List.replicate 7 (Action.main (.session (some scenarioSession))),
        ∃ answer, a = Action.main answer)
      ∧ statuses (steps launchEnv (initial scenarioFS)
          (List.replicate 7 (Action.main (.session (some scenarioSession))))).trace
        = ["starting".toList, "running".toList, "closed".toList]
      ∧ statuses (steps launchEnv (initial scenarioFS)
          (List.replicate 7 (Action.main (.session (some scenarioSession))))).trace
        <+: ["starting".toList, "running".toList, "closed".toList] :=
  ⟨fun _ ha => ⟨_, List.eq_of_mem_replicate ha⟩, by decide,
    (statuses_ordered_apart_from_closed launchEnv scenarioFS
      (List.replicate 7 (Action.main (.session (some scenarioSession))))).2.2.2.1
      (fun _ ha => ⟨_, List.eq_of_mem_replicate ha⟩)⟩

set_option maxRecDepth 100000 in
/-- C19 (as stated) fails: with every report returning no error, a request `/hello` that
arrives while the release is being installed makes the reported sequence `starting`,
`closed`, `running`, `closed`; one that arrives before `starting` is reported, after the
session has been found or before the first answer of the poll, makes it `closed`,
`starting`. -/
theorem running_and_starting_reported_after_closed :
    (steps launchEnv (initial scenarioFS) closedThenRunning).trace.filterMap
        (fun e =>
          match e with
          | .sessionStatus status ok => some (status, ok)
          | _ => none)
        = [("starting".toList, true), ("closed".toList, true), ("running".toList, true),
            ("closed".toList, true)]
      ∧ statuses (steps launchEnv (initial scenarioFS) closedThenRunning).trace
        = ["starting".toList, "closed".toList, "running".toList, "closed".toList]
      ∧ statuses (steps launchEnv (initial scenarioFS) closedThenStarting).trace
        = ["closed".toList, "starting".toList]
      ∧ statuses (steps launchEnv (initial scenarioFS) closedBeforePoll).trace
        = ["closed".toList, "starting".toList]
      ∧ (steps launchEnv (initial scenarioFS) closedBeforePoll).phase
        = .done (.fatal "failed to get the latest release") := by
  refine ⟨by decide, by decide, by decide, by decide, by decide⟩

end Launcher

namespace Launcher

/-- Once a file has been selected and the working directory obtained, each install mode
reads the sizes first. `installAppReleaseArchive` panics at the read exactly when the chosen
archive file has no size, and `installAppRelease` exactly when some entry of the slice
`files` has none; the call then ends in the panic with the file system as it was and no
step taken (no download, no version file written, no error value). When the sizes are
there, the downloads are attempted and the call ends without a panic. With per-iteration
loop variables the entries of `files` are the files of type `release`. -/
theorem install_sizes_read_first (sem : LoopVar) (http : Str → HttpAnswer)
    (unzip : List Nat → Option (List ZipEntry)) (removeAllOk : Str → Bool) (fs : FS) (w : Str)
    (appId : UUID)
    (release : ReleaseV2) (entities : List File) (hfiles : release.Files = some entities) :
    (∀ archive, findArchive entities = some archive →
        (archive.Size = none →
          installAppReleaseArchive http unzip removeAllOk fs (some w) appId release
            = ⟨fs, [], 0, .panic "nil pointer dereference"⟩)
        ∧ (∀ size, archive.Size = some size →
            (∃ ok rest, (installAppReleaseArchive http unzip removeAllOk fs (some w) appId release).log
              = .download (installAppReleaseArchive_tempDownloadPath w appId release)
                  archive.Url ok :: rest)
            ∧ ∀ msg, (installAppReleaseArchive http unzip removeAllOk fs (some w) appId release).result
                ≠ .panic msg))
      ∧ (releaseFiles sem entities ≠ [] →
          ((∃ f ∈ releaseFiles sem entities, f.Size = none) →
            installAppRelease sem http removeAllOk fs (some w) appId release
              = ⟨fs, [], 0, .panic "nil pointer dereference"⟩)
          ∧ ((∀ f ∈ releaseFiles sem entities, f.Size ≠ none) →
              downloadAttempts (installAppRelease sem http removeAllOk fs (some w) appId release).log
                  = (releaseFiles sem entities).map
                      (fun f => (installAppRelease_tempDownloadPath w appId release, f.Url))
                ∧ ∀ msg, (installAppRelease sem http removeAllOk fs (some w) appId release).result
                    ≠ .panic msg))
      ∧ releaseFiles .perIteration entities
          = entities.filter (fun f => f.FileType = "release".toList) := by
  refine ⟨fun archive harchive => ⟨fun hnone => ?_, fun size hsize => ?_⟩,
    fun hne => ⟨fun hmiss => ?_, fun hall => ?_⟩, releaseFiles_perIteration entities⟩
  · simp only [installAppReleaseArchive, hfiles, harchive, hnone]
  · exact installAppReleaseArchive_after_size http unzip removeAllOk fs w appId release
      entities archive size hfiles harchive hsize
  · have hlen : ¬ (releaseFiles sem entities).length = 0 := by
      intro h; exact hne (List.length_eq_zero.mp h)
    have hs := (sumSizes_none_iff (releaseFiles sem entities) 0).mpr hmiss
    simp only [installAppRelease, hfiles, hlen, if_false, hs]
  · cases hs : sumSizes (releaseFiles sem entities) 0 with
    | none =>
      obtain ⟨f, hf, hfs⟩ := (sumSizes_none_iff (releaseFiles sem entities) 0).mp hs
      exact absurd hfs (hall f hf)
    | some total =>
      exact installAppRelease_after_sizes sem http removeAllOk fs w appId release entities
        total hfiles hne hs

set_option maxRecDepth 100000 in
/-- C26: with one loop variable per loop (language versions before 1.22) every entry of the
slice `files` reads the last file of the release, so the size read does not see the
collected files. For a release whose first file of type `release` has no size and whose
second one has, the read does not stop the installation: the second file is downloaded
twice and the call returns the error of the version write. For a release whose one file of
type `release` has a size and is followed by a file of type `image` without a size, the call
ends in the panic. With per-iteration loop variables the first installation ends in the
panic with no step taken and the file system as it was, and the second one goes on to the
download. The archive mode is the same for both: the chosen archive file without a size
ends the call in the panic with no step taken. -/
theorem installAppRelease_perLoop_size_read :
    (installAppRelease .perLoop twoFileHttp (fun _ => true) scenarioFS (some sampleWd)
        (uuidOfByte 10) sizelessFirstRelease).result = .err "failed to write version"
      ∧ downloadAttempts (installAppRelease .perLoop twoFileHttp (fun _ => true) scenarioFS
          (some sampleWd) (uuidOfByte 10) sizelessFirstRelease).log
          = [(installAppRelease_tempDownloadPath sampleWd (uuidOfByte 10)
                sizelessFirstRelease, "https://cdn/pak".toList),
             (installAppRelease_tempDownloadPath sampleWd (uuidOfByte 10)
                sizelessFirstRelease, "https://cdn/pak".toList)]
      ∧ (installAppRelease .perLoop twoFileHttp (fun _ => true) scenarioFS (some sampleWd)
          (uuidOfByte 10) sizelessFirstRelease).fs.lookup
          (installAppRelease_tempDownloadPath sampleWd (uuidOfByte 10) sizelessFirstRelease)
          = some (.file [5, 6])
      ∧ installAppRelease .perIteration twoFileHttp (fun _ => true) scenarioFS (some sampleWd)
          (uuidOfByte 10) sizelessFirstRelease
        = ⟨scenarioFS, [], 0, .panic "nil pointer dereference"⟩
      ∧ installAppRelease .perLoop twoFileHttp (fun _ => true) scenarioFS (some sampleWd)
          (uuidOfByte 10) sizelessImageRelease
        = ⟨scenarioFS, [], 0, .panic "nil pointer dereference"⟩
      ∧ downloadAttempts (installAppRelease .perIteration twoFileHttp (fun _ => true)
          scenarioFS (some sampleWd) (uuidOfByte 10) sizelessImageRelease).log
          = [(installAppRelease_tempDownloadPath sampleWd (uuidOfByte 10)
                sizelessImageRelease, "https://cdn/app".toList)]
      ∧ (installAppRelease .perIteration twoFileHttp (fun _ => true) scenarioFS
          (some sampleWd) (uuidOfByte 10) sizelessImageRelease).result
          = .err "failed to write version"
      ∧ installAppReleaseArchive twoFileHttp unzipOneMember (fun _ => true) scenarioFS
          (some sampleWd) (uuidOfByte 10) sizelessArchiveRelease
        = ⟨scenarioFS, [], 0, .panic "nil pointer dereference"⟩ := by
  refine ⟨by decide, by decide, by decide, by decide, by decide, by decide, by decide,
    by decide⟩

end Launcher
